import Mathlib

/-!
Verification of the Markdown↔Database sync engine of the personal-goodreads
repository (`services/markdown_sync_service.py`, `routes/admin.py`).

The Python code is shallowly embedded: pure functions become Lean functions,
the SQLAlchemy session becomes explicit state passing on a `DBState` record,
the filesystem becomes an association list from file name to contents, the
clock becomes an explicit `now : String` argument, and fallible code returns
`Option`.  Third-party library calls (`yaml.dump` / `yaml.safe_load`,
`json.dumps` / `json.loads`, `slugify`, `hashlib.sha256`) are modelled by
executable Lean functions on the fragment of inputs the service actually
produces and consumes (block mappings of plain scalars and block lists of
plain strings); SHA-256 is implemented in full.
-/

namespace GoodreadsSync

/-! ## Python string primitives (code-point semantics, as in CPython) -/

/-- The character class stripped by Python `str.strip()` / `str.rstrip()`
(ASCII whitespace; the service never feeds it other Unicode whitespace). -/
def pyWs (c : Char) : Bool :=
  c = ' ' || c = '\t' || c = '\n' || c = '\r' || c = '\x0b' || c = '\x0c'

/-- `str.strip()` on a character list. -/
def pyStripL (l : List Char) : List Char :=
  ((l.dropWhile pyWs).reverse.dropWhile pyWs).reverse

/-- Python `str.strip()`. -/
def pyStrip (s : String) : String := ⟨pyStripL s.data⟩

/-- Python `str.rstrip()`. -/
def pyRstrip (s : String) : String := ⟨(s.data.reverse.dropWhile pyWs).reverse⟩

/-- Split a character list on every occurrence of character `c`
(Python `str.split(c)` semantics: `n` separators yield `n+1` pieces). -/
def splitOnCharL (c : Char) : List Char → List (List Char)
  | [] => [[]]
  | x :: xs =>
    if x = c then [] :: splitOnCharL c xs
    else
      match splitOnCharL c xs with
      | l :: ls => (x :: l) :: ls
      | [] => [[x]]

/-- First index at which `pat` occurs as a contiguous sublist of `s`
(Python `str.find`, with `none` for Python's `-1`). -/
def strFindL (pat : List Char) : List Char → Option Nat
  | [] => if pat = [] then some 0 else none
  | x :: xs =>
    if pat.isPrefixOf (x :: xs) then some 0
    else (strFindL pat xs).map (· + 1)

/-- Python `body.find(pat)` on strings. -/
def strFind (s pat : String) : Option Nat := strFindL pat.data s.data

/-- Python slice `s[a:b]` (code-point indices). -/
def pySlice (s : String) (a b : Nat) : String := ⟨(s.data.drop a).take (b - a)⟩

/-- Python slice `s[a:]`. -/
def pySliceFrom (s : String) (a : Nat) : String := ⟨s.data.drop a⟩

/-- Kernel-reducible `startsWith`. -/
def pyStartsWith (s pre : String) : Bool := pre.data.isPrefixOf s.data

/-- Kernel-reducible `endsWith`. -/
def pyEndsWith (s suf : String) : Bool := suf.data.isSuffixOf s.data

/-- Kernel-reducible `intercalate`. -/
def myIntercalate (sep : String) : List String → String
  | [] => ""
  | [x] => x
  | x :: y :: xs => x ++ sep ++ myIntercalate sep (y :: xs)

/-- Python slice `s[:n]`. -/
def pyTake (s : String) (n : Nat) : String := ⟨s.data.take n⟩

/-- Drop the last `n` characters (`Path.stem` for a known suffix length). -/
def pyDropRight (s : String) (n : Nat) : String := ⟨s.data.take (s.data.length - n)⟩

/-- Split on the leftmost occurrences of `sep`, at most `fuel` times
(Python `str.split(sep)` for nonempty `sep`, given enough fuel). -/
def splitSepFuel (sep : List Char) : Nat → List Char → List (List Char)
  | 0, s => [s]
  | fuel + 1, s =>
    match strFindL sep s with
    | none => [s]
    | some i => s.take i :: splitSepFuel sep fuel (s.drop (i + sep.length))

/-- Python `content.split(sep, 2)`: split at the two leftmost occurrences
of `sep`; the remainder (further separators included) is the third piece. -/
def pySplitMax2 (s sep : String) : List String :=
  match strFindL sep.data s.data with
  | none => [s]
  | some i =>
    let rest := s.data.drop (i + sep.data.length)
    match strFindL sep.data rest with
    | none => [⟨s.data.take i⟩, ⟨rest⟩]
    | some j =>
      [⟨s.data.take i⟩, ⟨rest.take j⟩, ⟨rest.drop (j + sep.data.length)⟩]

/-! ## YAML values (the fragment the service reads and writes)

Frontmatter values in this system are strings, integers, booleans, `null`,
and flat lists of strings (`shelves`, and the synthetic `_highlights` key).
-/

/-- A YAML scalar-or-flat-list value as used in the service's frontmatter. -/
inductive YVal where
  | str (s : String)
  | int (n : Int)
  | bool (b : Bool)
  | list (xs : List String)
  | null
deriving DecidableEq, Repr

/-- Python truthiness of a frontmatter value (`if value:`). -/
def YVal.truthy : YVal → Bool
  | .str s => s ≠ ""
  | .int n => n ≠ 0
  | .bool b => b
  | .list xs => xs ≠ []
  | .null => false

/-- Result of `yaml.safe_load` on a metadata block: either a mapping
(the normal case) or a non-mapping document (bare scalar / empty document),
which the Python code accepts without checking. -/
inductive Yaml where
  | map (kvs : List (String × YVal))
  | scalar (v : YVal)
deriving DecidableEq, Repr

/-- Characters that may appear in a plain (unquoted) YAML scalar in our
modelled fragment. -/
def plainChar (c : Char) : Bool :=
  c.isAlpha || c.isDigit || c = ' ' || c = '.' || c = ',' ||
  c = '!' || c = '?' || c = '_' || c = '(' || c = ')' || c = '/'

/-- An integer literal as `yaml.safe_load` resolves it (optional sign,
then digits). -/
def isIntLit (l : List Char) : Bool :=
  match l with
  | [] => false
  | c :: cs =>
    if c = '-' then cs ≠ [] && cs.all Char.isDigit
    else (c :: cs).all Char.isDigit

/-- The plain tokens the YAML 1.1 resolver turns into non-string values. -/
def yamlReserved : List String :=
  ["~", "null", "Null", "NULL", "true", "True", "TRUE", "yes", "Yes", "YES",
   "on", "On", "ON", "false", "False", "FALSE", "no", "No", "NO",
   "off", "Off", "OFF"]

/-- Strings that `yaml.dump` emits plain and `yaml.safe_load` reads back as
the same string: non-empty, made of plain characters, not padded with
spaces, not resembling a number, not a reserved token. -/
def plainSafe (s : String) : Bool :=
  s.data ≠ [] && s.data.all plainChar &&
  !(pyWs s.data.head!) && !(pyWs s.data.getLast!) &&
  !(s.data.all fun c => c.isDigit || c = '.' || c = ' ') &&
  !(yamlReserved.contains s)

/-- Decimal digit character. -/
def digitChar : Nat → Char
  | 0 => '0' | 1 => '1' | 2 => '2' | 3 => '3' | 4 => '4'
  | 5 => '5' | 6 => '6' | 7 => '7' | 8 => '8' | _ => '9'

/-- Decimal digits of a natural number (fuelled; `fuel ≥ n` suffices). -/
def natDigitsAux : Nat → Nat → List Char
  | 0, _ => []
  | fuel + 1, n =>
    if n < 10 then [digitChar n]
    else natDigitsAux fuel (n / 10) ++ [digitChar (n % 10)]

/-- Decimal rendering of a natural number. -/
def natToStr (n : Nat) : String := ⟨natDigitsAux (n + 1) n⟩

/-- Decimal rendering of an integer (as `str(int)` / yaml emit it). -/
def intToStr : Int → String
  | .ofNat m => natToStr m
  | .negSucc m => "-" ++ natToStr (m + 1)

/-- Render one scalar the way `yaml.dump` does on our fragment: plain when
safe, single-quoted otherwise, `''` for the empty string. -/
def renderScalar : YVal → String
  | .str s => if s = "" then "''" else if plainSafe s then s else "'" ++ s ++ "'"
  | .int n => intToStr n
  | .bool b => if b then "true" else "false"
  | .list _ => "[]"   -- only reached for the empty list (block case handled by caller)
  | .null => "null"

/-- The lines `yaml.dump` emits for one key/value pair (block style,
list items unindented, exactly as pyyaml's default emitter). -/
def renderPairLines (kv : String × YVal) : List String :=
  match kv.2 with
  | .list (x :: xs) => (kv.1 ++ ":") :: (x :: xs).map (fun h => "- " ++ h)
  | v => [kv.1 ++ ": " ++ renderScalar v]

/-- `yaml.dump(mapping, sort_keys=False)` on our fragment: one block line
per pair, in insertion order, each line newline-terminated. -/
def yamlDump (kvs : List (String × YVal)) : String :=
  String.join ((kvs.map renderPairLines).flatten.map (· ++ "\n"))

/-- Lexicographic sort of the pairs by key, as `yaml.dump(..., sort_keys=True)`
performs before emitting. -/
def sortPairs (kvs : List (String × YVal)) : List (String × YVal) :=
  kvs.mergeSort (fun a b => a.1 ≤ b.1)

/-- `yaml.dump(mapping, sort_keys=True)` on our fragment. -/
def yamlDumpSorted (kvs : List (String × YVal)) : String :=
  yamlDump (sortPairs kvs)

/-- Decimal digits to a natural number. -/
def digitsToNat (l : List Char) : Nat :=
  l.foldl (fun a c => a * 10 + (c.toNat - 48)) 0

/-- Value of an integer literal (see `isIntLit`). -/
def parseIntLit (s : String) : Int :=
  match s.data with
  | [] => 0
  | c :: cs =>
    if c = '-' then -(digitsToNat cs : Int) else (digitsToNat (c :: cs) : Int)

/-- Resolve one plain scalar token the way `yaml.safe_load` (YAML 1.1
resolver) does on our fragment. -/
def parseScalar (s : String) : YVal :=
  if s = "" || ["~", "null", "Null", "NULL"].contains s then .null
  else if ["true", "True", "TRUE", "yes", "Yes", "YES", "on", "On", "ON"].contains s then
    .bool true
  else if ["false", "False", "FALSE", "no", "No", "NO", "off", "Off", "OFF"].contains s then
    .bool false
  else if s = "[]" then .list []
  else if isIntLit s.data then .int (parseIntLit s)
  else
    match s.data with
    | '\'' :: c :: rest =>
      if (c :: rest).getLast! = '\'' then .str ⟨(c :: rest).dropLast⟩ else .str s
    | _ => .str s

/-- Split a line at its first colon: `some (key, rest-after-colon)`. -/
def splitFirstColon : List Char → Option (List Char × List Char)
  | [] => none
  | c :: cs =>
    if c = ':' then some ([], cs)
    else (splitFirstColon cs).map (fun p => (c :: p.1, p.2))

/-- Emit a pending `key:` entry: a block list when items were collected
(in reverse), `null` when none followed. -/
def flushPending : Option (String × List String) → List (String × YVal)
  | none => []
  | some (k, items) =>
    [(k, if items.isEmpty then YVal.null else YVal.list items.reverse)]

/-- Single pass over the lines of a block mapping (`yaml.safe_load` on our
fragment): `key: value` lines, `key:` introducing an unindented `- item`
block list (or `null` when no items follow), blank lines skipped; a stray
`- item` line with no preceding `key:` is an error. -/
def loadLinesGo : Option (String × List String) → List String →
    Option (List (String × YVal))
  | p, [] => some (flushPending p)
  | p, l :: rest =>
    if pyStartsWith l "- " then
      match p with
      | some ki => loadLinesGo (some (ki.1, pyStrip (pySliceFrom l 2) :: ki.2)) rest
      | none => none
    else if pyStrip l = "" then
      (loadLinesGo none rest).map (fun m => flushPending p ++ m)
    else
      match splitFirstColon l.data with
      | none => none
      | some kv =>
        if kv.2 = [] then
          (loadLinesGo (some (⟨kv.1⟩, [])) rest).map (fun m => flushPending p ++ m)
        else if kv.2.head! = ' ' then
          (loadLinesGo none rest).map (fun m =>
            flushPending p ++ [((⟨kv.1⟩ : String), parseScalar (pyStrip ⟨kv.2⟩))] ++ m)
        else none

/-- Parse the lines of a block mapping. -/
def loadLines (lines : List String) : Option (List (String × YVal)) :=
  loadLinesGo none lines

/-- `yaml.safe_load` on a metadata block of our fragment: a mapping when the
block has mapping lines, `null` for an empty document, a bare scalar for a
single plain non-mapping line, and `none` (a raised `YAMLError`) otherwise. -/
def yamlLoad (text : String) : Option Yaml :=
  let lines := (splitOnCharL '\n' text.data).map (fun l => (⟨l⟩ : String))
  let nonblank := lines.filter (fun l => pyStrip l ≠ "")
  match nonblank with
  | [] => some (.scalar .null)
  | [l] =>
    if (splitFirstColon l.data).isSome then (loadLines lines).map .map
    else if (pyStrip l).data.all plainChar && (pyStrip l).data ≠ [] then
      some (.scalar (parseScalar (pyStrip l)))
    else none
  | _ => (loadLines lines).map .map

/-! ## The document model (`MarkdownBook`) and the file codec -/

/-- `MarkdownBook`: frontmatter plus the three body payloads.  The
`file_path` attribute of the Python class carries no content and is
omitted. -/
structure MarkdownBook where
  frontmatter : Yaml
  review_text : Option String
  private_notes : Option String
  highlights : List String
deriving DecidableEq, Repr

/-- `MarkdownSyncService._parse_bullet_list`: strip each line, keep lines
starting with `"- "`, strip the prefix and the remainder, drop empties. -/
def parseBulletList (text : String) : List String :=
  (splitOnCharL '\n' text.data).filterMap (fun l =>
    let line := pyStrip ⟨l⟩
    if pyStartsWith line "- " then
      let content := pyStrip (pySliceFrom line 2)
      if content = "" then none else some content
    else none)

/-- `MarkdownSyncService._parse_markdown_sections`: locate the three
headings by substring search; Review and Highlights run to the least
later-found heading position (or end of body); Private Notes runs from just
after its heading to the end of the body. -/
def parseMarkdownSections (body : String) :
    Option String × List String × Option String :=
  let posR := strFind body "# Review"
  let posH := strFind body "# Highlights"
  let posP := strFind body "# Private Notes"
  let found : List Nat := [posR, posH, posP].reduceOption
  let endAfter : Nat → Nat := fun p =>
    ((found.filter (fun q => decide (p < q))).min?).getD body.length
  let review :=
    match posR with
    | some p =>
      let t := pyStrip (pySlice body (p + "# Review".length) (endAfter p))
      if t = "" then none else some t
    | none => none
  let hls :=
    match posH with
    | some p =>
      parseBulletList (pyStrip (pySlice body (p + "# Highlights".length) (endAfter p)))
    | none => []
  let pnotes :=
    match posP with
    | some p =>
      let t := pyStrip (pySliceFrom body (p + "# Private Notes".length))
      if t = "" then none else some t
    | none => none
  (review, hls, pnotes)

/-- Python truthiness of an optional string (`if md_book.review_text:`). -/
def optTruthy : Option String → Bool
  | some s => s ≠ ""
  | none => false

/-- `MarkdownSyncService._write_markdown_file`, content construction: the
exact string written (frontmatter cleaned of `None` values and `sync_hash`,
then the three optional sections).  The file-system step is modelled at the
call sites. -/
def writeMarkdownContent (fm : List (String × YVal)) (review pnotes : Option String)
    (hls : List String) : String :=
  let clean := fm.filter (fun kv => !(kv.2 = YVal.null) && !(kv.1 = "sync_hash"))
  "---" ++ yamlDump clean ++ "---\n" ++
  (if optTruthy review then "# Review\n" ++ pyRstrip (review.getD "") ++ "\n\n" else "") ++
  (if hls.isEmpty then "" else
    "# Highlights\n" ++ String.join (hls.map (fun h => "- " ++ h ++ "\n")) ++ "\n") ++
  (if optTruthy pnotes then "# Private Notes\n" ++ pyRstrip (pnotes.getD "") ++ "\n" else "")

/-- The frontmatter mapping after `_write_markdown_file`'s in-place cleaning
(`None` values and `sync_hash` removed) — this is what the subsequent hash
calculation sees. -/
def cleanFm (fm : List (String × YVal)) : List (String × YVal) :=
  fm.filter (fun kv => !(kv.2 = YVal.null) && !(kv.1 = "sync_hash"))

/-- `MarkdownSyncService._parse_markdown_file` on file contents: requires
the leading `---` marker, splits on the first two `---` occurrences, feeds
the middle to `yaml.safe_load`, and parses the body sections; any failure
yields `none`. -/
def parseMarkdownFile (content : String) : Option MarkdownBook :=
  if !pyStartsWith content "---" then none
  else
    match pySplitMax2 content "---" with
    | [_, p1, p2] =>
      match yamlLoad p1 with
      | none => none
      | some fm =>
        let body := pyStrip p2
        let secs := parseMarkdownSections body
        some ⟨fm, secs.1, secs.2.2, secs.2.1⟩
    | _ => none

/-! ## SHA-256 (`hashlib.sha256`), UTF-8, JSON list codec, slugify -/

/-- Reduce modulo 2^32 (all SHA-256 word arithmetic). -/
def w32 (n : Nat) : Nat := n % 4294967296

/-- 32-bit right rotation. -/
def rotr (n k : Nat) : Nat := w32 ((n >>> k) ||| (n <<< (32 - k)))

/-- UTF-8 encoding of one character (continuation bytes written as
`128 + …`, which agrees with the bitwise definition on code points). -/
def utf8EncodeChar (c : Char) : List Nat :=
  let n := c.toNat
  if n < 128 then [n]
  else if n < 2048 then
    [192 + n / 64, 128 + n % 64]
  else if n < 65536 then
    [224 + n / 4096, 128 + (n / 64) % 64, 128 + n % 64]
  else
    [240 + n / 262144, 128 + (n / 4096) % 64, 128 + (n / 64) % 64, 128 + n % 64]

/-- Python `str.encode()`: UTF-8 bytes of a string. -/
def utf8Bytes (s : String) : List Nat := (s.data.map utf8EncodeChar).flatten

/-- The 64 SHA-256 round constants (FIPS 180-4, written in decimal). -/
def sha256K : List Nat :=
  [1116352408, 1899447441, 3049323471, 3921009573, 961987163,
   1508970993, 2453635748, 2870763221, 3624381080, 310598401,
   607225278, 1426881987, 1925078388, 2162078206, 2614888103,
   3248222580, 3835390401, 4022224774, 264347078, 604807628,
   770255983, 1249150122, 1555081692, 1996064986, 2554220882,
   2821834349, 2952996808, 3210313671, 3336571891, 3584528711,
   113926993, 338241895, 666307205, 773529912, 1294757372,
   1396182291, 1695183700, 1986661051, 2177026350, 2456956037,
   2730485921, 2820302411, 3259730800, 3345764771, 3516065817,
   3600352804, 4094571909, 275423344, 430227734, 506948616,
   659060556, 883997877, 958139571, 1322822218, 1537002063,
   1747873779, 1955562222, 2024104815, 2227730452, 2361852424,
   2428436474, 2756734187, 3204031479, 3329325298]

/-- The SHA-256 initial hash value (FIPS 180-4, written in decimal). -/
def sha256H0 : List Nat :=
  [1779033703, 3144134277, 1013904242, 2773480762,
   1359893119, 2600822924, 528734635, 1541459225]

/-- SHA-256 padding: append `0x80`, zeros to 56 mod 64, then the bit length
as 8 big-endian bytes. -/
def sha256Pad (msg : List Nat) : List Nat :=
  let L := msg.length
  let zeros := (119 - (L % 64)) % 64
  let bitLen := 8 * L
  msg ++ [128] ++ List.replicate zeros 0 ++
    (List.range 8).map (fun i => (bitLen >>> (56 - 8 * i)) % 256)

/-- Split a byte list into 64-byte blocks. -/
def chunks64 : List Nat → List (List Nat)
  | [] => []
  | x :: xs => ((x :: xs).take 64) :: chunks64 ((x :: xs).drop 64)
termination_by l => l.length
decreasing_by simp only [List.length_drop, List.length_cons]; omega

/-- Big-endian 32-bit word from four bytes. -/
def beWord (bs : List Nat) : Nat :=
  bs.foldl (fun a b => a * 256 + b) 0

/-- One step of the SHA-256 message-schedule extension. -/
def extendStep (w : List Nat) : List Nat :=
  let i := w.length
  let x15 := w.getD (i - 15) 0
  let x2 := w.getD (i - 2) 0
  let s0 := w32 (Nat.xor (Nat.xor (rotr x15 7) (rotr x15 18)) (x15 >>> 3))
  let s1 := w32 (Nat.xor (Nat.xor (rotr x2 17) (rotr x2 19)) (x2 >>> 10))
  w ++ [w32 (w.getD (i - 16) 0 + s0 + w.getD (i - 7) 0 + s1)]

/-- One SHA-256 compression round. -/
def roundStep (st : List Nat) (kw : Nat × Nat) : List Nat :=
  match st with
  | [a, b, c, d, e, f, g, h] =>
    let S1 := w32 (Nat.xor (Nat.xor (rotr e 6) (rotr e 11)) (rotr e 25))
    let ch := w32 (Nat.xor (Nat.land e f) (Nat.land (Nat.xor e 4294967295) g))
    let temp1 := w32 (h + S1 + ch + kw.1 + kw.2)
    let S0 := w32 (Nat.xor (Nat.xor (rotr a 2) (rotr a 13)) (rotr a 22))
    let maj := w32 (Nat.xor (Nat.xor (Nat.land a b) (Nat.land a c)) (Nat.land b c))
    let temp2 := w32 (S0 + maj)
    [w32 (temp1 + temp2), a, b, c, w32 (d + temp1), e, f, g]
  | st => st

/-- Compress one 64-byte block into the running hash state. -/
def compressBlock (h : List Nat) (block : List Nat) : List Nat :=
  let w0 := (List.range 16).map (fun i => beWord ((block.drop (4 * i)).take 4))
  let w := (List.range 48).foldl (fun acc _ => extendStep acc) w0
  let final := (sha256K.zip w).foldl roundStep h
  List.zipWith (fun x y => w32 (x + y)) h final

/-- Hex digit character. -/
def hexDigit (n : Nat) : Char := "0123456789abcdef".data.getD n '0'

/-- Eight lowercase hex digits of a 32-bit word. -/
def wordHex (n : Nat) : List Char :=
  (List.range 8).map (fun i => hexDigit ((n >>> (28 - 4 * i)) % 16))

/-- `hashlib.sha256(bytes).hexdigest()`. -/
def sha256Hex (msg : List Nat) : String :=
  ⟨(((sha256Pad msg |> chunks64).foldl compressBlock sha256H0).map wordHex).flatten⟩

/-- `json.dumps` of a list of strings (strings in our fragment contain no
characters needing escapes). -/
def jsonDumpsList (xs : List String) : String :=
  "[" ++ myIntercalate ", " (xs.map (fun s => "\"" ++ s ++ "\"")) ++ "]"

/-- `json.loads` restricted to the lists `jsonDumpsList` produces: the
service only ever round-trips its own output through the `highlights`
column.  Returns `none` (a raised `JSONDecodeError`) off the fragment. -/
def jsonLoadsList (s : String) : Option (List String) :=
  if s = "[]" then some []
  else if pyStartsWith s "[\"" && pyEndsWith s "\"]" then
    some ((splitSepFuel "\", \"".data s.length (pySlice s 2 (s.length - 2)).data).map
      (fun l => (⟨l⟩ : String)))
  else none

/-- `slugify(title, max_length=100)` (python-slugify): lowercase, non-word
runs collapsed to single hyphens, trimmed, truncated to at most 100
characters on a word boundary. -/
def slugify (title : String) : String :=
  let mapped := title.data.map (fun c => if c.isAlphanum then c.toLower else ' ')
  let words := (splitOnCharL ' ' mapped).filter (fun w => w ≠ [])
  let joined := myIntercalate "-" (words.map (fun w => (⟨w⟩ : String)))
  if joined.length ≤ 100 then joined
  else
    let keep := (joined.data.take 100).reverse.dropWhile (fun c => c ≠ '-')
    ⟨(keep.dropWhile (fun c => c = '-')).reverse⟩

/-- `MarkdownSyncService._generate_filename`. -/
def generateFilename (title : String) : String := slugify title ++ ".md"

/-- Python dict assignment `d[k] = v`: overwrite in place if present,
else append (insertion order preserved). -/
def pyDictSet (kvs : List (String × YVal)) (k : String) (v : YVal) :
    List (String × YVal) :=
  if kvs.any (fun kv => kv.1 = k) then
    kvs.map (fun kv => if kv.1 = k then (k, v) else kv)
  else kvs ++ [(k, v)]

/-- `MarkdownSyncService._calculate_sync_hash` on a document whose
frontmatter is the mapping `fm`: drop the bookkeeping keys, add the three
synthetic body keys, dump with sorted keys, SHA-256, first 16 hex chars. -/
def calculateSyncHash (fm : List (String × YVal)) (review pnotes : Option String)
    (hls : List String) : String :=
  let content := fm.filter (fun kv =>
    !(kv.1 = "last_synced") && !(kv.1 = "sync_hash") && !(kv.1 = "updated_at"))
  let content := pyDictSet content "_review_text" (.str (review.getD ""))
  let content := pyDictSet content "_highlights" (.list hls)
  let content := pyDictSet content "_private_notes" (.str (pnotes.getD ""))
  pyTake (sha256Hex (utf8Bytes (yamlDumpSorted content))) 16

/-! ## Persisted-record model (the SQLAlchemy rows the sync engine touches) -/

/-- Content columns of the `books` table that the sync engine reads or
writes.  Values are kept in frontmatter form (`YVal`); datetimes are
modelled by their ISO strings. -/
structure BookFields where
  title : YVal
  author : YVal
  isbn : YVal
  isbn13 : YVal
  publisher : YVal
  binding : YVal
  pages : YVal
  year_published : YVal
  original_publication_year : YVal
  goodreads_book_id : YVal
  cover_image_url : YVal
  date_added : YVal
deriving DecidableEq, Repr

/-- Content columns of the `reading_records` table used by the sync. -/
structure ReadingFields where
  status : YVal
  date_started : YVal
  date_finished : YVal
  read_count : YVal
deriving DecidableEq, Repr

/-- Content columns of the `reviews` table used by the sync
(`highlights` is the JSON-encoded column). -/
structure ReviewFields where
  rating : YVal
  review_text : Option String
  private_notes : Option String
  highlights : Option String
  is_spoiler : YVal
deriving DecidableEq, Repr

/-- A persisted book row: content fields plus the two sync bookkeeping
columns. -/
structure BookRow where
  id : Nat
  fields : BookFields
  sync_hash : Option String
  last_synced_at : Option String
deriving DecidableEq, Repr

/-- A persisted reading-record row. -/
structure ReadingRow where
  book_id : Nat
  fields : ReadingFields
deriving DecidableEq, Repr

/-- A persisted review row. -/
structure ReviewRow where
  book_id : Nat
  fields : ReviewFields
deriving DecidableEq, Repr

/-- A shelf row. -/
structure ShelfRow where
  id : Nat
  name : String
  color : String
deriving DecidableEq, Repr

/-- A book↔shelf association row with its ordering position. -/
structure BookShelfRow where
  book_id : Nat
  shelf_id : Nat
  position : Nat
deriving DecidableEq, Repr

/-- The persisted store visible to the sync engine. -/
structure DBState where
  books : List BookRow
  readings : List ReadingRow
  reviews : List ReviewRow
  shelves : List ShelfRow
  bookShelves : List BookShelfRow
deriving DecidableEq, Repr

/-- A crude ISO-format check standing for `datetime.fromisoformat`
succeeding: `YYYY-MM-DD` with an optional time part. -/
def isoLike (s : String) : Bool :=
  match s.data with
  | y1 :: y2 :: y3 :: y4 :: '-' :: m1 :: m2 :: '-' :: d1 :: d2 :: rest =>
    [y1, y2, y3, y4, m1, m2, d1, d2].all Char.isDigit &&
    (rest = [] || rest.head! = 'T' || rest.head! = ' ')
  | _ => false

/-- `MarkdownBook._parse_datetime`: falsy → `None`; a parseable ISO string
→ the datetime (modelled by the string); anything else → `None`. -/
def pyParseDatetime (v : YVal) : YVal :=
  if !v.truthy then .null
  else match v with
    | .str s => if isoLike s then .str s else .null
    | _ => .null

/-- `MarkdownBook._parse_date`: falsy → `None`; a parseable ISO string →
the datetime; a non-string truthy value is returned unchanged. -/
def pyParseDate (v : YVal) : YVal :=
  if !v.truthy then .null
  else match v with
    | .str s => if isoLike s then .str s else .null
    | v => v

/-- Python `frontmatter.get(k, default)` on a mapping. -/
def fmGet (fm : List (String × YVal)) (k : String) (d : YVal) : YVal :=
  match fm.find? (fun kv => kv.1 == k) with
  | some kv => kv.2
  | none => d

/-- The field sets built by `MarkdownBook.to_db_models` from a mapping
frontmatter and the three body payloads. -/
def toDbFields (fm : List (String × YVal)) (review pnotes : Option String)
    (hls : List String) : BookFields × ReadingFields × ReviewFields :=
  ({ title := fmGet fm "title" (.str "Untitled")
     author := fmGet fm "author" (.str "")
     isbn := fmGet fm "isbn" .null
     isbn13 := fmGet fm "isbn13" .null
     publisher := fmGet fm "publisher" .null
     binding := fmGet fm "binding" .null
     pages := fmGet fm "pages" .null
     year_published := fmGet fm "year_published" .null
     original_publication_year := fmGet fm "original_publication_year" .null
     goodreads_book_id := fmGet fm "goodreads_book_id" .null
     cover_image_url := fmGet fm "cover_image_url" .null
     date_added := pyParseDatetime (fmGet fm "date_added" .null) },
   { status := fmGet fm "status" (.str "to-read")
     date_started := pyParseDate (fmGet fm "date_started" .null)
     date_finished := pyParseDate (fmGet fm "date_finished" .null)
     read_count := fmGet fm "read_count" (.int 1) },
   { rating := fmGet fm "rating" .null
     review_text := review
     private_notes := pnotes
     highlights := if hls.isEmpty then none else some (jsonDumpsList hls)
     is_spoiler := fmGet fm "is_spoiler" (.bool false) })

/-- `MarkdownBook.to_db_models`: `none` models the `AttributeError` raised
by `.get` when the parsed frontmatter is not a mapping (caught by the
caller's blanket handler). -/
def MarkdownBook.to_db_models (b : MarkdownBook) :
    Option (BookFields × ReadingFields × ReviewFields) :=
  match b.frontmatter with
  | .map fm => some (toDbFields fm b.review_text b.private_notes b.highlights)
  | .scalar _ => none

/-- `book.date_added.isoformat() if book.date_added else None` (datetimes
are modelled by their ISO strings, so `isoformat` is the identity on
truthy values). -/
def isoformatOpt (v : YVal) : YVal := if v.truthy then v else .null

/-- String form of a `YVal` where the Python code passes it to a
string-consuming API (`slugify(book.title)`); only `.str` occurs along the
modelled paths. -/
def yvalAsStr : YVal → String
  | .str s => s
  | .int n => toString n
  | .bool b => if b then "True" else "False"
  | .list _ => ""
  | .null => ""

/-- Shelf names of a book in association order
(`[bs.shelf.name for bs in book.book_shelves]`). -/
def shelfNamesOf (db : DBState) (book_id : Nat) : List String :=
  (db.bookShelves.filter (fun bs => bs.book_id == book_id)).filterMap
    (fun bs => (db.shelves.find? (fun s => s.id == bs.shelf_id)).map (·.name))

/-- The timestamp-independent part of `MarkdownBook.from_db_models`:
frontmatter (before the final `last_synced` insertion) in the exact
insertion order of the Python code, plus the three body payloads. -/
def from_db_base (book : BookRow) (rr : Option ReadingRow) (rv : Option ReviewRow)
    (shelfNames : List String) :
    List (String × YVal) × Option String × Option String × List String :=
  let base : List (String × YVal) :=
    [("title", book.fields.title),
     ("author", book.fields.author),
     ("isbn", book.fields.isbn),
     ("isbn13", book.fields.isbn13),
     ("publisher", book.fields.publisher),
     ("binding", book.fields.binding),
     ("pages", book.fields.pages),
     ("year_published", book.fields.year_published),
     ("original_publication_year", book.fields.original_publication_year),
     ("goodreads_book_id", book.fields.goodreads_book_id),
     ("cover_image_url", book.fields.cover_image_url),
     ("date_added", isoformatOpt book.fields.date_added)]
  let withRr := base ++
    (match rr with
     | some r =>
       [("status", r.fields.status),
        ("date_started", isoformatOpt r.fields.date_started),
        ("date_finished", isoformatOpt r.fields.date_finished),
        ("read_count", r.fields.read_count)]
     | none => [])
  let withRv := withRr ++
    (match rv with
     | some r => [("rating", r.fields.rating), ("is_spoiler", r.fields.is_spoiler)]
     | none => [])
  let review_text := match rv with | some r => r.fields.review_text | none => none
  let private_notes := match rv with | some r => r.fields.private_notes | none => none
  let highlights := match rv with
    | some r =>
      if optTruthy r.fields.highlights then
        (jsonLoadsList (r.fields.highlights.getD "")).getD []
      else []
    | none => []
  let withShelves := withRv ++
    (if shelfNames.isEmpty then [] else [("shelves", YVal.list shelfNames)])
  (withShelves, review_text, private_notes, highlights)

/-- `MarkdownBook.from_db_models`: the base frontmatter plus the final
`frontmatter['last_synced'] = datetime.utcnow().isoformat()` insertion
(`now` is that timestamp). -/
def from_db_models (book : BookRow) (rr : Option ReadingRow) (rv : Option ReviewRow)
    (shelfNames : List String) (now : String) :
    List (String × YVal) × Option String × Option String × List String :=
  ((from_db_base book rr rv shelfNames).1 ++ [("last_synced", YVal.str now)],
   (from_db_base book rr rv shelfNames).2)

/-! ## The sync engine operations -/

/-- Filesystem as an association list name → contents. -/
def fsGet : List (String × String) → String → Option String
  | [], _ => none
  | f :: fs, n => if f.1 = n then some f.2 else fsGet fs n

/-- Write (create or overwrite) a file. -/
def fsSet : List (String × String) → String → String → List (String × String)
  | [], n, c => [(n, c)]
  | f :: fs, n, c => if f.1 = n then (n, c) :: fs else f :: fsSet fs n c

/-- Delete a file. -/
def fsDel : List (String × String) → String → List (String × String)
  | [], _ => []
  | f :: fs, n => if f.1 = n then fsDel fs n else f :: fsDel fs n

/-- Update one book row's bookkeeping columns. -/
def setSyncMeta (db : DBState) (book_id : Nat) (hash now : String) : DBState :=
  { db with books := db.books.map (fun b =>
      if b.id == book_id then { b with sync_hash := some hash, last_synced_at := some now }
      else b) }

/-- `MarkdownSyncService.sync_db_to_markdown` (PushToFile): look up the
book, build the document, write its file, store hash and timestamp.
Returns the success flag with the new store and filesystem. -/
def syncDbToMarkdown (db : DBState) (fs : List (String × String)) (book_id : Nat)
    (now : String) : Bool × DBState × List (String × String) :=
  match db.books.find? (fun b => b.id == book_id) with
  | none => (false, db, fs)
  | some book =>
    let rr := db.readings.find? (fun r => r.book_id == book.id)
    let rv := db.reviews.find? (fun r => r.book_id == book.id)
    let md := from_db_models book rr rv (shelfNamesOf db book.id) now
    let filename := generateFilename (yvalAsStr book.fields.title)
    let content := writeMarkdownContent md.1 md.2.1 md.2.2.1 md.2.2.2
    let fs' := fsSet fs filename content
    let hash := calculateSyncHash (cleanFm md.1) md.2.1 md.2.2.1 md.2.2.2
    (true, setSyncMeta db book.id hash now, fs')

/-- Largest used book id (models the autoincrement obtained at `flush`). -/
def nextBookId (db : DBState) : Nat :=
  (db.books.map (·.id)).foldr max 0 + 1

/-- Largest used shelf id. -/
def nextShelfId (db : DBState) : Nat :=
  (db.shelves.map (·.id)).foldr max 0 + 1

/-- `MarkdownSyncService._update_book_from_markdown`: the exact field set
the code copies — six book columns, the reading-record columns (when the
sub-record exists), and four review columns (when the sub-record exists;
`highlights` is not copied). -/
def updateBookFromMarkdown (db : DBState) (book_id : Nat) (bf : BookFields)
    (rf : ReadingFields) (vf : ReviewFields) : DBState :=
  { db with
    books := db.books.map (fun b =>
      if b.id == book_id then
        { b with fields := { b.fields with
            title := bf.title, author := bf.author, publisher := bf.publisher,
            binding := bf.binding, pages := bf.pages,
            year_published := bf.year_published } }
      else b),
    readings := db.readings.map (fun r =>
      if r.book_id == book_id then
        { r with fields := { status := rf.status, date_started := rf.date_started,
                             date_finished := rf.date_finished,
                             read_count := rf.read_count } }
      else r),
    reviews := db.reviews.map (fun r =>
      if r.book_id == book_id then
        { r with fields := { r.fields with
            rating := vf.rating, review_text := vf.review_text,
            private_notes := vf.private_notes, is_spoiler := vf.is_spoiler } }
      else r) }

/-- The `shelves` frontmatter entry as the list `_sync_shelves` iterates
(only list values occur in the modelled fragment). -/
def shelvesList : YVal → List String
  | .list xs => xs
  | _ => []

/-- One iteration of `_sync_shelves`'s loop: find or create the shelf,
then append the association at the given position. -/
def syncShelvesStep (book_id : Nat) (acc : DBState) (pn : Nat × String) : DBState :=
  match acc.shelves.find? (fun s => s.name == pn.2) with
  | some sh =>
    { acc with bookShelves := acc.bookShelves ++ [⟨book_id, sh.id, pn.1⟩] }
  | none =>
    let sid := nextShelfId acc
    { acc with
      shelves := acc.shelves ++ [⟨sid, pn.2, "#3498db"⟩],
      bookShelves := acc.bookShelves ++ [⟨book_id, sid, pn.1⟩] }

/-- `MarkdownSyncService._sync_shelves`: delete all associations of the
book, then re-create one per name (creating unknown shelves with the
default color), position following name order. -/
def syncShelves (db : DBState) (book_id : Nat) (names : List String) : DBState :=
  let db0 := { db with
    bookShelves := db.bookShelves.filter (fun bs => !(bs.book_id == book_id)) }
  names.enum.foldl (syncShelvesStep book_id) db0

/-- Duplicate test on a list of ids. -/
def hasDupNat : List Nat → Bool
  | [] => false
  | x :: xs => xs.contains x || hasDupNat xs

/-- The `books`-table constraints (`models/book.py`) that the create
path's `INSERT` can violate when `db.flush()` runs: `NOT NULL` on
`title`, and `UNIQUE` on `isbn`, `isbn13` and `goodreads_book_id` — SQL
`UNIQUE` ignores `NULL` values, so only a non-null new value that equals
an existing row's value of the same column conflicts.  A violation makes
`flush` raise `IntegrityError`. -/
def insertConflict (db : DBState) (bf : BookFields) : Bool :=
  bf.title == .null ||
  (!(bf.isbn == .null) && db.books.any (fun b => b.fields.isbn == bf.isbn)) ||
  (!(bf.isbn13 == .null) && db.books.any (fun b => b.fields.isbn13 == bf.isbn13)) ||
  (!(bf.goodreads_book_id == .null) &&
    db.books.any (fun b => b.fields.goodreads_book_id == bf.goodreads_book_id))

/-- `MarkdownSyncService.sync_markdown_to_db` (PullFromFile) on the
contents of the file: parse, convert, resolve by ISBN-13 else ISBN-10
(each only when the document's own field is truthy), then update in place
or create (with shelf resync only on the create path).

On the update path `_update_book_from_markdown` copies fields onto the
persistent row, but `book.sync_hash = ...` and `book.last_synced_at = ...`
are then assigned to the transient `to_db_models()` `Book` that is never
added to the session on this path, so the matched row's bookkeeping
columns keep their previous values; writing a `NULL` title onto the row
violates the column's `NOT NULL` constraint at commit, which rolls back.
On the create path the transient `Book` *is* added, so the hash and
timestamp persist on the new row; `db.flush()` raises `IntegrityError`
when the insert violates a `books`-table constraint (`insertConflict`),
and the commit raises when two of the freshly inserted shelf associations
repeat a `(book_id, shelf_id)` pair (the `unique_book_shelf` constraint of
`models/shelf.py`).  Every raise is caught by the blanket handler, which
rolls back to the original store and returns `False`, as do `none`
returns from parsing. -/
def syncMarkdownToDb (db : DBState) (content : String) (now : String) :
    Bool × DBState :=
  match parseMarkdownFile content with
  | none => (false, db)
  | some md =>
    match md.frontmatter with
    | .scalar _ => (false, db)
    | .map fm =>
      let conv := toDbFields fm md.review_text md.private_notes md.highlights
      let bf := conv.1
      let rf := conv.2.1
      let vf := conv.2.2
      let existing :=
        if bf.isbn13.truthy then
          db.books.find? (fun b => b.fields.isbn13 == bf.isbn13)
        else if bf.isbn.truthy then
          db.books.find? (fun b => b.fields.isbn == bf.isbn)
        else none
      let hash := calculateSyncHash fm md.review_text md.private_notes md.highlights
      match existing with
      | some eb =>
        if bf.title == .null then (false, db)
        else (true, updateBookFromMarkdown db eb.id bf rf vf)
      | none =>
        if insertConflict db bf then (false, db)
        else
          let newId := nextBookId db
          let db1 := { db with
            books := db.books ++ [⟨newId, bf, none, none⟩],
            readings := db.readings ++ [⟨newId, rf⟩],
            reviews := db.reviews ++ [⟨newId, vf⟩] }
          let db2 := syncShelves db1 newId (shelvesList (fmGet fm "shelves" (.list [])))
          if hasDupNat ((db2.bookShelves.filter (fun a => a.book_id == newId)).map
              (fun a => a.shelf_id)) then (false, db)
          else (true, setSyncMeta db2 newId hash now)

/-! ## The conflict inventory (`routes/admin.py`, `sync_status`) -/

/-- One entry of the sync-status inventory (the Python `status` dict). -/
structure SyncStatusRow where
  book_id : Option Nat
  title : String
  filename : String
  db_exists : Bool
  md_exists : Bool
  last_synced : Option String
  sync_hash : Option String
  has_conflict : Bool
  conflict_type : Option String
deriving DecidableEq, Repr

/-- The per-book loop body of `sync_status`.  `none` models the
`AttributeError` that `_calculate_sync_hash` raises (uncaught in this
route) when a parsed file's frontmatter is not a mapping. -/
def bookStatusRow (fs : List (String × String)) (book : BookRow) :
    Option SyncStatusRow :=
  let filename := generateFilename (yvalAsStr book.fields.title)
  let base : SyncStatusRow :=
    { book_id := some book.id, title := yvalAsStr book.fields.title,
      filename := filename, db_exists := true, md_exists := false,
      last_synced := book.last_synced_at, sync_hash := book.sync_hash,
      has_conflict := false, conflict_type := none }
  match fsGet fs filename with
  | none =>
    some { base with has_conflict := true, conflict_type := some "missing_markdown" }
  | some content =>
    match parseMarkdownFile content with
    | none => some { base with md_exists := true }
    | some md =>
      match md.frontmatter with
      | .scalar _ => none
      | .map fm =>
        let md_hash := calculateSyncHash fm md.review_text md.private_notes md.highlights
        if optTruthy book.sync_hash && !(book.sync_hash == some md_hash) then
          some { base with
                   md_exists := true, has_conflict := true,
                   conflict_type := some "hash_mismatch" }
        else some { base with md_exists := true }

/-- `sync_status`'s full inventory: one row per persisted book (in order),
then one `orphaned_markdown` row per `.md` file whose name matches no
book's derived filename. -/
def syncStatusRows (db : DBState) (fs : List (String × String)) :
    Option (List SyncStatusRow) :=
  match db.books.mapM (bookStatusRow fs) with
  | none => none
  | some bookRows =>
    let md_files := fs.filter (fun f => pyEndsWith f.1 ".md")
    let db_filenames := db.books.map (fun b => generateFilename (yvalAsStr b.fields.title))
    let orphans := (md_files.filter (fun f => !(db_filenames.contains f.1))).map
      (fun f =>
        { book_id := none, title := pyDropRight f.1 3, filename := f.1,
          db_exists := false, md_exists := true, last_synced := none,
          sync_hash := none, has_conflict := true,
          conflict_type := some "orphaned_markdown" : SyncStatusRow })
    some (bookRows ++ orphans)

/-- The `synced_books` statistic of the route: rows present on both sides
with no recorded conflict. -/
def syncedBooksCount (rows : List SyncStatusRow) : Nat :=
  (rows.filter (fun r => r.db_exists && r.md_exists && !r.has_conflict)).length

/-! ## Atomic write (`_write_markdown_file`, lines 339–348)

The temp-write-then-rename sequence as a trace of observable filesystem
states: the temp file grows character by character, the rename is a single
step, and an injected failure after `k` characters triggers the `except`
branch (unlink the temp file, re-raise). -/

/-- Run the atomic write with an optional injected failure point.
Returns (success, final filesystem, the list of observable states). -/
def writeAtomicRun (fs : List (String × String)) (target temp content : String)
    (failAt : Option Nat) :
    Bool × List (String × String) × List (List (String × String)) :=
  match failAt with
  | some k =>
    let states := fs :: (List.range (k + 1)).map
      (fun i => fsSet fs temp ⟨content.data.take i⟩)
    (false, fsDel (fsSet fs temp ⟨content.data.take k⟩) temp, states)
  | none =>
    let states := fs :: (List.range (content.length + 1)).map
      (fun i => fsSet fs temp ⟨content.data.take i⟩)
    let final := fsSet (fsDel (fsSet fs temp content) temp) target content
    (true, final, states ++ [final])

/-! ## Basic lemmas about the filesystem association list -/

theorem fsGet_fsSet_self (fs : List (String × String)) (n c : String) :
    fsGet (fsSet fs n c) n = some c := by
  induction fs with
  | nil => simp [fsGet, fsSet]
  | cons hd tl ih =>
    by_cases h : hd.1 = n
    · simp [fsGet, fsSet, h]
    · simpa [fsGet, fsSet, h] using ih

theorem fsGet_fsSet_ne (fs : List (String × String)) {n m : String} (c : String)
    (h : m ≠ n) : fsGet (fsSet fs n c) m = fsGet fs m := by
  induction fs with
  | nil => simp [fsGet, fsSet, Ne.symm h]
  | cons hd tl ih =>
    by_cases hh : hd.1 = n
    · simp [fsGet, fsSet, hh, Ne.symm h]
    · rw [show fsSet (hd :: tl) n c = hd :: fsSet tl n c by simp [fsSet, hh]]
      by_cases hm : hd.1 = m
      · simp [fsGet, hm]
      · simp only [fsGet, hm, if_false]
        exact ih

theorem fsGet_fsDel_self (fs : List (String × String)) (n : String) :
    fsGet (fsDel fs n) n = none := by
  induction fs with
  | nil => simp [fsGet, fsDel]
  | cons hd tl ih =>
    by_cases h : hd.1 = n
    · simpa [fsGet, fsDel, h] using ih
    · simpa [fsGet, fsDel, h] using ih

theorem fsGet_fsDel_ne (fs : List (String × String)) {n m : String} (h : m ≠ n) :
    fsGet (fsDel fs n) m = fsGet fs m := by
  induction fs with
  | nil => simp [fsGet, fsDel]
  | cons hd tl ih =>
    by_cases hh : hd.1 = n
    · have hm : hd.1 ≠ m := fun hm => h (hm ▸ hh ▸ rfl)
      rw [show fsDel (hd :: tl) n = fsDel tl n by simp [fsDel, hh]]
      rw [show fsGet (hd :: tl) m = fsGet tl m by simp [fsGet, hm]]
      exact ih
    · rw [show fsDel (hd :: tl) n = hd :: fsDel tl n by simp [fsDel, hh]]
      by_cases hm : hd.1 = m
      · simp [fsGet, hm]
      · simp only [fsGet, hm, if_false]
        exact ih

/-! ## C9: atomicity of `_write_markdown_file` -/

/-- C9 — Atomic write: along every observable state of the temp-write-then-
rename sequence the target file holds either its old contents or the
complete new contents (never a partial write), and an injected failure
before completion leaves the target unchanged and removes the temp file. -/
theorem atomic_write_safe (fs : List (String × String)) (target temp content : String)
    (failAt : Option Nat) (hne : temp ≠ target) :
    (∀ st ∈ (writeAtomicRun fs target temp content failAt).2.2,
        fsGet st target = fsGet fs target ∨ fsGet st target = some content) ∧
    (∀ k, failAt = some k →
      (writeAtomicRun fs target temp content failAt).1 = false ∧
      fsGet (writeAtomicRun fs target temp content failAt).2.1 target = fsGet fs target ∧
      fsGet (writeAtomicRun fs target temp content failAt).2.1 temp = none) := by
  have hts : target ≠ temp := Ne.symm hne
  constructor
  · intro st hst
    cases failAt with
    | some k =>
      simp only [writeAtomicRun, List.mem_cons, List.mem_map] at hst
      rcases hst with rfl | ⟨i, _, rfl⟩
      · exact Or.inl rfl
      · exact Or.inl (fsGet_fsSet_ne fs _ hts)
    | none =>
      simp only [writeAtomicRun, List.mem_append, List.mem_cons, List.mem_map,
        List.mem_singleton] at hst
      rcases hst with (rfl | ⟨i, _, rfl⟩) | rfl | h
      · exact Or.inl rfl
      · exact Or.inl (fsGet_fsSet_ne fs _ hts)
      · exact Or.inr (fsGet_fsSet_self _ _ _)
      · exact absurd h (List.not_mem_nil _)
  · intro k hk
    subst hk
    refine ⟨rfl, ?_, ?_⟩
    · simp only [writeAtomicRun]
      rw [fsGet_fsDel_ne _ hts, fsGet_fsSet_ne fs _ hts]
    · simp only [writeAtomicRun]
      exact fsGet_fsDel_self _ _

/-- Witness for C9 at a concrete run: overwriting `a.md` with a failure
injected mid-write leaves the old contents in place and no temp file. -/
theorem atomic_write_safe_witness :
    ("a.tmp" : String) ≠ "a.md" ∧
    (∀ st ∈ (writeAtomicRun [("a.md", "old")] "a.md" "a.tmp" "new" (some 1)).2.2,
        fsGet st "a.md" = fsGet [("a.md", "old")] "a.md" ∨ fsGet st "a.md" = some "new") ∧
    (∀ k, (some 1 : Option Nat) = some k →
      (writeAtomicRun [("a.md", "old")] "a.md" "a.tmp" "new" (some 1)).1 = false ∧
      fsGet (writeAtomicRun [("a.md", "old")] "a.md" "a.tmp" "new" (some 1)).2.1 "a.md"
        = fsGet [("a.md", "old")] "a.md" ∧
      fsGet (writeAtomicRun [("a.md", "old")] "a.md" "a.tmp" "new" (some 1)).2.1 "a.tmp"
        = none) := by
  refine ⟨by decide, ?_⟩
  exact atomic_write_safe [("a.md", "old")] "a.md" "a.tmp" "new" (some 1) (by decide)

/-! ## C10: pull-side defaults in `to_db_models` -/

/-- C10 — When the metadata mapping omits the `title`, `author`, `status`,
`read_count` and `is_spoiler` keys, `to_db_models` substitutes the fixed
defaults `'Untitled'`, `''`, `'to-read'`, `1` and `False` instead of
failing. -/
theorem to_db_models_defaults (b : MarkdownBook) (fm : List (String × YVal))
    (hfm : b.frontmatter = .map fm)
    (ht : fm.find? (fun kv => kv.1 == "title") = none)
    (ha : fm.find? (fun kv => kv.1 == "author") = none)
    (hs : fm.find? (fun kv => kv.1 == "status") = none)
    (hr : fm.find? (fun kv => kv.1 == "read_count") = none)
    (hi : fm.find? (fun kv => kv.1 == "is_spoiler") = none) :
    ∃ bf rf vf, b.to_db_models = some (bf, rf, vf) ∧
      bf.title = .str "Untitled" ∧ bf.author = .str "" ∧
      rf.status = .str "to-read" ∧ rf.read_count = .int 1 ∧
      vf.is_spoiler = .bool false := by
  refine ⟨(toDbFields fm b.review_text b.private_notes b.highlights).1,
          (toDbFields fm b.review_text b.private_notes b.highlights).2.1,
          (toDbFields fm b.review_text b.private_notes b.highlights).2.2,
          ?_, ?_, ?_, ?_, ?_, ?_⟩
  · simp [MarkdownBook.to_db_models, hfm]
  · simp [toDbFields, fmGet, ht]
  · simp [toDbFields, fmGet, ha]
  · simp [toDbFields, fmGet, hs]
  · simp [toDbFields, fmGet, hr]
  · simp [toDbFields, fmGet, hi]

/-- Witness for C10: a document with an empty metadata mapping converts to
rows carrying all five defaults. -/
theorem to_db_models_defaults_witness :
    (MarkdownBook.mk (.map []) none none []).frontmatter = .map [] ∧
    ∃ bf rf vf,
      (MarkdownBook.mk (.map []) none none []).to_db_models = some (bf, rf, vf) ∧
      bf.title = .str "Untitled" ∧ bf.author = .str "" ∧
      rf.status = .str "to-read" ∧ rf.read_count = .int 1 ∧
      vf.is_spoiler = .bool false :=
  ⟨rfl, to_db_models_defaults _ [] rfl rfl rfl rfl rfl rfl⟩

/-! ## C2: the conflict inventory classification -/

/-- C2 counterexample — a file that exists but fails to parse is NOT given
any `InvalidFile` classification: the inventory row records no conflict at
all (`has_conflict = false`, `conflict_type = none`), exactly the shape of
an in-sync row, and the book is counted in the `synced_books` statistic. -/
theorem sync_status_invalid_file_cex :
    fsGet [("b.md", "plain text, no marker")] "b.md" = some "plain text, no marker" ∧
    parseMarkdownFile "plain text, no marker" = none ∧
    syncStatusRows
        ⟨[⟨1, ⟨.str "b", .str "a", .null, .null, .null, .null, .null, .null, .null,
              .null, .null, .null⟩, some "aaaa", none⟩], [], [], [], []⟩
        [("b.md", "plain text, no marker")] =
      some [{ book_id := some 1, title := "b", filename := "b.md",
              db_exists := true, md_exists := true, last_synced := none,
              sync_hash := some "aaaa", has_conflict := false, conflict_type := none }] ∧
    syncedBooksCount [{ book_id := some 1, title := "b", filename := "b.md",
                        db_exists := true, md_exists := true, last_synced := none,
                        sync_hash := some "aaaa", has_conflict := false,
                        conflict_type := none }] = 1 := by
  refine ⟨rfl, by decide, by decide, by decide⟩

/-- C2 (amended) — Inventory classification as the code performs it: a
record with no file at its derived name is `missing_markdown`; a record
whose file exists but fails to parse gets NO conflict recorded (there is no
invalid-file category; the row is indistinguishable from in-sync); a parsed
file yields `hash_mismatch` exactly when the stored hash is truthy and
differs from the fresh fingerprint, and otherwise no conflict; every `.md`
file matching no record's derived filename yields an `orphaned_markdown`
row. -/
theorem sync_status_classification :
    (∀ fs (book : BookRow),
      fsGet fs (generateFilename (yvalAsStr book.fields.title)) = none →
      (bookStatusRow fs book).map (fun r => (r.has_conflict, r.conflict_type)) =
        some (true, some "missing_markdown")) ∧
    (∀ fs (book : BookRow) content,
      fsGet fs (generateFilename (yvalAsStr book.fields.title)) = some content →
      parseMarkdownFile content = none →
      (bookStatusRow fs book).map (fun r => (r.has_conflict, r.conflict_type)) =
        some (false, none)) ∧
    (∀ fs (book : BookRow) content md fm,
      fsGet fs (generateFilename (yvalAsStr book.fields.title)) = some content →
      parseMarkdownFile content = some md → md.frontmatter = .map fm →
      (bookStatusRow fs book).map (fun r => (r.has_conflict, r.conflict_type)) =
        some (if optTruthy book.sync_hash &&
                 !(book.sync_hash ==
                   some (calculateSyncHash fm md.review_text md.private_notes md.highlights))
              then (true, some "hash_mismatch") else (false, none))) ∧
    (∀ (db : DBState) fs rows, syncStatusRows db fs = some rows →
      ∀ f ∈ fs, pyEndsWith f.1 ".md" = true →
      (¬ ∃ b ∈ db.books, generateFilename (yvalAsStr b.fields.title) = f.1) →
      ({ book_id := none, title := pyDropRight f.1 3, filename := f.1,
         db_exists := false, md_exists := true, last_synced := none,
         sync_hash := none, has_conflict := true,
         conflict_type := some "orphaned_markdown" : SyncStatusRow } ∈ rows)) := by
  refine ⟨?_, ?_, ?_, ?_⟩
  · intro fs book h
    simp [bookStatusRow, h]
  · intro fs book content h hp
    simp [bookStatusRow, h, hp]
  · intro fs book content md fm h hp hfm
    simp only [bookStatusRow, h, hp, hfm]
    by_cases hc : optTruthy book.sync_hash &&
        !(book.sync_hash ==
          some (calculateSyncHash fm md.review_text md.private_notes md.highlights))
    · simp [hc]
    · simp [hc]
  · intro db fs rows hrows f hf hmd hnex
    simp only [syncStatusRows] at hrows
    cases hbr : db.books.mapM (bookStatusRow fs) with
    | none => rw [hbr] at hrows; exact absurd hrows (by simp)
    | some bookRows =>
      rw [hbr] at hrows
      simp only [Option.some.injEq] at hrows
      subst hrows
      apply List.mem_append_right
      refine List.mem_map.mpr ⟨f, ?_, rfl⟩
      refine List.mem_filter.mpr ⟨List.mem_filter.mpr ⟨hf, hmd⟩, ?_⟩
      have hnm : f.1 ∉ db.books.map (fun b => generateFilename (yvalAsStr b.fields.title)) := by
        simp only [List.mem_map]
        rintro ⟨b, hb, he⟩
        exact hnex ⟨b, hb, he⟩
      simpa using hnm

/-- Witness for C2 (amended): a record with no file is classified
`missing_markdown`. -/
theorem sync_status_classification_witness :
    fsGet [] (generateFilename (yvalAsStr
      (⟨2, ⟨.str "w", .str "", .null, .null, .null, .null, .null, .null, .null,
         .null, .null, .null⟩, none, none⟩ : BookRow).fields.title)) = none ∧
    (bookStatusRow []
      (⟨2, ⟨.str "w", .str "", .null, .null, .null, .null, .null, .null, .null,
         .null, .null, .null⟩, none, none⟩ : BookRow)).map
        (fun r => (r.has_conflict, r.conflict_type)) =
      some (true, some "missing_markdown") :=
  ⟨rfl, sync_status_classification.1 []
    ⟨2, ⟨.str "w", .str "", .null, .null, .null, .null, .null, .null, .null,
       .null, .null, .null⟩, none, none⟩ rfl⟩

/-! ## C4: identity resolution in `sync_markdown_to_db` -/

theorem syncShelves_books (db : DBState) (book_id : Nat) (names : List String) :
    (syncShelves db book_id names).books = db.books := by
  suffices h : ∀ (l : List (Nat × String)) (acc : DBState),
      (l.foldl (syncShelvesStep book_id) acc).books = acc.books by
    simpa [syncShelves] using h names.enum _
  intro l
  induction l with
  | nil => intro acc; rfl
  | cons hd tl ih =>
    intro acc
    rw [List.foldl_cons, ih]
    unfold syncShelvesStep
    cases acc.shelves.find? (fun s => s.name == hd.2) <;> rfl

theorem setSyncMeta_books_length (db : DBState) (book_id : Nat) (hash now : String) :
    (setSyncMeta db book_id hash now).books.length = db.books.length := by
  simp [setSyncMeta]

theorem mem_le_foldr_max (l : List Nat) (x : Nat) (hx : x ∈ l) :
    x ≤ l.foldr max 0 := by
  induction l with
  | nil => cases hx
  | cons hd tl ih =>
    rcases List.mem_cons.mp hx with h | h
    · subst h; exact le_max_left _ _
    · exact le_trans (ih h) (le_max_right _ _)

theorem nextBookId_fresh (db : DBState) (b : BookRow) (hb : b ∈ db.books) :
    b.id ≠ nextBookId db := by
  have hle : b.id ≤ (db.books.map (fun r => r.id)).foldr max 0 :=
    mem_le_foldr_max _ _ (List.mem_map_of_mem _ hb)
  simp only [nextBookId]
  omega

theorem books_map_fresh (db : DBState) (r : BookRow) (hash now : String)
    (hr : r.id = nextBookId db) :
    (db.books ++ [r]).map (fun b =>
        if b.id == nextBookId db then
          { b with sync_hash := some hash, last_synced_at := some now }
        else b)
      = db.books ++ [{ r with sync_hash := some hash, last_synced_at := some now }] := by
  rw [List.map_append]
  have h1 : db.books.map (fun b =>
      if b.id == nextBookId db then
        { b with sync_hash := some hash, last_synced_at := some now }
      else b) = db.books.map (fun b => b) :=
    List.map_congr_left (fun b hb => by
      have hne : ¬((b.id == nextBookId db) = true) := by
        simp only [beq_iff_eq]
        exact nextBookId_fresh db b hb
      rw [if_neg hne])
  rw [h1, List.map_id']
  simp [hr]

theorem bookShelves_refilter (l : List BookShelfRow) (bid : Nat) :
    (l.filter (fun bs => !(bs.book_id == bid))).filter
      (fun a => a.book_id == bid) = [] := by
  induction l with
  | nil => rfl
  | cons hd tl ih =>
    cases h : (hd.book_id == bid) <;> simp [List.filter_cons, h, ih]

/-- C4 counterexample — a document whose ISBN-13 matches no record but
whose ISBN-10 matches the sole existing record is NOT resolved to that
record: the `elif` means the ISBN-10 search never runs, the create path
runs instead, and its `db.flush()` insert duplicates the existing row's
`UNIQUE` `isbn` column, so `IntegrityError` is raised and the handler
rolls back — the sync returns `False` and the store is completely
unchanged (the existing record keeps its old title; nothing is updated in
place and nothing is created). -/
theorem pull_isbn_fallback_cex :
    parseMarkdownFile "---\ntitle: c\nisbn: 123\nisbn13: 999\n---\n" =
      some ⟨.map [("title", .str "c"), ("isbn", .int 123), ("isbn13", .int 999)],
        none, none, []⟩ ∧
    (syncMarkdownToDb
        ⟨[⟨1, ⟨.str "b", .str "a", .int 123, .null, .null, .null, .null, .null,
              .null, .null, .null, .null⟩, none, none⟩],
         [⟨1, ⟨.str "read", .null, .null, .int 1⟩⟩],
         [⟨1, ⟨.null, none, none, none, .bool false⟩⟩], [], []⟩
        "---\ntitle: c\nisbn: 123\nisbn13: 999\n---\n" "t0").1 = false ∧
    (syncMarkdownToDb
        ⟨[⟨1, ⟨.str "b", .str "a", .int 123, .null, .null, .null, .null, .null,
              .null, .null, .null, .null⟩, none, none⟩],
         [⟨1, ⟨.str "read", .null, .null, .int 1⟩⟩],
         [⟨1, ⟨.null, none, none, none, .bool false⟩⟩], [], []⟩
        "---\ntitle: c\nisbn: 123\nisbn13: 999\n---\n" "t0").2 =
      ⟨[⟨1, ⟨.str "b", .str "a", .int 123, .null, .null, .null, .null, .null,
            .null, .null, .null, .null⟩, none, none⟩],
       [⟨1, ⟨.str "read", .null, .null, .int 1⟩⟩],
       [⟨1, ⟨.null, none, none, none, .bool false⟩⟩], [], []⟩ := by
  refine ⟨by decide, by decide, by decide⟩

/-- C4 (amended) — Identity resolution as the code performs it: when the
document carries a truthy ISBN-13 the lookup considers ISBN-13 only, and
if that ISBN-13 matches no record no existing record is ever updated (the
stored records survive as a prefix of the result) — the ISBN-10 fallback
never runs.  When moreover the document's non-null ISBN-10 duplicates an
existing record's `UNIQUE` `isbn` column, the create path's insert raises
`IntegrityError` and the sync fails with the store unchanged, so the
document is never resolved to the ISBN-10-matching record.  The ISBN-10
search runs only when the document's ISBN-13 is falsy, and a match then
updates the existing record in place with no record created.  With
neither identifier truthy no existing record is ever updated, and — for a
document listing no shelves whose insert violates no `books`-table
constraint — a new record is always created (no title/author matching). -/
theorem pull_isbn_resolution (db : DBState) (content now : String)
    (md : MarkdownBook) (fm : List (String × YVal))
    (hp : parseMarkdownFile content = some md) (hfm : md.frontmatter = .map fm) :
    ((toDbFields fm md.review_text md.private_notes md.highlights).1.isbn13.truthy = true →
      (∀ b ∈ db.books,
        ¬(b.fields.isbn13 =
          (toDbFields fm md.review_text md.private_notes md.highlights).1.isbn13)) →
      ∃ tl, (syncMarkdownToDb db content now).2.books = db.books ++ tl) ∧
    ((toDbFields fm md.review_text md.private_notes md.highlights).1.isbn13.truthy = true →
      (∀ b ∈ db.books,
        ¬(b.fields.isbn13 =
          (toDbFields fm md.review_text md.private_notes md.highlights).1.isbn13)) →
      ¬((toDbFields fm md.review_text md.private_notes md.highlights).1.isbn = YVal.null) →
      (∃ b ∈ db.books,
        b.fields.isbn = (toDbFields fm md.review_text md.private_notes md.highlights).1.isbn) →
      syncMarkdownToDb db content now = (false, db)) ∧
    ((toDbFields fm md.review_text md.private_notes md.highlights).1.isbn13.truthy = false →
      (toDbFields fm md.review_text md.private_notes md.highlights).1.isbn.truthy = true →
      (∃ b ∈ db.books,
        b.fields.isbn = (toDbFields fm md.review_text md.private_notes md.highlights).1.isbn) →
      (syncMarkdownToDb db content now).2.books.length = db.books.length) ∧
    ((toDbFields fm md.review_text md.private_notes md.highlights).1.isbn13.truthy = false →
      (toDbFields fm md.review_text md.private_notes md.highlights).1.isbn.truthy = false →
      ∃ tl, (syncMarkdownToDb db content now).2.books = db.books ++ tl) ∧
    ((toDbFields fm md.review_text md.private_notes md.highlights).1.isbn13.truthy = false →
      (toDbFields fm md.review_text md.private_notes md.highlights).1.isbn.truthy = false →
      insertConflict db (toDbFields fm md.review_text md.private_notes md.highlights).1
        = false →
      shelvesList (fmGet fm "shelves" (.list [])) = [] →
      (syncMarkdownToDb db content now).2.books.length = db.books.length + 1) := by
  refine ⟨?_, ?_, ?_, ?_, ?_⟩
  · intro h13 hno
    have hfind : db.books.find?
        (fun b => b.fields.isbn13 ==
          (toDbFields fm md.review_text md.private_notes md.highlights).1.isbn13) = none := by
      rw [List.find?_eq_none]
      intro b hb
      simpa using hno b hb
    simp only [syncMarkdownToDb, hp, hfm, h13, hfind, if_true, Bool.false_eq_true,
      if_false]
    split
    · exact ⟨[], by simp⟩
    · split
      · exact ⟨[], by simp⟩
      · exact ⟨_, by
          simp only [setSyncMeta, syncShelves_books]
          exact books_map_fresh db _ _ _ rfl⟩
  · intro h13 hno hnn hex
    have hfind : db.books.find?
        (fun b => b.fields.isbn13 ==
          (toDbFields fm md.review_text md.private_notes md.highlights).1.isbn13) = none := by
      rw [List.find?_eq_none]
      intro b hb
      simpa using hno b hb
    have hconf : insertConflict db
        (toDbFields fm md.review_text md.private_notes md.highlights).1 = true := by
      rcases hex with ⟨b, hb, he⟩
      simp only [insertConflict, Bool.or_eq_true, Bool.and_eq_true, Bool.not_eq_true']
      refine Or.inl (Or.inl (Or.inr ⟨?_, ?_⟩))
      · exact beq_eq_false_iff_ne.mpr hnn
      · exact List.any_eq_true.mpr ⟨b, hb, by simpa using he⟩
    simp [syncMarkdownToDb, hp, hfm, h13, hfind, hconf]
  · intro h13 h10 hex
    have hfind : (db.books.find?
        (fun b => b.fields.isbn ==
          (toDbFields fm md.review_text md.private_notes md.highlights).1.isbn)).isSome := by
      rw [List.find?_isSome]
      rcases hex with ⟨b, hb, he⟩
      exact ⟨b, hb, by simpa using he⟩
    rcases Option.isSome_iff_exists.mp hfind with ⟨eb, heb⟩
    by_cases ht : ((toDbFields fm md.review_text md.private_notes md.highlights).1.title
        == YVal.null) = true
    · simp [syncMarkdownToDb, hp, hfm, h13, h10, heb, ht]
    · simp [syncMarkdownToDb, hp, hfm, h13, h10, heb, ht, updateBookFromMarkdown]
  · intro h13 h10
    simp only [syncMarkdownToDb, hp, hfm, h13, h10, Bool.false_eq_true, if_false,
      if_true]
    split
    · exact ⟨[], by simp⟩
    · split
      · exact ⟨[], by simp⟩
      · exact ⟨_, by
          simp only [setSyncMeta, syncShelves_books]
          exact books_map_fresh db _ _ _ rfl⟩
  · intro h13 h10 hconf hnames
    simp [syncMarkdownToDb, hp, hfm, h13, h10, hconf, hnames, syncShelves,
      bookShelves_refilter, hasDupNat, setSyncMeta_books_length]

/-- Witness for C4 (amended): a shelf-free conflict-free document with
neither identifier always creates a new record. -/
theorem pull_isbn_resolution_witness :
    parseMarkdownFile "---\ntitle: w4\n---\n" =
      some ⟨.map [("title", .str "w4")], none, none, []⟩ ∧
    (syncMarkdownToDb ⟨[], [], [], [], []⟩ "---\ntitle: w4\n---\n" "t1").2.books.length
      = ([] : List BookRow).length + 1 := by
  refine ⟨by decide, ?_⟩
  exact (pull_isbn_resolution ⟨[], [], [], [], []⟩ "---\ntitle: w4\n---\n" "t1"
    ⟨.map [("title", .str "w4")], none, none, []⟩ [("title", .str "w4")]
    (by decide) rfl).2.2.2.2 (by decide) (by decide) (by decide) (by decide)

/-! ## C7: frame effect of the update path -/

/-- C7 counterexample — on the update path the review sub-record's
`highlights` column is NOT updated from the parsed document: a document
carrying highlight `new` leaves the stored JSON `["old"]` untouched. -/
theorem pull_update_highlights_cex :
    parseMarkdownFile "---\ntitle: u\nisbn13: 777\n---\n# Highlights\n- new\n" =
      some ⟨.map [("title", .str "u"), ("isbn13", .int 777)], none, none, ["new"]⟩ ∧
    ((syncMarkdownToDb
        ⟨[⟨1, ⟨.str "t0", .str "a0", .null, .int 777, .null, .null, .null, .null,
              .null, .null, .null, .null⟩, none, none⟩],
         [⟨1, ⟨.str "to-read", .null, .null, .int 1⟩⟩],
         [⟨1, ⟨.null, none, none, some "[\"old\"]", .bool false⟩⟩],
         [⟨1, "fav", "#3498db"⟩], [⟨1, 1, 0⟩]⟩
        "---\ntitle: u\nisbn13: 777\n---\n# Highlights\n- new\n" "t2").2.reviews.map
          (fun r => r.fields.highlights))
      = [some "[\"old\"]"] ∧
    jsonDumpsList ["new"] ≠ "[\"old\"]" := by
  refine ⟨by decide, by decide, by decide⟩

/-- C7 (amended) — Update-path frame effect as the code performs it: when
the document (with a non-null title) resolves to an existing record,
exactly six book columns (title, author, publisher, binding, pages,
year_published) are copied, the reading-status sub-record is fully
copied, and the review sub-record's rating, review text, private notes
and spoiler flag are copied while its `highlights` column keeps its old
value; the shelf tables and all shelf associations are left completely
untouched (shelves are resynced only on the create path); and every
record's `sync_hash` and `last_synced_at` bookkeeping columns also keep
their previous values — the code assigns the freshly computed hash and
timestamp to the transient `to_db_models()` `Book`, which is never added
to the session on this path, so they are not persisted. -/
theorem pull_update_frame (db : DBState) (content now : String)
    (md : MarkdownBook) (fm : List (String × YVal)) (eb : BookRow)
    (hp : parseMarkdownFile content = some md) (hfm : md.frontmatter = .map fm)
    (h13 : (toDbFields fm md.review_text md.private_notes md.highlights).1.isbn13.truthy
      = true)
    (hfind : db.books.find?
      (fun b => b.fields.isbn13 ==
        (toDbFields fm md.review_text md.private_notes md.highlights).1.isbn13) = some eb)
    (ht : ((toDbFields fm md.review_text md.private_notes md.highlights).1.title
      == YVal.null) = false) :
    (syncMarkdownToDb db content now).2.books = db.books.map (fun b =>
      if b.id == eb.id then
        { b with
          fields := { b.fields with
            title := (toDbFields fm md.review_text md.private_notes md.highlights).1.title,
            author := (toDbFields fm md.review_text md.private_notes md.highlights).1.author,
            publisher :=
              (toDbFields fm md.review_text md.private_notes md.highlights).1.publisher,
            binding := (toDbFields fm md.review_text md.private_notes md.highlights).1.binding,
            pages := (toDbFields fm md.review_text md.private_notes md.highlights).1.pages,
            year_published :=
              (toDbFields fm md.review_text md.private_notes md.highlights).1.year_published } }
      else b) ∧
    (syncMarkdownToDb db content now).2.books.map
        (fun b => (b.sync_hash, b.last_synced_at)) =
      db.books.map (fun b => (b.sync_hash, b.last_synced_at)) ∧
    (syncMarkdownToDb db content now).2.readings = db.readings.map (fun r =>
      if r.book_id == eb.id then
        { r with fields :=
          { status := (toDbFields fm md.review_text md.private_notes md.highlights).2.1.status,
            date_started :=
              (toDbFields fm md.review_text md.private_notes md.highlights).2.1.date_started,
            date_finished :=
              (toDbFields fm md.review_text md.private_notes md.highlights).2.1.date_finished,
            read_count :=
              (toDbFields fm md.review_text md.private_notes md.highlights).2.1.read_count } }
      else r) ∧
    (syncMarkdownToDb db content now).2.reviews = db.reviews.map (fun r =>
      if r.book_id == eb.id then
        { r with fields := { r.fields with
            rating := (toDbFields fm md.review_text md.private_notes md.highlights).2.2.rating,
            review_text :=
              (toDbFields fm md.review_text md.private_notes md.highlights).2.2.review_text,
            private_notes :=
              (toDbFields fm md.review_text md.private_notes md.highlights).2.2.private_notes,
            is_spoiler :=
              (toDbFields fm md.review_text md.private_notes md.highlights).2.2.is_spoiler } }
      else r) ∧
    (syncMarkdownToDb db content now).2.shelves = db.shelves ∧
    (syncMarkdownToDb db content now).2.bookShelves = db.bookShelves := by
  have hrun : syncMarkdownToDb db content now =
      (true, updateBookFromMarkdown db eb.id
        (toDbFields fm md.review_text md.private_notes md.highlights).1
        (toDbFields fm md.review_text md.private_notes md.highlights).2.1
        (toDbFields fm md.review_text md.private_notes md.highlights).2.2) := by
    simp [syncMarkdownToDb, hp, hfm, h13, hfind, ht]
  rw [hrun]
  refine ⟨rfl, ?_, rfl, rfl, rfl, rfl⟩
  simp only [updateBookFromMarkdown, List.map_map]
  refine List.map_congr_left ?_
  intro b _
  by_cases hb : b.id == eb.id <;> simp [Function.comp, hb]

/-- Witness for C7 (amended) at a concrete store: an update-path pull
leaves the shelf association table untouched and keeps the matched row's
old `sync_hash` and `last_synced_at` values. -/
theorem pull_update_frame_witness :
    parseMarkdownFile "---\ntitle: u7\nisbn13: 778\n---\n" =
      some ⟨.map [("title", .str "u7"), ("isbn13", .int 778)], none, none, []⟩ ∧
    (syncMarkdownToDb
        ⟨[⟨1, ⟨.str "t7", .str "a7", .null, .int 778, .null, .null, .null, .null,
              .null, .null, .null, .null⟩, some "h0", some "s0"⟩],
         [], [], [⟨1, "fav", "#3498db"⟩], [⟨1, 1, 0⟩]⟩
        "---\ntitle: u7\nisbn13: 778\n---\n" "t3").2.books.map
          (fun b => (b.sync_hash, b.last_synced_at))
      = [(some "h0", some "s0")] ∧
    (syncMarkdownToDb
        ⟨[⟨1, ⟨.str "t7", .str "a7", .null, .int 778, .null, .null, .null, .null,
              .null, .null, .null, .null⟩, some "h0", some "s0"⟩],
         [], [], [⟨1, "fav", "#3498db"⟩], [⟨1, 1, 0⟩]⟩
        "---\ntitle: u7\nisbn13: 778\n---\n" "t3").2.bookShelves
      = [⟨1, 1, 0⟩] := by
  have h := pull_update_frame
    ⟨[⟨1, ⟨.str "t7", .str "a7", .null, .int 778, .null, .null, .null, .null,
          .null, .null, .null, .null⟩, some "h0", some "s0"⟩],
     [], [], [⟨1, "fav", "#3498db"⟩], [⟨1, 1, 0⟩]⟩
    "---\ntitle: u7\nisbn13: 778\n---\n" "t3"
    ⟨.map [("title", .str "u7"), ("isbn13", .int 778)], none, none, []⟩
    [("title", .str "u7"), ("isbn13", .int 778)]
    ⟨1, ⟨.str "t7", .str "a7", .null, .int 778, .null, .null, .null, .null,
       .null, .null, .null, .null⟩, some "h0", some "s0"⟩
    (by decide) rfl (by decide) (by decide) (by decide)
  refine ⟨by decide, ?_, h.2.2.2.2.2⟩
  rw [h.2.1]
  decide

/-! ## C3: idempotence of `sync_db_to_markdown` -/

theorem find?_map_invariant {α : Type} (l : List α) (g : α → α) (p : α → Bool)
    (h : ∀ x, p (g x) = p x) : (l.map g).find? p = (l.find? p).map g := by
  induction l with
  | nil => rfl
  | cons hd tl ih =>
    by_cases hp : p hd
    · simp [List.find?, h, hp]
    · simp only [List.map_cons, List.find?, h hd, hp]
      exact ih

theorem setSyncMeta_readings (db : DBState) (i : Nat) (h t : String) :
    (setSyncMeta db i h t).readings = db.readings := rfl

theorem setSyncMeta_reviews (db : DBState) (i : Nat) (h t : String) :
    (setSyncMeta db i h t).reviews = db.reviews := rfl

theorem shelfNamesOf_setSyncMeta (db : DBState) (i : Nat) (h t : String) (j : Nat) :
    shelfNamesOf (setSyncMeta db i h t) j = shelfNamesOf db j := rfl

theorem from_db_base_meta (book : BookRow) (h t : String) (rr : Option ReadingRow)
    (rv : Option ReviewRow) (ns : List String) :
    from_db_base { book with sync_hash := some h, last_synced_at := some t } rr rv ns
      = from_db_base book rr rv ns := rfl

theorem find?_setSyncMeta (db : DBState) (i : Nat) (h t : String) (j : Nat) :
    (setSyncMeta db i h t).books.find? (fun b => b.id == j) =
      (db.books.find? (fun b => b.id == j)).map
        (fun b => if b.id == i then
          { b with sync_hash := some h, last_synced_at := some t } else b) := by
  apply find?_map_invariant
  intro x
  by_cases hx : x.id == i <;> simp [hx]

theorem cleanFm_append_last_synced (fmB : List (String × YVal)) (now : String) :
    cleanFm (fmB ++ [("last_synced", YVal.str now)]) =
      cleanFm fmB ++ [("last_synced", YVal.str now)] := by
  simp [cleanFm, List.filter_append]

theorem calculateSyncHash_append_last_synced (fmB : List (String × YVal)) (v : YVal)
    (rev pn : Option String) (hl : List String) :
    calculateSyncHash (fmB ++ [("last_synced", v)]) rev pn hl =
      calculateSyncHash fmB rev pn hl := by
  simp [calculateSyncHash, List.filter_append]

/-- C3 counterexample — two pushes of the same unchanged record at
different clock readings write different bytes: the file embeds the
`last_synced` timestamp in its frontmatter. -/
theorem push_twice_bytes_cex :
    fsGet (syncDbToMarkdown
        (syncDbToMarkdown
          ⟨[⟨1, ⟨.str "b", .str "a", .null, .null, .null, .null, .null, .null,
                .null, .null, .null, .null⟩, none, none⟩], [], [], [], []⟩
          [] 1 "2024-01-01T00:00:00").2.1
        (syncDbToMarkdown
          ⟨[⟨1, ⟨.str "b", .str "a", .null, .null, .null, .null, .null, .null,
                .null, .null, .null, .null⟩, none, none⟩], [], [], [], []⟩
          [] 1 "2024-01-01T00:00:00").2.2
        1 "2024-01-02T00:00:00").2.2 "b.md"
      ≠
    fsGet (syncDbToMarkdown
        ⟨[⟨1, ⟨.str "b", .str "a", .null, .null, .null, .null, .null, .null,
              .null, .null, .null, .null⟩, none, none⟩], [], [], [], []⟩
        [] 1 "2024-01-01T00:00:00").2.2 "b.md" := by decide

/-- C3 (amended) — Pushing an unchanged record twice succeeds both times,
leaves the stored `sync_hash` unchanged between the calls, and writes
files that are identical except for the `last_synced` frontmatter value
(byte-identical exactly when the two clock readings coincide). -/
theorem push_idempotence (db : DBState) (fs : List (String × String)) (book_id : Nat)
    (now1 now2 : String) (book : BookRow)
    (hb : db.books.find? (fun b => b.id == book_id) = some book) :
    ((syncDbToMarkdown db fs book_id now1).1 = true) ∧
    ((syncDbToMarkdown (syncDbToMarkdown db fs book_id now1).2.1
        (syncDbToMarkdown db fs book_id now1).2.2 book_id now2).1 = true) ∧
    (((syncDbToMarkdown (syncDbToMarkdown db fs book_id now1).2.1
        (syncDbToMarkdown db fs book_id now1).2.2 book_id now2).2.1.books.find?
          (fun b => b.id == book_id)).map (fun b => b.sync_hash)
      = ((syncDbToMarkdown db fs book_id now1).2.1.books.find?
          (fun b => b.id == book_id)).map (fun b => b.sync_hash)) ∧
    (∃ fmB rev pn hl,
      fsGet (syncDbToMarkdown db fs book_id now1).2.2
          (generateFilename (yvalAsStr book.fields.title)) =
        some (writeMarkdownContent (fmB ++ [("last_synced", YVal.str now1)]) rev pn hl) ∧
      fsGet (syncDbToMarkdown (syncDbToMarkdown db fs book_id now1).2.1
            (syncDbToMarkdown db fs book_id now1).2.2 book_id now2).2.2
          (generateFilename (yvalAsStr book.fields.title)) =
        some (writeMarkdownContent (fmB ++ [("last_synced", YVal.str now2)]) rev pn hl) ∧
      (now1 = now2 →
        fsGet (syncDbToMarkdown (syncDbToMarkdown db fs book_id now1).2.1
              (syncDbToMarkdown db fs book_id now1).2.2 book_id now2).2.2
            (generateFilename (yvalAsStr book.fields.title)) =
          fsGet (syncDbToMarkdown db fs book_id now1).2.2
            (generateFilename (yvalAsStr book.fields.title)))) := by
  have hid : (book.id == book_id) = true := by
    have h := List.find?_some hb
    simpa using h
  refine ⟨?_, ?_, ?_, ?_⟩
  · simp [syncDbToMarkdown, hb]
  · simp only [syncDbToMarkdown, hb]
    rw [find?_setSyncMeta, hb]
    simp [Option.map_some']
  · simp only [syncDbToMarkdown, hb]
    rw [find?_setSyncMeta, hb]
    simp only [Option.map_some', beq_self_eq_true, if_true]
    rw [find?_setSyncMeta, find?_setSyncMeta, hb]
    simp only [Option.map_some', beq_self_eq_true, if_true]
    simp only [from_db_models, from_db_base_meta, setSyncMeta_readings,
      setSyncMeta_reviews, shelfNamesOf_setSyncMeta, cleanFm_append_last_synced,
      calculateSyncHash_append_last_synced]
  · refine ⟨(from_db_base book (db.readings.find? (fun r => r.book_id == book.id))
        (db.reviews.find? (fun r => r.book_id == book.id)) (shelfNamesOf db book.id)).1,
      (from_db_base book (db.readings.find? (fun r => r.book_id == book.id))
        (db.reviews.find? (fun r => r.book_id == book.id)) (shelfNamesOf db book.id)).2.1,
      (from_db_base book (db.readings.find? (fun r => r.book_id == book.id))
        (db.reviews.find? (fun r => r.book_id == book.id)) (shelfNamesOf db book.id)).2.2.1,
      (from_db_base book (db.readings.find? (fun r => r.book_id == book.id))
        (db.reviews.find? (fun r => r.book_id == book.id)) (shelfNamesOf db book.id)).2.2.2,
      ?_, ?_, ?_⟩
    · simp only [syncDbToMarkdown, hb, from_db_models]
      rw [fsGet_fsSet_self]
    · simp only [syncDbToMarkdown, hb]
      rw [find?_setSyncMeta, hb]
      simp only [Option.map_some', beq_self_eq_true, if_true]
      simp only [from_db_models, from_db_base_meta, setSyncMeta_readings,
        setSyncMeta_reviews, shelfNamesOf_setSyncMeta]
      rw [fsGet_fsSet_self]
    · intro hnow
      subst hnow
      simp only [syncDbToMarkdown, hb]
      rw [find?_setSyncMeta, hb]
      simp only [Option.map_some', beq_self_eq_true, if_true]
      simp only [from_db_models, from_db_base_meta, setSyncMeta_readings,
        setSyncMeta_reviews, shelfNamesOf_setSyncMeta]
      rw [fsGet_fsSet_self, fsGet_fsSet_self]

/-- Witness for C3 (amended) at a concrete record: the stored hash is the
same after the second push as after the first. -/
theorem push_idempotence_witness :
    (⟨[⟨1, ⟨.str "wb", .str "wa", .null, .null, .null, .null, .null, .null,
          .null, .null, .null, .null⟩, none, none⟩], [], [], [], []⟩ :
        DBState).books.find? (fun b => b.id == 1)
      = some ⟨1, ⟨.str "wb", .str "wa", .null, .null, .null, .null, .null, .null,
          .null, .null, .null, .null⟩, none, none⟩ ∧
    ((syncDbToMarkdown (syncDbToMarkdown
          ⟨[⟨1, ⟨.str "wb", .str "wa", .null, .null, .null, .null, .null, .null,
                .null, .null, .null, .null⟩, none, none⟩], [], [], [], []⟩
          [] 1 "t4").2.1
        (syncDbToMarkdown
          ⟨[⟨1, ⟨.str "wb", .str "wa", .null, .null, .null, .null, .null, .null,
                .null, .null, .null, .null⟩, none, none⟩], [], [], [], []⟩
          [] 1 "t4").2.2 1 "t5").2.1.books.find?
          (fun b => b.id == 1)).map (fun b => b.sync_hash)
      = (((syncDbToMarkdown
          ⟨[⟨1, ⟨.str "wb", .str "wa", .null, .null, .null, .null, .null, .null,
                .null, .null, .null, .null⟩, none, none⟩], [], [], [], []⟩
          [] 1 "t4").2.1).books.find?
          (fun b => b.id == 1)).map (fun b => b.sync_hash) :=
  ⟨by decide,
   (push_idempotence
      ⟨[⟨1, ⟨.str "wb", .str "wa", .null, .null, .null, .null, .null, .null,
            .null, .null, .null, .null⟩, none, none⟩], [], [], [], []⟩
      [] 1 "t4" "t5"
      ⟨1, ⟨.str "wb", .str "wa", .null, .null, .null, .null, .null, .null,
         .null, .null, .null, .null⟩, none, none⟩
      (by decide)).2.2.1⟩

/-! ## C6: body section extraction -/

/-- "Empty after trimming" collapses to absent. -/
def emptyToNone (t : String) : Option String :=
  if t = "" then none else some t

/-- The extraction rule the claim states for one heading: from just after
the heading to the start of the next-occurring found heading (by position),
or to the end of the body, trimmed. -/
def extractSectionSpec (body header : String) : Option String :=
  match strFind body header with
  | none => none
  | some p =>
    let positions := ["# Review", "# Highlights", "# Private Notes"].filterMap
      (strFind body)
    let later := positions.filter (fun q => decide (p < q))
    some (pyStrip (pySlice body (p + header.length) (later.min?.getD body.length)))

/-- Extraction from just after the heading to the end of the body, trimmed
(the rule the code actually uses for Private Notes). -/
def extractToEndSpec (body header : String) : Option String :=
  (strFind body header).map (fun p => pyStrip (pySliceFrom body (p + header.length)))

/-- C6 counterexample — when another heading occurs after `# Private
Notes`, the code extracts to the END of the body, not to the next heading:
the notes swallow the following `# Review` section verbatim. -/
theorem sections_private_notes_cex :
    (parseMarkdownSections "# Private Notes\nsecret\n# Review\ngreat").2.2 =
      some "secret\n# Review\ngreat" ∧
    extractSectionSpec "# Private Notes\nsecret\n# Review\ngreat" "# Private Notes" =
      some "secret" ∧
    (parseMarkdownSections "# Private Notes\nsecret\n# Review\ngreat").2.2 ≠
      extractSectionSpec "# Private Notes\nsecret\n# Review\ngreat" "# Private Notes" := by
  refine ⟨by decide, by decide, by decide⟩

/-- C6 (amended) — For every body: the Review and Highlights sections are
extracted from just after their heading to the least later-found heading
position (or end of body) and trimmed, but the Private Notes section always
runs from just after its heading to the END of the body, ignoring any
later heading. -/
theorem sections_extraction (body : String) :
    (parseMarkdownSections body).1 =
      (extractSectionSpec body "# Review").bind emptyToNone ∧
    (parseMarkdownSections body).2.1 =
      ((extractSectionSpec body "# Highlights").map parseBulletList).getD [] ∧
    (parseMarkdownSections body).2.2 =
      (extractToEndSpec body "# Private Notes").bind emptyToNone := by
  unfold parseMarkdownSections extractSectionSpec extractToEndSpec
  cases hR : strFind body "# Review" <;>
    cases hH : strFind body "# Highlights" <;>
      cases hP : strFind body "# Private Notes" <;>
        simp [hR, hH, hP, emptyToNone, List.filterMap, List.reduceOption]

/-! ## C8: parse failure conditions -/

theorem pySplitMax2_length (s sep : String) : (pySplitMax2 s sep).length ≤ 3 := by
  unfold pySplitMax2
  split
  · simp
  · dsimp only
    split <;> simp

/-- C8 counterexample — a well-delimited metadata block that parses as
valid YAML but NOT as a mapping (a bare scalar) is accepted: the parse
succeeds with the scalar as frontmatter, while the claim requires `none`
whenever the block fails to parse as a structured mapping. -/
theorem parse_scalar_frontmatter_cex :
    yamlLoad "\nhello\n" = some (.scalar (.str "hello")) ∧
    parseMarkdownFile "---\nhello\n---\nbody" =
      some ⟨.scalar (.str "hello"), none, none, []⟩ := by
  refine ⟨by decide, by decide⟩

/-- C8 (amended) — Parse returns `none` exactly when the opening marker is
absent, the metadata block is unterminated (fewer than three split parts),
or the metadata block raises a YAML parse error; a block parsing to a
non-mapping YAML value is accepted with that value as frontmatter, and a
well-delimited block whose body contains none of the three headings parses
to a metadata-only document. -/
theorem parse_failure_conditions (content : String) :
    (parseMarkdownFile content = none ↔
      (pyStartsWith content "---" = false ∨
       (pySplitMax2 content "---").length < 3 ∨
       (∃ p0 p1 p2, pySplitMax2 content "---" = [p0, p1, p2] ∧ yamlLoad p1 = none))) ∧
    (∀ (fm : Yaml) (p0 p1 p2 : String),
      pyStartsWith content "---" = true →
      pySplitMax2 content "---" = [p0, p1, p2] →
      yamlLoad p1 = some fm →
      strFind (pyStrip p2) "# Review" = none →
      strFind (pyStrip p2) "# Highlights" = none →
      strFind (pyStrip p2) "# Private Notes" = none →
      parseMarkdownFile content = some ⟨fm, none, none, []⟩) := by
  constructor
  · by_cases hs : pyStartsWith content "---"
    · rcases hsp : pySplitMax2 content "---" with _ | ⟨q0, _ | ⟨q1, _ | ⟨q2, rest⟩⟩⟩
      · have hparse : parseMarkdownFile content = none := by
          simp [parseMarkdownFile, hs, hsp]
        rw [hparse]
        exact iff_of_true rfl (Or.inr (Or.inl (by simp)))
      · have hparse : parseMarkdownFile content = none := by
          simp [parseMarkdownFile, hs, hsp]
        rw [hparse]
        exact iff_of_true rfl (Or.inr (Or.inl (by simp)))
      · have hparse : parseMarkdownFile content = none := by
          simp [parseMarkdownFile, hs, hsp]
        rw [hparse]
        exact iff_of_true rfl (Or.inr (Or.inl (by simp)))
      · rcases rest with _ | ⟨q3, rest⟩
        · cases hy : yamlLoad q1 with
          | none =>
            have hparse : parseMarkdownFile content = none := by
              simp [parseMarkdownFile, hs, hsp, hy]
            rw [hparse]
            exact iff_of_true rfl (Or.inr (Or.inr ⟨q0, q1, q2, rfl, hy⟩))
          | some fm =>
            have hparse : parseMarkdownFile content =
                some ⟨fm, (parseMarkdownSections (pyStrip q2)).1,
                  (parseMarkdownSections (pyStrip q2)).2.2,
                  (parseMarkdownSections (pyStrip q2)).2.1⟩ := by
              simp [parseMarkdownFile, hs, hsp, hy]
            rw [hparse]
            constructor
            · intro h
              exact absurd h (by simp)
            · rintro (h | h | ⟨p0, p1, p2, heq, hyn⟩)
              · rw [hs] at h
                exact absurd h (by simp)
              · simp at h
              · simp only [List.cons.injEq, and_true] at heq
                rcases heq with ⟨h0, h1, h2⟩
                rw [← h1, hy] at hyn
                exact absurd hyn (by simp)
        · exfalso
          have h := pySplitMax2_length content "---"
          rw [hsp] at h
          simp at h
    · have hs' : pyStartsWith content "---" = false := by
        simpa using hs
      have hparse : parseMarkdownFile content = none := by
        simp [parseMarkdownFile, hs']
      rw [hparse]
      exact iff_of_true rfl (Or.inl hs')
  · intro fm p0 p1 p2 hs hsp hy hr hh hp
    simp [parseMarkdownFile, hs, hsp, hy, parseMarkdownSections, hr, hh, hp]

/-- Witness for C8 (amended): a well-delimited block with a heading-free
body parses to a metadata-only document. -/
theorem parse_failure_conditions_witness :
    pyStartsWith "---\ntitle: w8\n---\nplain body" "---" = true ∧
    pySplitMax2 "---\ntitle: w8\n---\nplain body" "---" =
      ["", "\ntitle: w8\n", "\nplain body"] ∧
    yamlLoad "\ntitle: w8\n" = some (.map [("title", .str "w8")]) ∧
    parseMarkdownFile "---\ntitle: w8\n---\nplain body" =
      some ⟨.map [("title", .str "w8")], none, none, []⟩ :=
  ⟨by decide, by decide, by decide,
   (parse_failure_conditions "---\ntitle: w8\n---\nplain body").2
     (.map [("title", .str "w8")]) "" "\ntitle: w8\n" "\nplain body"
     (by decide) (by decide) (by decide) (by decide) (by decide) (by decide)⟩

/-! ## C5: the fingerprint contract -/

/-- The fingerprint computation as the spec words it: remove the
bookkeeping keys, add the three synthetic body keys, serialize with keys
sorted lexicographically, SHA-256, first 16 hex characters. -/
def fingerprintSpec (fm : List (String × YVal)) (review pnotes : Option String)
    (hls : List String) : String :=
  let cleaned := fm.filter (fun kv =>
    !(["last_synced", "sync_hash", "updated_at"].contains kv.1))
  let withSynthetic := cleaned ++
    [("_review_text", YVal.str (review.getD "")),
     ("_highlights", YVal.list hls),
     ("_private_notes", YVal.str (pnotes.getD ""))]
  pyTake (sha256Hex (utf8Bytes (yamlDump
    (withSynthetic.mergeSort (fun a b => a.1 ≤ b.1))))) 16

theorem filter_bookkeeping_congr (fm : List (String × YVal)) :
    (fm.filter (fun kv =>
        !(kv.1 = "last_synced") && !(kv.1 = "sync_hash") && !(kv.1 = "updated_at")))
      = fm.filter (fun kv =>
        !(["last_synced", "sync_hash", "updated_at"].contains kv.1)) := by
  apply List.filter_congr
  intro kv _
  by_cases h1 : kv.1 = "last_synced" <;> by_cases h2 : kv.1 = "sync_hash" <;>
    by_cases h3 : kv.1 = "updated_at" <;> simp [h1, h2, h3]

theorem pyDictSet_append (kvs : List (String × YVal)) (k : String) (v : YVal)
    (h : ∀ kv ∈ kvs, kv.1 ≠ k) : pyDictSet kvs k v = kvs ++ [(k, v)] := by
  unfold pyDictSet
  have hany : kvs.any (fun kv => kv.1 = k) = false := by
    rw [List.any_eq_false]
    intro kv hkv
    simpa using h kv hkv
  simp [hany]

theorem sortPairs_eq_of_perm (l₁ l₂ : List (String × YVal)) (hp : l₁.Perm l₂)
    (hnd : (l₁.map Prod.fst).Nodup) : sortPairs l₁ = sortPairs l₂ := by
  have htrans : ∀ a b c : String × YVal,
      (fun a b : String × YVal => decide (a.1 ≤ b.1)) a b →
      (fun a b : String × YVal => decide (a.1 ≤ b.1)) b c →
      (fun a b : String × YVal => decide (a.1 ≤ b.1)) a c := by
    intro a b c h1 h2
    simp only [decide_eq_true_eq] at *
    exact le_trans h1 h2
  have htotal : ∀ a b : String × YVal,
      ((fun a b : String × YVal => decide (a.1 ≤ b.1)) a b ||
       (fun a b : String × YVal => decide (a.1 ≤ b.1)) b a) := by
    intro a b
    simpa using le_total a.1 b.1
  have hperm₁ : (sortPairs l₁).Perm l₁ := List.mergeSort_perm l₁ _
  have hperm₂ : (sortPairs l₂).Perm l₂ := List.mergeSort_perm l₂ _
  have hnd₂ : (l₂.map Prod.fst).Nodup := ((hp.map Prod.fst).nodup_iff).mp hnd
  have hstrict : ∀ (l : List (String × YVal)), (l.map Prod.fst).Nodup →
      (sortPairs l).Pairwise (fun a b : String × YVal => a.1 < b.1) := by
    intro l hl
    have hsorted : (sortPairs l).Pairwise
        (fun a b : String × YVal => decide (a.1 ≤ b.1) = true) := by
      exact List.sorted_mergeSort htrans htotal l
    have hle : (sortPairs l).Pairwise (fun a b : String × YVal => a.1 ≤ b.1) :=
      hsorted.imp (fun h => by simpa using h)
    have hndl : ((sortPairs l).map Prod.fst).Nodup :=
      (((List.mergeSort_perm l _).map Prod.fst).nodup_iff).mpr hl
    have hne : (sortPairs l).Pairwise (fun a b : String × YVal => a.1 ≠ b.1) :=
      (List.pairwise_map.mp hndl)
    exact (hle.and hne).imp (fun h => lt_of_le_of_ne h.1 h.2)
  letI : IsAntisymm (String × YVal) (fun a b : String × YVal => a.1 < b.1) :=
    ⟨fun a b h1 h2 => absurd h2 (lt_asymm h1)⟩
  exact List.eq_of_perm_of_sorted (hperm₁.trans (hp.trans hperm₂.symm))
    (hstrict l₁ hnd) (hstrict l₂ hnd₂)

/-- C5 — Fingerprint contract: `_calculate_sync_hash` computes exactly the
spec's fingerprint (bookkeeping keys removed, the three synthetic body
keys added, keys sorted lexicographically, SHA-256 truncated to 16 hex
characters), and two frontmatter mappings holding the same pairs in any
insertion order produce the same fingerprint. -/
theorem fingerprint_contract (fm fm2 : List (String × YVal))
    (review pnotes : Option String) (hls : List String)
    (hsyn : ∀ kv ∈ fm, kv.1 ≠ "_review_text" ∧ kv.1 ≠ "_highlights" ∧
      kv.1 ≠ "_private_notes")
    (hperm : fm.Perm fm2) (hnd : (fm.map Prod.fst).Nodup) :
    calculateSyncHash fm review pnotes hls = fingerprintSpec fm review pnotes hls ∧
    calculateSyncHash fm review pnotes hls = calculateSyncHash fm2 review pnotes hls := by
  have expand : ∀ (g : List (String × YVal)),
      (∀ kv ∈ g, kv.1 ≠ "_review_text" ∧ kv.1 ≠ "_highlights" ∧
        kv.1 ≠ "_private_notes") →
      calculateSyncHash g review pnotes hls =
        pyTake (sha256Hex (utf8Bytes (yamlDump (sortPairs
          ((g.filter (fun kv =>
              !(["last_synced", "sync_hash", "updated_at"].contains kv.1))) ++
           [("_review_text", YVal.str (review.getD "")),
            ("_highlights", YVal.list hls),
            ("_private_notes", YVal.str (pnotes.getD ""))]))))) 16 := by
    intro g hg
    have hF : ∀ kv ∈ g.filter (fun kv =>
        !(["last_synced", "sync_hash", "updated_at"].contains kv.1)),
        kv.1 ≠ "_review_text" ∧ kv.1 ≠ "_highlights" ∧ kv.1 ≠ "_private_notes" :=
      fun kv hkv => hg kv (List.mem_of_mem_filter hkv)
    have e1 : pyDictSet (g.filter (fun kv =>
          !(["last_synced", "sync_hash", "updated_at"].contains kv.1)))
        "_review_text" (YVal.str (review.getD "")) =
        g.filter (fun kv =>
          !(["last_synced", "sync_hash", "updated_at"].contains kv.1)) ++
          [("_review_text", YVal.str (review.getD ""))] :=
      pyDictSet_append _ _ _ (fun kv hkv => (hF kv hkv).1)
    have e2 : pyDictSet (g.filter (fun kv =>
          !(["last_synced", "sync_hash", "updated_at"].contains kv.1)) ++
          [("_review_text", YVal.str (review.getD ""))])
        "_highlights" (YVal.list hls) =
        g.filter (fun kv =>
          !(["last_synced", "sync_hash", "updated_at"].contains kv.1)) ++
          [("_review_text", YVal.str (review.getD ""))] ++
          [("_highlights", YVal.list hls)] := by
      apply pyDictSet_append
      intro kv hkv
      rcases List.mem_append.mp hkv with h | h
      · exact (hF kv h).2.1
      · have he := List.mem_singleton.mp h
        subst he
        simp
    have e3 : pyDictSet (g.filter (fun kv =>
          !(["last_synced", "sync_hash", "updated_at"].contains kv.1)) ++
          [("_review_text", YVal.str (review.getD ""))] ++
          [("_highlights", YVal.list hls)])
        "_private_notes" (YVal.str (pnotes.getD "")) =
        g.filter (fun kv =>
          !(["last_synced", "sync_hash", "updated_at"].contains kv.1)) ++
          [("_review_text", YVal.str (review.getD ""))] ++
          [("_highlights", YVal.list hls)] ++
          [("_private_notes", YVal.str (pnotes.getD ""))] := by
      apply pyDictSet_append
      intro kv hkv
      rcases List.mem_append.mp hkv with h | h
      · rcases List.mem_append.mp h with h2 | h2
        · exact (hF kv h2).2.2
        · have he := List.mem_singleton.mp h2
          subst he
          simp
      · have he := List.mem_singleton.mp h
        subst he
        simp
    unfold calculateSyncHash
    dsimp only
    rw [filter_bookkeeping_congr, e1, e2, e3]
    simp [yamlDumpSorted, sortPairs, List.append_assoc]
  have hsyn2 : ∀ kv ∈ fm2, kv.1 ≠ "_review_text" ∧ kv.1 ≠ "_highlights" ∧
      kv.1 ≠ "_private_notes" := fun kv hkv => hsyn kv (hperm.mem_iff.mpr hkv)
  constructor
  · rw [expand fm hsyn]
    rfl
  · rw [expand fm hsyn, expand fm2 hsyn2]
    have hpf : (fm.filter (fun kv =>
        !(["last_synced", "sync_hash", "updated_at"].contains kv.1))).Perm
        (fm2.filter (fun kv =>
          !(["last_synced", "sync_hash", "updated_at"].contains kv.1))) :=
      hperm.filter _
    have hpx := hpf.append_right
      [("_review_text", YVal.str (review.getD "")),
       ("_highlights", YVal.list hls),
       ("_private_notes", YVal.str (pnotes.getD ""))]
    have hndx : (((fm.filter (fun kv =>
        !(["last_synced", "sync_hash", "updated_at"].contains kv.1))) ++
        [("_review_text", YVal.str (review.getD "")),
         ("_highlights", YVal.list hls),
         ("_private_notes", YVal.str (pnotes.getD ""))]).map Prod.fst).Nodup := by
      rw [List.map_append]
      apply List.Nodup.append
      · exact hnd.sublist ((List.filter_sublist fm).map Prod.fst)
      · have he : List.map Prod.fst
            [("_review_text", YVal.str (review.getD "")),
             ("_highlights", YVal.list hls),
             ("_private_notes", YVal.str (pnotes.getD ""))]
            = ["_review_text", "_highlights", "_private_notes"] := rfl
        rw [he]
        decide
      · intro a ha hb
        have hfa := List.mem_map.mp ha
        rcases hfa with ⟨kv, hkv, rfl⟩
        have h := (fun kv hkv => hsyn kv (List.mem_of_mem_filter hkv)) kv hkv
        simp only [List.map_cons, List.map_nil, List.mem_cons, List.not_mem_nil,
          or_false] at hb
        rcases hb with hb | hb | hb
        · exact h.1 hb
        · exact h.2.1 hb
        · exact h.2.2 hb
    rw [sortPairs_eq_of_perm _ _ hpx hndx]

/-- Witness for C5 at two concrete permuted mappings: identical content in
different insertion order fingerprints identically. -/
theorem fingerprint_contract_witness :
    (∀ kv ∈ [("title", YVal.str "x"), ("pages", YVal.int 7)],
      kv.1 ≠ "_review_text" ∧ kv.1 ≠ "_highlights" ∧ kv.1 ≠ "_private_notes") ∧
    ([("title", YVal.str "x"), ("pages", YVal.int 7)].Perm
      [("pages", YVal.int 7), ("title", YVal.str "x")]) ∧
    ([("title", YVal.str "x"), ("pages", YVal.int 7)].map Prod.fst).Nodup ∧
    calculateSyncHash [("title", YVal.str "x"), ("pages", YVal.int 7)] none none [] =
      calculateSyncHash [("pages", YVal.int 7), ("title", YVal.str "x")] none none [] :=
  ⟨by decide, by decide, by decide,
   (fingerprint_contract [("title", YVal.str "x"), ("pages", YVal.int 7)]
      [("pages", YVal.int 7), ("title", YVal.str "x")] none none []
      (by decide) (by decide) (by decide)).2⟩

/-! ## C1 machinery: well-formedness of serialization-safe documents -/

/-- Strings `yaml.dump` emits single-quoted and `yaml.safe_load` reads back
unchanged on our fragment: non-empty, no quote or line break, no double
hyphen (which could collide with the `---` delimiter search). -/
def quotedSafe (s : String) : Bool :=
  s.data ≠ [] && s.data.all (fun c => c ≠ '\'' && c ≠ '\n' && c ≠ '\r') &&
  (strFindL ['-', '-'] s.data).isNone

/-- Characters allowed in a frontmatter key. -/
def wfKeyChar (c : Char) : Bool := c.isAlpha || c.isDigit || c = '_'

/-- A serialization-safe frontmatter key. -/
def wfKey (k : String) : Bool := k.data ≠ [] && k.data.all wfKeyChar

/-- A serialization-safe frontmatter value (no nulls: the writer drops
them; lists of plain strings only). -/
def wfVal : YVal → Bool
  | .str s => s == "" || plainSafe s || quotedSafe s
  | .int _ => true
  | .bool _ => true
  | .list xs => xs.all plainSafe
  | .null => false

/-! ### Decimal digit rendering is inverted by the scalar parser -/

theorem digitChar_isDigit (n : Nat) : (digitChar n).isDigit = true := by
  unfold digitChar
  split <;> decide

theorem digitChar_val (n : Nat) (h : n < 10) : (digitChar n).toNat - 48 = n := by
  interval_cases n <;> decide

theorem digitsToNat_append (ds : List Char) (c : Char) :
    digitsToNat (ds ++ [c]) = digitsToNat ds * 10 + (c.toNat - 48) := by
  simp [digitsToNat, List.foldl_append]

theorem natDigitsAux_correct :
    ∀ (fuel n : Nat), n ≤ fuel → digitsToNat (natDigitsAux (fuel + 1) n) = n := by
  intro fuel
  induction fuel with
  | zero =>
    intro n hn
    interval_cases n
    decide
  | succ f ih =>
    intro n hn
    by_cases h : n < 10
    · simp only [natDigitsAux, h, if_true]
      simpa [digitsToNat] using digitChar_val n h
    · have h10 : 10 ≤ n := Nat.le_of_not_lt h
      have hd : n / 10 ≤ f := by
        have := Nat.div_lt_self (by omega : 0 < n) (by omega : 1 < 10)
        omega
      have : natDigitsAux (f + 1 + 1) n =
          natDigitsAux (f + 1) (n / 10) ++ [digitChar (n % 10)] := by
        simp [natDigitsAux, h]
      rw [this, digitsToNat_append, ih (n / 10) hd,
        digitChar_val (n % 10) (Nat.mod_lt n (by omega))]
      omega

theorem natDigitsAux_all_digits :
    ∀ (fuel n : Nat), (natDigitsAux fuel n).all Char.isDigit = true := by
  intro fuel
  induction fuel with
  | zero => intro n; rfl
  | succ f ih =>
    intro n
    by_cases h : n < 10
    · simp [natDigitsAux, h, digitChar_isDigit]
    · simp [natDigitsAux, h, digitChar_isDigit, ih (n / 10)]

theorem natDigitsAux_ne_nil (fuel n : Nat) : natDigitsAux (fuel + 1) n ≠ [] := by
  by_cases h : n < 10 <;> simp [natDigitsAux, h]

/-! ### `pyStrip` fixpoints -/

theorem dropWhile_eq_self_of_head (p : Char → Bool) (l : List Char)
    (h : ∀ c, l.head? = some c → p c = false) : l.dropWhile p = l := by
  cases l with
  | nil => rfl
  | cons hd tl => simp [List.dropWhile, h hd rfl]

theorem pyStripL_fix (l : List Char)
    (hh : ∀ c, l.head? = some c → pyWs c = false)
    (hl : ∀ c, l.getLast? = some c → pyWs c = false) : pyStripL l = l := by
  unfold pyStripL
  rw [dropWhile_eq_self_of_head _ _ hh]
  rw [dropWhile_eq_self_of_head _ _ (fun c hc => hl c (by
    rwa [List.head?_reverse] at hc))]
  exact List.reverse_reverse l

theorem pyStripL_fix_of_all (l : List Char) (h : ∀ c ∈ l, pyWs c = false) :
    pyStripL l = l := by
  apply pyStripL_fix
  · intro c hc
    exact h c (by cases l with
      | nil => simp at hc
      | cons hd tl => simp at hc; exact hc ▸ List.mem_cons_self hd tl)
  · intro c hc
    exact h c (List.mem_of_getLast?_eq_some hc)

theorem pyStrip_fix (s : String)
    (hh : ∀ c, s.data.head? = some c → pyWs c = false)
    (hl : ∀ c, s.data.getLast? = some c → pyWs c = false) : pyStrip s = s := by
  unfold pyStrip
  rw [pyStripL_fix s.data hh hl]

/-! ### The scalar parser inverts the scalar renderer on safe values -/

theorem str_ne_of_head {a b : String} (h : a.data.head? ≠ b.data.head?) : a ≠ b :=
  fun he => h (by rw [he])

theorem isIntLit_digits (c : Char) (cs : List Char)
    (hall : ((c :: cs).all Char.isDigit) = true) : isIntLit (c :: cs) = true := by
  have hc : c.isDigit = true := by
    simp only [List.all_cons, Bool.and_eq_true] at hall
    exact hall.1
  have hcne : ¬(c = '-') := by
    intro h
    rw [h] at hc
    exact absurd hc (by decide)
  simp [isIntLit, hcne, hall]

theorem parseIntLit_of_digit_head (s : String) (c : Char) (cs : List Char)
    (hdata : s.data = c :: cs) (hc : ¬(c = '-')) :
    parseIntLit s = Int.ofNat (digitsToNat s.data) := by
  unfold parseIntLit
  rw [hdata]
  simp [hc]

theorem parseScalar_of_digits (s : String) (hne : s.data ≠ [])
    (hd : s.data.all Char.isDigit = true) :
    parseScalar s = .int (Int.ofNat (digitsToNat s.data)) := by
  have hlit : ∀ (t : String), t.data.all Char.isDigit = false → s ≠ t := by
    intro t ht h
    rw [h, ht] at hd
    exact absurd hd (by decide)
  have h0 : s ≠ "" := fun h => hne (by simp [h])
  rcases hdata : s.data with _ | ⟨c, cs⟩
  · exact absurd hdata hne
  · have hc : c.isDigit = true := by
      rw [hdata] at hd
      simp only [List.all_cons, Bool.and_eq_true] at hd
      exact hd.1
    have hcne : ¬(c = '-') := by
      intro h
      rw [h] at hc
      exact absurd hc (by decide)
    have hint : isIntLit s.data = true := by
      rw [hdata]
      exact isIntLit_digits c cs (hdata ▸ hd)
    unfold parseScalar
    rw [parseIntLit_of_digit_head s c cs hdata hcne]
    simp [h0, hlit "~" (by decide), hlit "null" (by decide), hlit "Null" (by decide),
      hlit "NULL" (by decide), hlit "true" (by decide), hlit "True" (by decide),
      hlit "TRUE" (by decide), hlit "yes" (by decide), hlit "Yes" (by decide),
      hlit "YES" (by decide), hlit "on" (by decide), hlit "On" (by decide),
      hlit "ON" (by decide), hlit "false" (by decide), hlit "False" (by decide),
      hlit "FALSE" (by decide), hlit "no" (by decide), hlit "No" (by decide),
      hlit "NO" (by decide), hlit "off" (by decide), hlit "Off" (by decide),
      hlit "OFF" (by decide), hlit "[]" (by decide), hint]
    rw [hdata]

theorem natToStr_data_digits (n : Nat) :
    (natToStr n).data.all Char.isDigit = true := natDigitsAux_all_digits (n + 1) n

theorem natToStr_ne_nil (n : Nat) : (natToStr n).data ≠ [] := natDigitsAux_ne_nil n n

theorem digitsToNat_natToStr (n : Nat) : digitsToNat (natToStr n).data = n :=
  natDigitsAux_correct n n le_rfl

theorem parseScalar_natToStr (n : Nat) :
    parseScalar (natToStr n) = .int (Int.ofNat n) := by
  rw [parseScalar_of_digits (natToStr n) (natToStr_ne_nil n) (natToStr_data_digits n),
    digitsToNat_natToStr]

theorem pyWs_of_digit (c : Char) (h : c.isDigit = true) : pyWs c = false := by
  cases hc : pyWs c
  · rfl
  · simp only [pyWs, Bool.or_eq_true, decide_eq_true_eq] at hc
    rcases hc with ((((rfl | rfl) | rfl) | rfl) | rfl) | rfl <;>
      exact absurd h (by decide)

theorem hne_of_all_plainChar {s : String} (hall : s.data.all plainChar = true)
    (t : String) (ht : t.data.all plainChar = false) : s ≠ t := by
  intro h
  rw [h, ht] at hall
  exact absurd hall (by decide)

theorem head_bang_of_ne_nil {l : List Char} (h : l ≠ []) :
    l.head? = some l.head! := by
  cases l with
  | nil => exact absurd rfl h
  | cons hd tl => rfl

theorem getLast_bang_of_ne_nil {l : List Char} (h : l ≠ []) :
    l.getLast? = some l.getLast! := by
  cases hl : l.getLast? with
  | none => exact absurd (List.getLast?_eq_none_iff.mp hl) h
  | some a => rw [List.getLast!_of_getLast? hl]

theorem plainSafe_parts (s : String) (h : plainSafe s = true) :
    s.data ≠ [] ∧ s.data.all plainChar = true ∧
    pyWs s.data.head! = false ∧ pyWs s.data.getLast! = false ∧
    (s.data.all fun c => c.isDigit || c = '.' || c = ' ') = false ∧
    s ∉ yamlReserved := by
  simp only [plainSafe, Bool.and_eq_true, ne_eq, decide_eq_true_eq,
    Bool.not_eq_true'] at h
  obtain ⟨⟨⟨⟨⟨hne, hall⟩, hh⟩, hl⟩, hn⟩, hr⟩ := h
  exact ⟨hne, hall, hh, hl, hn, by simpa using hr⟩

theorem plainSafe_strip_fix (s : String) (h : plainSafe s = true) :
    pyStrip s = s := by
  obtain ⟨hne, _, hhead, hlast, _, _⟩ := plainSafe_parts s h
  apply pyStrip_fix
  · intro c hc
    rw [head_bang_of_ne_nil hne] at hc
    cases hc
    exact hhead
  · intro c hc
    rw [getLast_bang_of_ne_nil hne] at hc
    cases hc
    exact hlast

theorem parseScalar_plain (s : String) (h : plainSafe s = true) :
    parseScalar s = .str s := by
  obtain ⟨hne, hall, _, _, hnum, hres⟩ := plainSafe_parts s h
  have h0 : ¬(s = "") := fun hh => hne (by simp [hh])
  have hsub : ∀ (lst : List String), (∀ t ∈ lst, t ∈ yamlReserved) → s ∉ lst :=
    fun lst hl hm => hres (hl s hm)
  have h1 := hsub ["~", "null", "Null", "NULL"] (by decide)
  have h2 := hsub ["true", "True", "TRUE", "yes", "Yes", "YES", "on", "On", "ON"]
    (by decide)
  have h3 := hsub ["false", "False", "FALSE", "no", "No", "NO", "off", "Off", "OFF"]
    (by decide)
  have h4 : ¬(s = "[]") := hne_of_all_plainChar hall "[]" (by decide)
  have hint : isIntLit s.data = false := by
    rcases hd : s.data with _ | ⟨c, cs⟩
    · rfl
    · have hcp : plainChar c = true := by
        rw [hd] at hall
        simp only [List.all_cons, Bool.and_eq_true] at hall
        exact hall.1
      have hcm : ¬(c = '-') := by
        intro hcc
        rw [hcc] at hcp
        exact absurd hcp (by decide)
      simp only [isIntLit, hcm, if_false]
      cases habs : (c :: cs).all Char.isDigit
      · rfl
      · exfalso
        have hbig : ((c :: cs).all fun ch => ch.isDigit || ch = '.' || ch = ' ')
            = true := by
          rw [List.all_eq_true] at habs ⊢
          intro x hx
          simp [habs x hx]
        rw [hd, hbig] at hnum
        exact absurd hnum (by decide)
  have hb1 : (decide (s = "") || ["~", "null", "Null", "NULL"].contains s) = false := by
    simp only [h0, decide_False, Bool.false_or]
    simpa using h1
  have hb2 : (["true", "True", "TRUE", "yes", "Yes", "YES", "on", "On", "ON"].contains s)
      = false := by
    simpa using h2
  have hb3 : (["false", "False", "FALSE", "no", "No", "NO", "off", "Off", "OFF"].contains s)
      = false := by
    simpa using h3
  unfold parseScalar
  rw [hb1, hb2, hb3, hint, if_neg h4]
  simp only [Bool.false_eq_true, if_false]
  split
  · next c rest heq =>
    rw [heq] at hall
    simp only [List.all_cons, Bool.and_eq_true] at hall
    exact absurd hall.1 (by decide)
  · rfl

theorem parseScalar_quoted (s : String) (h : quotedSafe s = true) :
    parseScalar ("'" ++ s ++ "'") = .str s := by
  simp only [quotedSafe, Bool.and_eq_true, ne_eq, decide_eq_true_eq] at h
  obtain ⟨⟨hne, -⟩, -⟩ := h
  have hdata : ("'" ++ s ++ "'").data = '\'' :: (s.data ++ ['\'']) := by
    simp
  have hq : ∀ (t : String), t.data.head? ≠ some '\'' → ¬("'" ++ s ++ "'" = t) := by
    intro t ht hh
    apply ht
    rw [← hh, hdata]
    rfl
  have h0 : ¬("'" ++ s ++ "'" = "") := hq "" (by decide)
  have h1 : ("'" ++ s ++ "'") ∉ ["~", "null", "Null", "NULL"] := by
    intro hm
    simp only [List.mem_cons, List.not_mem_nil, or_false] at hm
    rcases hm with hm | hm | hm | hm
    all_goals exact hq _ (by decide) hm
  have h2 : ("'" ++ s ++ "'") ∉
      ["true", "True", "TRUE", "yes", "Yes", "YES", "on", "On", "ON"] := by
    intro hm
    simp only [List.mem_cons, List.not_mem_nil, or_false] at hm
    rcases hm with hm | hm | hm | hm | hm | hm | hm | hm | hm
    all_goals exact hq _ (by decide) hm
  have h3 : ("'" ++ s ++ "'") ∉
      ["false", "False", "FALSE", "no", "No", "NO", "off", "Off", "OFF"] := by
    intro hm
    simp only [List.mem_cons, List.not_mem_nil, or_false] at hm
    rcases hm with hm | hm | hm | hm | hm | hm | hm | hm | hm
    all_goals exact hq _ (by decide) hm
  have h4 : ¬("'" ++ s ++ "'" = "[]") := hq "[]" (by decide)
  have hint : isIntLit ("'" ++ s ++ "'").data = false := by
    rw [hdata]
    simp [isIntLit]
  have hb1 : (decide ("'" ++ s ++ "'" = "") || ["~", "null", "Null", "NULL"].contains
      ("'" ++ s ++ "'")) = false := by
    simp only [h0, decide_False, Bool.false_or]
    simpa using h1
  have hb2 : (["true", "True", "TRUE", "yes", "Yes", "YES", "on", "On", "ON"].contains
      ("'" ++ s ++ "'")) = false := by
    simpa using h2
  have hb3 : (["false", "False", "FALSE", "no", "No", "NO", "off", "Off", "OFF"].contains
      ("'" ++ s ++ "'")) = false := by
    simpa using h3
  unfold parseScalar
  rw [hb1, hb2, hb3, hint, if_neg h4]
  simp only [Bool.false_eq_true, if_false]
  split
  · next c rest heq =>
    rw [hdata] at heq
    injection heq with hh ht
    rcases hd : s.data with _ | ⟨d, ds⟩
    · exact absurd hd hne
    · rw [hd] at ht
      have hcr : c :: rest = d :: (ds ++ ['\'']) := by
        rw [← ht]
        simp
      rw [hcr]
      have hlast : (d :: (ds ++ ['\''])).getLast! = '\'' := by
        apply List.getLast!_of_getLast?
        rw [show d :: (ds ++ ['\'']) = (d :: ds) ++ ['\''] from rfl]
        exact List.getLast?_concat _
      rw [if_pos hlast]
      have hdrop : (d :: (ds ++ ['\''])).dropLast = d :: ds := by
        rw [show d :: (ds ++ ['\'']) = (d :: ds) ++ ['\''] from rfl]
        exact List.dropLast_concat ..
      rw [hdrop]
      have : (⟨d :: ds⟩ : String) = s := by
        apply String.ext
        rw [hd]
      rw [this]
  · next hcatch =>
    exfalso
    rcases hd : s.data with _ | ⟨d, ds⟩
    · exact absurd hd hne
    · exact hcatch d (ds ++ ['\'']) (by rw [hdata, hd]; simp)

theorem parseScalar_neg (s : String) (cs : List Char) (hdata : s.data = '-' :: cs)
    (hcs : cs ≠ []) (hd : cs.all Char.isDigit = true) :
    parseScalar s = .int (-(digitsToNat cs : Int)) := by
  have hlit : ∀ (t : String), t.data.head? ≠ some '-' → s ≠ t := by
    intro t ht h
    apply ht
    rw [← h, hdata]
    rfl
  have h0 : s ≠ "" := hlit "" (by decide)
  have hint : isIntLit s.data = true := by
    rw [hdata]
    simp only [isIntLit]
    simp [hcs, hd]
  have hplit : parseIntLit s = -(digitsToNat cs : Int) := by
    unfold parseIntLit
    rw [hdata]
    simp
  unfold parseScalar
  rw [hplit]
  simp [h0, hlit "~" (by decide), hlit "null" (by decide), hlit "Null" (by decide),
    hlit "NULL" (by decide), hlit "true" (by decide), hlit "True" (by decide),
    hlit "TRUE" (by decide), hlit "yes" (by decide), hlit "Yes" (by decide),
    hlit "YES" (by decide), hlit "on" (by decide), hlit "On" (by decide),
    hlit "ON" (by decide), hlit "false" (by decide), hlit "False" (by decide),
    hlit "FALSE" (by decide), hlit "no" (by decide), hlit "No" (by decide),
    hlit "NO" (by decide), hlit "off" (by decide), hlit "Off" (by decide),
    hlit "OFF" (by decide), hlit "[]" (by decide), hint]

/-- Every serialization-safe value survives the scalar render/parse round
trip (block lists are rendered elsewhere, so lists only arise empty here). -/
theorem parseScalar_render (v : YVal) (h : wfVal v = true)
    (hl : ∀ xs, v = .list xs → xs = []) :
    parseScalar (renderScalar v) = v := by
  cases v with
  | str s =>
    simp only [wfVal, Bool.or_eq_true, beq_iff_eq] at h
    by_cases hs0 : s = ""
    · subst hs0
      decide
    · by_cases hps : plainSafe s = true
      · rw [show renderScalar (.str s) = s by simp [renderScalar, hs0, hps]]
        exact parseScalar_plain s hps
      · have hqs : quotedSafe s = true := by
          rcases h with (h | h) | h
          · exact absurd h hs0
          · exact absurd h hps
          · exact h
        rw [show renderScalar (.str s) = "'" ++ s ++ "'" by
          simp [renderScalar, hs0, hps]]
        exact parseScalar_quoted s hqs
  | int n =>
    cases n with
    | ofNat m =>
      rw [show renderScalar (.int (.ofNat m)) = natToStr m from rfl]
      exact parseScalar_natToStr m
    | negSucc m =>
      rw [show renderScalar (.int (.negSucc m)) = "-" ++ natToStr (m + 1) from rfl]
      have hdata : ("-" ++ natToStr (m + 1)).data = '-' :: (natToStr (m + 1)).data := by
        simp
      rw [parseScalar_neg _ _ hdata (natToStr_ne_nil (m + 1)) (natToStr_data_digits (m + 1)),
        digitsToNat_natToStr]
      rw [show Int.negSucc m = -((m + 1 : Nat) : Int) by
        rw [Int.negSucc_eq]
        simp]
  | bool b =>
    cases b <;> decide
  | list xs =>
    rw [hl xs rfl]
    decide
  | null =>
    exact absurd h (by decide)

/-! ### Splitting the dumped text back into its lines -/

theorem char_ne_of_pred (p : Char → Bool) {c d : Char} (hc : p c = true)
    (hd : p d = false) : ¬(c = d) := by
  intro h
  rw [h, hd] at hc
  exact absurd hc (by decide)

theorem splitOnCharL_sep (c : Char) (l rest : List Char)
    (hl : ∀ x ∈ l, ¬(x = c)) :
    splitOnCharL c (l ++ c :: rest) = l :: splitOnCharL c rest := by
  induction l with
  | nil => simp [splitOnCharL]
  | cons x xs ih =>
    have hx : ¬(x = c) := hl x (List.mem_cons_self x xs)
    have ih' := ih (fun y hy => hl y (List.mem_cons_of_mem x hy))
    rw [List.cons_append]
    simp only [splitOnCharL, hx, if_false, ih']

theorem join_data_foldl (l : List String) (a : String) :
    (l.foldl (fun r s => r ++ s) a).data = a.data ++ (l.map String.data).flatten := by
  induction l generalizing a with
  | nil => simp
  | cons x xs ih =>
    simp only [List.foldl_cons, ih, List.map_cons, List.flatten_cons]
    simp

theorem join_data (l : List String) :
    (String.join l).data = (l.map String.data).flatten := by
  unfold String.join
  rw [join_data_foldl]
  rfl

theorem splitOnCharL_join_lines (lines : List (List Char))
    (h : ∀ l ∈ lines, ∀ x ∈ l, ¬(x = '\n')) :
    splitOnCharL '\n' ((lines.map (fun l => l ++ ['\n'])).flatten) =
      lines ++ [[]] := by
  induction lines with
  | nil => rfl
  | cons l ls ih =>
    simp only [List.map_cons, List.flatten_cons]
    have hsh : (l ++ ['\n']) ++ ((ls.map (fun t => t ++ ['\n'])).flatten)
        = l ++ '\n' :: ((ls.map (fun t => t ++ ['\n'])).flatten) := by simp
    rw [hsh, splitOnCharL_sep '\n' l _ (h l (List.mem_cons_self l ls)),
      ih (fun t ht x hx => h t (List.mem_cons_of_mem l ht) x hx)]
    rfl

theorem yamlDump_data (kvs : List (String × YVal)) :
    (yamlDump kvs).data =
      (((kvs.map renderPairLines).flatten.map String.data).map
        (fun l => l ++ ['\n'])).flatten := by
  unfold yamlDump
  rw [join_data, List.map_map, List.map_map]
  congr 1

theorem dump_lines (fm : List (String × YVal))
    (hnl : ∀ l ∈ (fm.map renderPairLines).flatten, ∀ x ∈ l.data, ¬(x = '\n')) :
    (splitOnCharL '\n' (yamlDump fm).data).map (fun l => (⟨l⟩ : String)) =
      (fm.map renderPairLines).flatten ++ [""] := by
  rw [yamlDump_data]
  rw [splitOnCharL_join_lines _ (by
    intro l hl x hx
    rw [List.mem_map] at hl
    obtain ⟨t, ht, rfl⟩ := hl
    exact hnl t ht x hx)]
  rw [List.map_append, List.map_map]
  have hmk : List.map ((fun l => (⟨l⟩ : String)) ∘ String.data)
      ((List.map renderPairLines fm).flatten) = (List.map renderPairLines fm).flatten := by
    rw [show ((fun l => (⟨l⟩ : String)) ∘ String.data) = id from rfl, List.map_id]
  rw [hmk]
  rfl

/-! ### Character facts about rendered lines -/

theorem renderScalar_no_nl (v : YVal) (h : wfVal v = true) :
    ∀ x ∈ (renderScalar v).data, ¬(x = '\n') := by
  cases v with
  | str s =>
    by_cases hs0 : s = ""
    · subst hs0
      decide
    · by_cases hps : plainSafe s = true
      · rw [show renderScalar (.str s) = s by simp [renderScalar, hs0, hps]]
        obtain ⟨_, hall, _⟩ := plainSafe_parts s hps
        intro x hx
        exact char_ne_of_pred plainChar (List.all_eq_true.mp hall x hx) (by decide)
      · have hqs : quotedSafe s = true := by
          simp only [wfVal, Bool.or_eq_true, beq_iff_eq] at h
          rcases h with (h | h) | h
          · exact absurd h hs0
          · exact absurd h hps
          · exact h
        simp only [quotedSafe, Bool.and_eq_true] at hqs
        obtain ⟨⟨-, hall⟩, -⟩ := hqs
        rw [show renderScalar (.str s) = "'" ++ s ++ "'" by
          simp [renderScalar, hs0, hps]]
        intro x hx
        rw [show ("'" ++ s ++ "'").data = '\'' :: (s.data ++ ['\'']) by simp] at hx
        rcases List.mem_cons.mp hx with rfl | hx
        · decide

        rcases List.mem_append.mp hx with hx | hx
        · have := List.all_eq_true.mp hall x hx
          simp only [Bool.and_eq_true, decide_eq_true_eq] at this
          exact fun he => this.1.2 he
        · rcases List.mem_singleton.mp hx with rfl
          decide
  | int n =>
    cases n with
    | ofNat m =>
      intro x hx
      exact char_ne_of_pred Char.isDigit
        (List.all_eq_true.mp (natToStr_data_digits m) x hx) (by decide)
    | negSucc m =>
      intro x hx
      rw [show (renderScalar (.int (.negSucc m))).data
          = '-' :: (natToStr (m + 1)).data by simp [renderScalar, intToStr]] at hx
      rcases List.mem_cons.mp hx with rfl | hx
      · decide
      · exact char_ne_of_pred Char.isDigit
          (List.all_eq_true.mp (natToStr_data_digits (m + 1)) x hx) (by decide)
  | bool b => cases b <;> decide
  | list xs =>
    rw [show renderScalar (.list xs) = "[]" from rfl]
    decide
  | null => exact absurd h (by decide)

theorem renderScalar_ne_nil (v : YVal) (h : wfVal v = true) :
    (renderScalar v).data ≠ [] := by
  cases v with
  | str s =>
    by_cases hs0 : s = ""
    · subst hs0
      decide
    · by_cases hps : plainSafe s = true
      · rw [show renderScalar (.str s) = s by simp [renderScalar, hs0, hps]]
        exact (plainSafe_parts s hps).1
      · rw [show renderScalar (.str s) = "'" ++ s ++ "'" by
          simp [renderScalar, hs0, hps]]
        rw [show ("'" ++ s ++ "'").data = '\'' :: (s.data ++ ['\'']) by simp]
        exact List.cons_ne_nil _ _
  | int n =>
    cases n with
    | ofNat m => exact natToStr_ne_nil m
    | negSucc m =>
      rw [show (renderScalar (.int (.negSucc m))).data
          = '-' :: (natToStr (m + 1)).data by simp [renderScalar, intToStr]]
      exact List.cons_ne_nil _ _
  | bool b => cases b <;> decide
  | list xs =>
    rw [show renderScalar (.list xs) = "[]" from rfl]
    decide
  | null => exact absurd h (by decide)

theorem renderScalar_head_ws (v : YVal) (h : wfVal v = true) :
    ∀ c, (renderScalar v).data.head? = some c → pyWs c = false := by
  cases v with
  | str s =>
    by_cases hs0 : s = ""
    · subst hs0
      decide
    · by_cases hps : plainSafe s = true
      · rw [show renderScalar (.str s) = s by simp [renderScalar, hs0, hps]]
        obtain ⟨hne, _, hh, _⟩ := plainSafe_parts s hps
        intro c hc
        rw [head_bang_of_ne_nil hne] at hc
        cases hc
        exact hh
      · rw [show renderScalar (.str s) = "'" ++ s ++ "'" by
          simp [renderScalar, hs0, hps]]
        rw [show ("'" ++ s ++ "'").data = '\'' :: (s.data ++ ['\'']) by simp]
        intro c hc
        cases hc
        decide
  | int n =>
    cases n with
    | ofNat m =>
      intro c hc
      rw [show renderScalar (.int (.ofNat m)) = natToStr m from rfl] at hc
      have hmem : c ∈ (natToStr m).data := by
        rcases hd : (natToStr m).data with _ | ⟨d, ds⟩
        · rw [hd] at hc
          simp at hc
        · rw [hd] at hc
          cases hc
          exact List.mem_cons_self _ _
      exact pyWs_of_digit c (List.all_eq_true.mp (natToStr_data_digits m) c hmem)
    | negSucc m =>
      rw [show (renderScalar (.int (.negSucc m))).data
          = '-' :: (natToStr (m + 1)).data by simp [renderScalar, intToStr]]
      intro c hc
      cases hc
      decide
  | bool b => cases b <;> decide
  | list xs =>
    rw [show renderScalar (.list xs) = "[]" from rfl]
    decide
  | null => exact absurd h (by decide)

theorem renderScalar_last_ws (v : YVal) (h : wfVal v = true) :
    ∀ c, (renderScalar v).data.getLast? = some c → pyWs c = false := by
  cases v with
  | str s =>
    by_cases hs0 : s = ""
    · subst hs0
      decide
    · by_cases hps : plainSafe s = true
      · rw [show renderScalar (.str s) = s by simp [renderScalar, hs0, hps]]
        obtain ⟨hne, _, _, hl, _⟩ := plainSafe_parts s hps
        intro c hc
        rw [getLast_bang_of_ne_nil hne] at hc
        cases hc
        exact hl
      · rw [show renderScalar (.str s) = "'" ++ s ++ "'" by
          simp [renderScalar, hs0, hps]]
        rw [show ("'" ++ s ++ "'").data = ('\'' :: s.data) ++ ['\''] by simp]
        intro c hc
        rw [List.getLast?_concat] at hc
        cases hc
        decide
  | int n =>
    cases n with
    | ofNat m =>
      intro c hc
      exact pyWs_of_digit c (List.all_eq_true.mp (natToStr_data_digits m) c
        (List.mem_of_getLast?_eq_some hc))
    | negSucc m =>
      intro c hc
      rw [show (renderScalar (.int (.negSucc m))).data
          = '-' :: (natToStr (m + 1)).data by simp [renderScalar, intToStr]] at hc
      have hmem : c ∈ (natToStr (m + 1)).data := by
        rcases hd : (natToStr (m + 1)).data with _ | ⟨d, ds⟩
        · exact absurd hd (natToStr_ne_nil (m + 1))
        · rw [hd] at hc
          rw [show ('-' :: (d :: ds)).getLast? = (d :: ds).getLast? from rfl] at hc
          exact List.mem_of_getLast?_eq_some hc
      exact pyWs_of_digit c (List.all_eq_true.mp (natToStr_data_digits (m + 1)) c hmem)
  | bool b => cases b <;> decide
  | list xs =>
    rw [show renderScalar (.list xs) = "[]" from rfl]
    decide
  | null => exact absurd h (by decide)

theorem renderScalar_strip (v : YVal) (h : wfVal v = true) :
    pyStrip (renderScalar v) = renderScalar v :=
  pyStrip_fix _ (renderScalar_head_ws v h) (renderScalar_last_ws v h)

theorem pyStrip_space (s : String) (h : pyStrip s = s) :
    pyStrip ⟨' ' :: s.data⟩ = s := by
  have hstep : pyStripL (' ' :: s.data) = pyStripL s.data := by
    unfold pyStripL
    rw [show (' ' :: s.data).dropWhile pyWs = s.data.dropWhile pyWs by
      rw [List.dropWhile_cons, if_pos (by decide)]]
  unfold pyStrip at *
  rw [show (⟨' ' :: s.data⟩ : String).data = ' ' :: s.data from rfl, hstep]
  exact h

/-! ### Recognizing rendered lines -/

theorem splitFirstColon_append (k rest : List Char) (hk : ∀ c ∈ k, ¬(c = ':')) :
    splitFirstColon (k ++ ':' :: rest) = some (k, rest) := by
  induction k with
  | nil => simp [splitFirstColon]
  | cons x xs ih =>
    have hx : ¬(x = ':') := hk x (List.mem_cons_self x xs)
    rw [List.cons_append]
    simp only [splitFirstColon, hx, if_false,
      ih (fun y hy => hk y (List.mem_cons_of_mem x hy)), Option.map_some']

theorem startsWith_dash_false (c : Char) (l : List Char) (hc : ¬(c = '-')) :
    (['-', ' '].isPrefixOf (c :: l)) = false := by
  have hb : ('-' == c) = false := beq_eq_false_iff_ne.mpr (fun h => hc h.symm)
  simp [List.isPrefixOf, hb]

theorem pyStartsWith_key_append (k t : String) (hk : wfKey k = true) :
    pyStartsWith (k ++ t) "- " = false := by
  simp only [wfKey, Bool.and_eq_true, ne_eq, decide_eq_true_eq] at hk
  obtain ⟨hne, hall⟩ := hk
  rcases hd : k.data with _ | ⟨kc, kcs⟩
  · exact absurd hd hne
  · have hkc : wfKeyChar kc = true := by
      rw [hd] at hall
      simp only [List.all_cons, Bool.and_eq_true] at hall
      exact hall.1
    have hdata : (k ++ t).data = kc :: (kcs ++ t.data) := by
      rw [String.data_append, hd]
      rfl
    unfold pyStartsWith
    rw [hdata]
    exact startsWith_dash_false kc _ (char_ne_of_pred wfKeyChar hkc (by decide))

theorem pyStripL_eq_nil_iff (l : List Char) :
    pyStripL l = [] ↔ ∀ c ∈ l, pyWs c = true := by
  unfold pyStripL
  rw [List.reverse_eq_nil_iff, List.dropWhile_eq_nil_iff]
  constructor
  · intro h c hc
    have hsplit : l.takeWhile pyWs ++ l.dropWhile pyWs = l :=
      List.takeWhile_append_dropWhile pyWs l
    rcases List.mem_append.mp (by rw [hsplit]; exact hc) with h1 | h2
    · exact List.mem_takeWhile_imp h1
    · exact h c (List.mem_reverse.mpr h2)
  · intro h c hc
    exact h c ((List.dropWhile_sublist _).subset (List.mem_reverse.mp hc))

theorem pyStrip_ne_empty (s : String) (c : Char) (hc : c ∈ s.data)
    (hw : pyWs c = false) : ¬(pyStrip s = "") := by
  intro h
  have hd : pyStripL s.data = [] := congrArg String.data h
  have := (pyStripL_eq_nil_iff s.data).mp hd c hc
  rw [hw] at this
  exact absurd this (by decide)

theorem pyWs_of_wfKeyChar (c : Char) (h : wfKeyChar c = true) : pyWs c = false := by
  cases hc : pyWs c
  · rfl
  · simp only [pyWs, Bool.or_eq_true, decide_eq_true_eq] at hc
    rcases hc with ((((rfl | rfl) | rfl) | rfl) | rfl) | rfl <;>
      exact absurd h (by decide)

theorem wfKey_parts (k : String) (hk : wfKey k = true) :
    k.data ≠ [] ∧ ∀ c ∈ k.data, wfKeyChar c = true := by
  simp only [wfKey, Bool.and_eq_true, ne_eq, decide_eq_true_eq] at hk
  exact ⟨hk.1, List.all_eq_true.mp hk.2⟩

/-! ### One step of the block-mapping loader per rendered line -/

theorem loadLinesGo_scalar_line (p : Option (String × List String)) (k : String)
    (v : YVal) (rest : List String) (hk : wfKey k = true) (hv : wfVal v = true)
    (hnl : ∀ xs, v = .list xs → xs = []) :
    loadLinesGo p ((k ++ ": " ++ renderScalar v) :: rest) =
      (loadLinesGo none rest).map (fun m => flushPending p ++ ((k, v) :: m)) := by
  obtain ⟨hkne, hkall⟩ := wfKey_parts k hk
  have hgroup : k ++ ": " ++ renderScalar v = k ++ (": " ++ renderScalar v) := by
    apply String.ext
    simp
  have hdata : (k ++ ": " ++ renderScalar v).data
      = k.data ++ ':' :: ' ' :: (renderScalar v).data := by
    rw [hgroup, String.data_append]
    rfl
  have hdash : pyStartsWith (k ++ ": " ++ renderScalar v) "- " = false := by
    rw [hgroup]
    exact pyStartsWith_key_append k _ hk
  have hblank : ¬(pyStrip (k ++ ": " ++ renderScalar v) = "") := by
    rcases hd : k.data with _ | ⟨kc, kcs⟩
    · exact absurd hd hkne
    · apply pyStrip_ne_empty _ kc
      · rw [hdata, hd]
        exact List.mem_append_left _ (List.mem_cons_self _ _)
      · exact pyWs_of_wfKeyChar kc (hkall kc (by rw [hd]; exact List.mem_cons_self _ _))
  have hsplit : splitFirstColon (k ++ ": " ++ renderScalar v).data
      = some (k.data, ' ' :: (renderScalar v).data) := by
    rw [hdata]
    exact splitFirstColon_append k.data _
      (fun c hc => char_ne_of_pred wfKeyChar (hkall c hc) (by decide))
  have hstrip : pyStrip ⟨' ' :: (renderScalar v).data⟩ = renderScalar v :=
    pyStrip_space _ (renderScalar_strip v hv)
  simp only [loadLinesGo, hdash, Bool.false_eq_true, if_false]
  rw [if_neg hblank, hsplit]
  dsimp only
  rw [if_neg (by simp : ¬(' ' :: (renderScalar v).data = []))]
  rw [if_pos (show (' ' :: (renderScalar v).data).head! = ' ' from rfl)]
  rw [hstrip, parseScalar_render v hv hnl]
  cases loadLinesGo none rest <;> simp

theorem loadLinesGo_key_only (p : Option (String × List String)) (k : String)
    (rest : List String) (hk : wfKey k = true) :
    loadLinesGo p ((k ++ ":") :: rest) =
      (loadLinesGo (some (k, [])) rest).map (fun m => flushPending p ++ m) := by
  obtain ⟨hkne, hkall⟩ := wfKey_parts k hk
  have hdata : (k ++ ":").data = k.data ++ ':' :: [] := by
    rw [String.data_append]
  have hdash : pyStartsWith (k ++ ":") "- " = false :=
    pyStartsWith_key_append k _ hk
  have hblank : ¬(pyStrip (k ++ ":") = "") := by
    rcases hd : k.data with _ | ⟨kc, kcs⟩
    · exact absurd hd hkne
    · apply pyStrip_ne_empty _ kc
      · rw [hdata, hd]
        exact List.mem_append_left _ (List.mem_cons_self _ _)
      · exact pyWs_of_wfKeyChar kc (hkall kc (by rw [hd]; exact List.mem_cons_self _ _))
  have hsplit : splitFirstColon (k ++ ":").data = some (k.data, []) := by
    rw [hdata]
    exact splitFirstColon_append k.data _
      (fun c hc => char_ne_of_pred wfKeyChar (hkall c hc) (by decide))
  simp only [loadLinesGo, hdash, Bool.false_eq_true, if_false]
  rw [if_neg hblank, hsplit]
  rfl

theorem loadLinesGo_item (k : String) (items : List String) (h : String)
    (rest : List String) (hp : plainSafe h = true) :
    loadLinesGo (some (k, items)) (("- " ++ h) :: rest) =
      loadLinesGo (some (k, h :: items)) rest := by
  have hdash : pyStartsWith ("- " ++ h) "- " = true := by
    unfold pyStartsWith
    rw [String.data_append]
    exact List.isPrefixOf_iff_prefix.mpr (List.prefix_append _ _)
  have hslice : pySliceFrom ("- " ++ h) 2 = h := by
    apply String.ext
    show (("- " ++ h).data.drop 2) = h.data
    rw [String.data_append]
    rfl
  simp only [loadLinesGo, hdash, if_true]
  rw [hslice, plainSafe_strip_fix h hp]

theorem loadLinesGo_items (k : String) (acc items rest : List String)
    (hall : items.all plainSafe = true) :
    loadLinesGo (some (k, acc)) (items.map (fun h => "- " ++ h) ++ rest) =
      loadLinesGo (some (k, items.reverse ++ acc)) rest := by
  induction items generalizing acc with
  | nil => simp
  | cons x xs ih =>
    simp only [List.all_cons, Bool.and_eq_true] at hall
    rw [List.map_cons, List.cons_append,
      loadLinesGo_item k acc x _ hall.1, ih (x :: acc) hall.2]
    simp

theorem loadLinesGo_pending (p : Option (String × List String)) (ls : List String)
    (hhd : ∀ l, ls.head? = some l → pyStartsWith l "- " = false) :
    loadLinesGo p ls = (loadLinesGo none ls).map (fun m => flushPending p ++ m) := by
  cases ls with
  | nil => simp [loadLinesGo, flushPending]
  | cons l rest =>
    have hd := hhd l rfl
    simp only [loadLinesGo, hd, Bool.false_eq_true, if_false]
    by_cases hb : pyStrip l = ""
    · rw [if_pos hb, if_pos hb]
      cases loadLinesGo none rest <;> simp [flushPending]
    · rw [if_neg hb, if_neg hb]
      rcases hsp : splitFirstColon l.data with _ | kv
      · rfl
      · dsimp only
        by_cases h2 : kv.2 = []
        · rw [if_pos h2, if_pos h2]
          cases loadLinesGo (some (⟨kv.1⟩, [])) rest <;> simp [flushPending]
        · rw [if_neg h2, if_neg h2]
          by_cases h3 : kv.2.head! = ' '
          · rw [if_pos h3, if_pos h3]
            cases loadLinesGo none rest <;> simp [flushPending]
          · rw [if_neg h3, if_neg h3]
            rfl

theorem append_assoc_str (a b c : String) : a ++ b ++ c = a ++ (b ++ c) := by
  apply String.ext
  simp

theorem scalar_line_no_nl (k : String) (v : YVal)
    (hkall : ∀ c ∈ k.data, wfKeyChar c = true) (hv : wfVal v = true) :
    ∀ x ∈ (k ++ ": " ++ renderScalar v).data, ¬(x = '\n') := by
  intro x hx
  rw [append_assoc_str, String.data_append] at hx
  rcases List.mem_append.mp hx with hx | hx
  · exact char_ne_of_pred wfKeyChar (hkall x hx) (by decide)
  · rw [show (": " ++ renderScalar v).data = ':' :: ' ' :: (renderScalar v).data by
      simp] at hx
    rcases List.mem_cons.mp hx with rfl | hx
    · decide
    rcases List.mem_cons.mp hx with rfl | hx
    · decide
    exact renderScalar_no_nl v hv x hx

theorem dump_no_nl (fm : List (String × YVal))
    (h : fm.all (fun kv => wfKey kv.1 && wfVal kv.2) = true) :
    ∀ l ∈ (fm.map renderPairLines).flatten, ∀ x ∈ l.data, ¬(x = '\n') := by
  intro l hl x hx
  rw [List.mem_flatten] at hl
  obtain ⟨ls, hls, hlm⟩ := hl
  rw [List.mem_map] at hls
  obtain ⟨kv, hkv, rfl⟩ := hls
  obtain ⟨k, v⟩ := kv
  have hwf := List.all_eq_true.mp h _ hkv
  simp only [Bool.and_eq_true] at hwf
  obtain ⟨hk, hv⟩ := hwf
  obtain ⟨-, hkall⟩ := wfKey_parts k hk
  by_cases hvl : ∃ y ys, v = YVal.list (y :: ys)
  · obtain ⟨y, ys, rfl⟩ := hvl
    rw [show renderPairLines (k, YVal.list (y :: ys))
        = (k ++ ":") :: (y :: ys).map (fun t => "- " ++ t) from rfl] at hlm
    rcases List.mem_cons.mp hlm with rfl | hlm
    · rw [String.data_append] at hx
      rcases List.mem_append.mp hx with hx | hx
      · exact char_ne_of_pred wfKeyChar (hkall x hx) (by decide)
      · rcases List.mem_singleton.mp hx with rfl
        decide
    · rw [List.mem_map] at hlm
      obtain ⟨t, htm, rfl⟩ := hlm
      have hts : plainSafe t = true := by
        simp only [wfVal] at hv
        exact List.all_eq_true.mp hv t htm
      obtain ⟨-, htall, -⟩ := plainSafe_parts t hts
      rw [String.data_append] at hx
      rcases List.mem_append.mp hx with hx | hx
      · rcases List.mem_cons.mp hx with rfl | hx
        · decide
        rcases List.mem_singleton.mp hx with rfl
        decide
      · exact char_ne_of_pred plainChar (List.all_eq_true.mp htall x hx) (by decide)
  · have hshape : renderPairLines (k, v) = [k ++ ": " ++ renderScalar v] := by
      cases v with
      | list xs =>
        cases xs with
        | nil => rfl
        | cons y ys => exact absurd ⟨y, ys, rfl⟩ hvl
      | str s => rfl
      | int n => rfl
      | bool b => rfl
      | null => rfl
    rw [hshape] at hlm
    rcases List.mem_singleton.mp hlm with rfl
    exact scalar_line_no_nl k v hkall hv x hx

theorem dump_head_not_dash (fm : List (String × YVal))
    (h : fm.all (fun kv => wfKey kv.1 && wfVal kv.2) = true) :
    ∀ l, ((fm.map renderPairLines).flatten ++ [""]).head? = some l →
      pyStartsWith l "- " = false := by
  intro l hl
  cases fm with
  | nil =>
    simp only [List.map_nil, List.flatten_nil, List.nil_append, List.head?_cons,
      Option.some.injEq] at hl
    rw [← hl]
    decide
  | cons kv fm' =>
    obtain ⟨k, v⟩ := kv
    simp only [List.all_cons, Bool.and_eq_true] at h
    obtain ⟨⟨hk, hv⟩, h'⟩ := h
    by_cases hvl : ∃ y ys, v = YVal.list (y :: ys)
    · obtain ⟨y, ys, rfl⟩ := hvl
      rw [List.map_cons, List.flatten_cons, List.append_assoc,
        show renderPairLines (k, YVal.list (y :: ys))
          = (k ++ ":") :: (y :: ys).map (fun t => "- " ++ t) from rfl,
        List.cons_append] at hl
      rw [List.head?_cons, Option.some.injEq] at hl
      rw [← hl]
      exact pyStartsWith_key_append k ":" hk
    · have hshape : renderPairLines (k, v) = [k ++ ": " ++ renderScalar v] := by
        cases v with
        | list xs =>
          cases xs with
          | nil => rfl
          | cons y ys => exact absurd ⟨y, ys, rfl⟩ hvl
        | str s => rfl
        | int n => rfl
        | bool b => rfl
        | null => rfl
      rw [List.map_cons, List.flatten_cons, List.append_assoc, hshape,
        List.singleton_append] at hl
      rw [List.head?_cons, Option.some.injEq] at hl
      rw [← hl, append_assoc_str]
      exact pyStartsWith_key_append k _ hk

theorem loadLines_dump (fm : List (String × YVal))
    (h : fm.all (fun kv => wfKey kv.1 && wfVal kv.2) = true) :
    loadLinesGo none ((fm.map renderPairLines).flatten ++ [""]) = some fm := by
  induction fm with
  | nil => decide
  | cons kv fm' ih =>
    obtain ⟨k, v⟩ := kv
    simp only [List.all_cons, Bool.and_eq_true] at h
    obtain ⟨⟨hk, hv⟩, h'⟩ := h
    have ih' := ih h'
    simp only [List.map_cons, List.flatten_cons, List.append_assoc]
    by_cases hvl : ∃ y ys, v = YVal.list (y :: ys)
    · obtain ⟨y, ys, rfl⟩ := hvl
      rw [show renderPairLines (k, YVal.list (y :: ys))
          = (k ++ ":") :: (y :: ys).map (fun t => "- " ++ t) from rfl]
      rw [List.cons_append]
      rw [loadLinesGo_key_only none k _ hk]
      rw [loadLinesGo_items k [] (y :: ys) _ (by simpa [wfVal] using hv)]
      rw [loadLinesGo_pending (some (k, (y :: ys).reverse ++ []))
        _ (dump_head_not_dash fm' h')]
      rw [ih']
      simp [flushPending]
    · have hshape : renderPairLines (k, v) = [k ++ ": " ++ renderScalar v] := by
        cases v with
        | list xs =>
          cases xs with
          | nil => rfl
          | cons y ys => exact absurd ⟨y, ys, rfl⟩ hvl
        | str s => rfl
        | int n => rfl
        | bool b => rfl
        | null => rfl
      have hnl : ∀ xs, v = YVal.list xs → xs = [] := by
        intro xs hx
        cases xs with
        | nil => rfl
        | cons y ys => exact absurd ⟨y, ys, hx⟩ hvl
      rw [hshape, List.singleton_append]
      rw [loadLinesGo_scalar_line none k v _ hk hv hnl]
      rw [ih']
      simp [flushPending]

theorem renderPairLines_ne_nil (kv : String × YVal) : renderPairLines kv ≠ [] := by
  obtain ⟨k, v⟩ := kv
  cases v with
  | list xs =>
    cases xs with
    | nil => simp [renderPairLines]
    | cons y ys => simp [renderPairLines]
  | str s => simp [renderPairLines]
  | int n => simp [renderPairLines]
  | bool b => simp [renderPairLines]
  | null => simp [renderPairLines]

theorem dump_nonblank (fm : List (String × YVal))
    (h : fm.all (fun kv => wfKey kv.1 && wfVal kv.2) = true) :
    ∀ l ∈ (fm.map renderPairLines).flatten, ¬(pyStrip l = "") := by
  intro l hl
  rw [List.mem_flatten] at hl
  obtain ⟨ls, hls, hlm⟩ := hl
  rw [List.mem_map] at hls
  obtain ⟨kv, hkv, rfl⟩ := hls
  obtain ⟨k, v⟩ := kv
  have hwf := List.all_eq_true.mp h _ hkv
  simp only [Bool.and_eq_true] at hwf
  obtain ⟨hk, hv⟩ := hwf
  obtain ⟨hkne, hkall⟩ := wfKey_parts k hk
  have hkey : ∀ (t : String), ¬(pyStrip (k ++ t) = "") := by
    intro t
    rcases hd : k.data with _ | ⟨kc, kcs⟩
    · exact absurd hd hkne
    · apply pyStrip_ne_empty _ kc
      · rw [String.data_append, hd]
        exact List.mem_append_left _ (List.mem_cons_self _ _)
      · exact pyWs_of_wfKeyChar kc (hkall kc (by rw [hd]; exact List.mem_cons_self _ _))
  by_cases hvl : ∃ y ys, v = YVal.list (y :: ys)
  · obtain ⟨y, ys, rfl⟩ := hvl
    rw [show renderPairLines (k, YVal.list (y :: ys))
        = (k ++ ":") :: (y :: ys).map (fun t => "- " ++ t) from rfl] at hlm
    rcases List.mem_cons.mp hlm with rfl | hlm
    · exact hkey ":"
    · rw [List.mem_map] at hlm
      obtain ⟨t, htm, rfl⟩ := hlm
      apply pyStrip_ne_empty _ '-'
      · rw [String.data_append]
        exact List.mem_append_left _ (List.mem_cons_self _ _)
      · decide
  · have hshape : renderPairLines (k, v) = [k ++ ": " ++ renderScalar v] := by
      cases v with
      | list xs =>
        cases xs with
        | nil => rfl
        | cons y ys => exact absurd ⟨y, ys, rfl⟩ hvl
      | str s => rfl
      | int n => rfl
      | bool b => rfl
      | null => rfl
    rw [hshape] at hlm
    rcases List.mem_singleton.mp hlm with rfl
    rw [append_assoc_str]
    exact hkey _

theorem dump_filter (fm : List (String × YVal))
    (h : fm.all (fun kv => wfKey kv.1 && wfVal kv.2) = true) :
    ((fm.map renderPairLines).flatten ++ [""]).filter (fun l => pyStrip l ≠ "")
      = (fm.map renderPairLines).flatten := by
  rw [List.filter_append]
  rw [List.filter_eq_self.mpr (fun a ha => by
    simpa using dump_nonblank fm h a ha)]
  rw [show List.filter (fun l => decide (pyStrip l ≠ "")) [""] = [] from rfl]
  simp

theorem dump_first_colon (fm : List (String × YVal))
    (h : fm.all (fun kv => wfKey kv.1 && wfVal kv.2) = true) :
    ∀ l, ((fm.map renderPairLines).flatten).head? = some l →
      (splitFirstColon l.data).isSome = true := by
  intro l hl
  cases fm with
  | nil => simp at hl
  | cons kv fm' =>
    obtain ⟨k, v⟩ := kv
    simp only [List.all_cons, Bool.and_eq_true] at h
    obtain ⟨⟨hk, hv⟩, h'⟩ := h
    obtain ⟨hkne, hkall⟩ := wfKey_parts k hk
    have hcf : ∀ c ∈ k.data, ¬(c = ':') :=
      fun c hc => char_ne_of_pred wfKeyChar (hkall c hc) (by decide)
    by_cases hvl : ∃ y ys, v = YVal.list (y :: ys)
    · obtain ⟨y, ys, rfl⟩ := hvl
      rw [List.map_cons, List.flatten_cons,
        show renderPairLines (k, YVal.list (y :: ys))
          = (k ++ ":") :: (y :: ys).map (fun t => "- " ++ t) from rfl,
        List.cons_append, List.head?_cons, Option.some.injEq] at hl
      rw [← hl]
      rw [show (k ++ ":").data = k.data ++ ':' :: [] by rw [String.data_append]]
      rw [splitFirstColon_append k.data [] hcf]
      rfl
    · have hshape : renderPairLines (k, v) = [k ++ ": " ++ renderScalar v] := by
        cases v with
        | list xs =>
          cases xs with
          | nil => rfl
          | cons y ys => exact absurd ⟨y, ys, rfl⟩ hvl
        | str s => rfl
        | int n => rfl
        | bool b => rfl
        | null => rfl
      rw [List.map_cons, List.flatten_cons, hshape, List.singleton_append,
        List.head?_cons, Option.some.injEq] at hl
      rw [← hl]
      rw [show (k ++ ": " ++ renderScalar v).data
          = k.data ++ ':' :: (' ' :: (renderScalar v).data) by
        rw [append_assoc_str, String.data_append]
        simp]
      rw [splitFirstColon_append k.data _ hcf]
      rfl

/-- `yaml.safe_load` inverts `yaml.dump` on a nonempty well-formed mapping
of our fragment. -/
theorem yamlLoad_dump (fm : List (String × YVal))
    (h : fm.all (fun kv => wfKey kv.1 && wfVal kv.2) = true) (hne : fm ≠ []) :
    yamlLoad (yamlDump fm) = some (.map fm) := by
  have hld : loadLines ((fm.map renderPairLines).flatten ++ [""]) = some fm :=
    loadLines_dump fm h
  simp only [yamlLoad]
  rw [dump_lines fm (dump_no_nl fm h), dump_filter fm h]
  split
  · next heq =>
    exfalso
    cases fm with
    | nil => exact hne rfl
    | cons kv fm' =>
      rw [List.map_cons, List.flatten_cons] at heq
      rcases List.append_eq_nil.mp heq with ⟨h1, -⟩
      exact renderPairLines_ne_nil kv h1
  · next l heq =>
    have hcol := dump_first_colon fm h l (by rw [heq]; rfl)
    rw [if_pos hcol, hld, Option.map_some']
  · rw [hld, Option.map_some']

/-! ### First-occurrence computations for the heading searches -/

theorem suffix_append_split {s X Y : List Char} (h : s <:+ X ++ Y) :
    s <:+ Y ∨ ∃ a, a <:+ X ∧ s = a ++ Y := by
  obtain ⟨pre, hpre⟩ := h
  rcases List.append_eq_append_iff.mp hpre with ⟨a, hX, hs⟩ | ⟨c, hpre2, hY⟩
  · exact Or.inr ⟨a, ⟨pre, hX.symm⟩, hs⟩
  · exact Or.inl ⟨c, hY.symm⟩

theorem suffix_cases {a H : List Char} (ha : a <:+ H) (hne : a ≠ []) :
    a = H ∨ ∃ c, a.head? = some c ∧ c ∈ H.tail := by
  obtain ⟨pre, hpre⟩ := ha
  cases pre with
  | nil => exact Or.inl hpre
  | cons q pre' =>
    rcases hd : a with _ | ⟨ha0, a'⟩
    · exact absurd hd hne
    · right
      refine ⟨ha0, rfl, ?_⟩
      rw [← hpre, List.cons_append, List.tail_cons, hd]
      exact List.mem_append_right _ (List.mem_cons_self _ _)

theorem isPrefixOf_head_mismatch (pat s B : List Char) (a b : Char)
    (hp : pat.head? = some a) (hs : s.head? = some b) (hab : ¬(a = b)) :
    (pat.isPrefixOf (s ++ B)) = false := by
  cases pat with
  | nil => cases hp
  | cons p ps =>
    cases s with
    | nil => cases hs
    | cons c cs =>
      cases hp
      cases hs
      rw [List.cons_append]
      simp only [List.isPrefixOf, Bool.and_eq_false_iff]
      left
      exact beq_eq_false_iff_ne.mpr hab

theorem not_isPrefixOf_of_diverge (common : List Char) (x y : Char)
    (p s : List Char) (hxy : ¬(x = y)) :
    ((common ++ x :: p).isPrefixOf (common ++ y :: s)) = false := by
  induction common with
  | nil =>
    simp only [List.nil_append, List.isPrefixOf, Bool.and_eq_false_iff]
    left
    exact beq_eq_false_iff_ne.mpr hxy
  | cons c cs ih =>
    simp only [List.cons_append, List.isPrefixOf, beq_self_eq_true, Bool.true_and]
    exact ih

theorem strFindL_append_skip (pat A B : List Char)
    (h : ∀ s, s <:+ A → s ≠ [] → (pat.isPrefixOf (s ++ B)) = false) :
    strFindL pat (A ++ B) = (strFindL pat B).map (· + A.length) := by
  induction A with
  | nil =>
    rw [List.nil_append]
    cases hB : strFindL pat B <;> simp [hB]
  | cons a A' ih =>
    have hnp : (pat.isPrefixOf ((a :: A') ++ B)) = false :=
      h (a :: A') (List.suffix_refl _) (List.cons_ne_nil _ _)
    rw [List.cons_append]
    rw [show strFindL pat (a :: (A' ++ B))
        = if pat.isPrefixOf (a :: (A' ++ B)) then some 0
          else (strFindL pat (A' ++ B)).map (· + 1) from rfl]
    rw [show pat.isPrefixOf (a :: (A' ++ B)) = pat.isPrefixOf ((a :: A') ++ B) from rfl,
      hnp]
    simp only [Bool.false_eq_true, if_false]
    rw [ih (fun s hs hsne => h s (hs.trans (List.suffix_cons a A')) hsne)]
    cases strFindL pat B <;> simp [Nat.add_assoc]

theorem strFindL_pat_start (pat C : List Char) (hne : pat ≠ []) :
    strFindL pat (pat ++ C) = some 0 := by
  cases pat with
  | nil => exact absurd rfl hne
  | cons p ps =>
    rw [List.cons_append]
    rw [show strFindL (p :: ps) (p :: (ps ++ C))
        = if (p :: ps).isPrefixOf (p :: (ps ++ C)) then some 0
          else (strFindL (p :: ps) (ps ++ C)).map (· + 1) from rfl]
    rw [if_pos]
    exact List.isPrefixOf_iff_prefix.mpr ⟨C, by simp⟩

theorem strFindL_skip_heading_block (pat : List Char) (x : Char) (p' : List Char)
    (hpat : pat = '#' :: ' ' :: x :: p') (y : Char) (h' mid B : List Char)
    (hxy : ¬(x = y)) (hy : ¬(y = '#'))
    (hmid : ∀ c ∈ mid, ¬(c = '#')) (hh' : ∀ c ∈ h', ¬(c = '#')) :
    strFindL pat ((('#' :: ' ' :: y :: h') ++ mid) ++ B) =
      (strFindL pat B).map (· + (('#' :: ' ' :: y :: h') ++ mid).length) := by
  apply strFindL_append_skip
  intro s hs hsne
  rcases suffix_append_split hs with hsm | ⟨a, haH, rfl⟩
  · rcases hd : s with _ | ⟨s0, st⟩
    · exact absurd hd hsne
    · have hs0 : s0 ∈ mid := hsm.subset (by rw [hd]; exact List.mem_cons_self _ _)
      exact isPrefixOf_head_mismatch _ _ _ '#' s0 (by rw [hpat]; rfl)
        rfl (fun he => hmid s0 hs0 he.symm)
  · rcases Decidable.em (a = []) with rfl | hane
    · rcases mid with _ | ⟨m0, mt⟩
      · exact absurd rfl hsne
      · exact isPrefixOf_head_mismatch _ _ _ '#' m0 (by rw [hpat]; rfl) rfl
          (fun he => hmid m0 (List.mem_cons_self _ _) he.symm)
    · rcases suffix_cases haH hane with rfl | ⟨c, hc, hcm⟩
      · rw [hpat]
        rw [show (('#' :: ' ' :: y :: h') ++ mid) ++ B
            = ['#', ' '] ++ (y :: (h' ++ mid ++ B)) by simp]
        rw [show ('#' :: ' ' :: x :: p') = ['#', ' '] ++ (x :: p') from rfl]
        exact not_isPrefixOf_of_diverge ['#', ' '] x y _ _ hxy
      · have hch : ¬(c = '#') := by
          intro hcc
          subst hcc
          rcases List.mem_cons.mp hcm with he | hcm'
          · exact absurd he (by decide)
          · rcases List.mem_cons.mp hcm' with he | hcm''
            · exact hy he.symm
            · exact hh' _ hcm'' rfl
        rcases hd : a with _ | ⟨a0, at'⟩
        · exact absurd hd hane
        · rw [List.cons_append]
          refine isPrefixOf_head_mismatch _ _ _ '#' a0 (by rw [hpat]; rfl) rfl ?_
          intro he
          rw [hd] at hc
          cases hc
          exact hch he.symm

/-! ### Strip and slice computations -/

theorem dropWhile_append_ws (W X : List Char) (hW : ∀ c ∈ W, pyWs c = true) :
    (W ++ X).dropWhile pyWs = X.dropWhile pyWs := by
  induction W with
  | nil => rfl
  | cons w ws ih =>
    rw [List.cons_append, List.dropWhile_cons, if_pos (hW w (List.mem_cons_self _ _)),
      ih (fun c hc => hW c (List.mem_cons_of_mem _ hc))]

theorem pyStripL_sandwich (w1 core w2 : List Char)
    (h1 : ∀ c ∈ w1, pyWs c = true) (h2 : ∀ c ∈ w2, pyWs c = true)
    (hne : core ≠ [])
    (hh : ∀ c, core.head? = some c → pyWs c = false)
    (hl : ∀ c, core.getLast? = some c → pyWs c = false) :
    pyStripL (w1 ++ core ++ w2) = core := by
  have hcw : (core ++ w2).head? = core.head? := by
    rcases core with _ | ⟨c0, ct⟩
    · exact absurd rfl hne
    · rfl
  unfold pyStripL
  rw [show w1 ++ core ++ w2 = w1 ++ (core ++ w2) by simp]
  rw [dropWhile_append_ws w1 _ h1]
  rw [dropWhile_eq_self_of_head pyWs (core ++ w2)
    (fun c hcq => hh c (by rw [← hcw]; exact hcq))]
  rw [List.reverse_append]
  rw [dropWhile_append_ws w2.reverse _ (fun c hcq => h2 c (List.mem_reverse.mp hcq))]
  rw [dropWhile_eq_self_of_head pyWs core.reverse
    (fun c hcq => hl c (by rw [← List.head?_reverse]; exact hcq))]
  exact List.reverse_reverse core

theorem pyStrip_sandwich (w1 core w2 : List Char)
    (h1 : ∀ c ∈ w1, pyWs c = true) (h2 : ∀ c ∈ w2, pyWs c = true)
    (hne : core ≠ [])
    (hh : ∀ c, core.head? = some c → pyWs c = false)
    (hl : ∀ c, core.getLast? = some c → pyWs c = false) :
    pyStrip ⟨w1 ++ core ++ w2⟩ = ⟨core⟩ := by
  apply String.ext
  show pyStripL (w1 ++ core ++ w2) = core
  exact pyStripL_sandwich w1 core w2 h1 h2 hne hh hl

theorem pyRstrip_fix (s : String)
    (hl : ∀ c, s.data.getLast? = some c → pyWs c = false) : pyRstrip s = s := by
  apply String.ext
  show (s.data.reverse.dropWhile pyWs).reverse = s.data
  rw [dropWhile_eq_self_of_head pyWs s.data.reverse
    (fun c hcq => hl c (by rw [← List.head?_reverse]; exact hcq))]
  exact List.reverse_reverse s.data

theorem pySlice_block (X Y Z : List Char) :
    pySlice ⟨X ++ (Y ++ Z)⟩ X.length (X.length + Y.length) = ⟨Y⟩ := by
  unfold pySlice
  apply String.ext
  show ((X ++ (Y ++ Z)).drop X.length).take (X.length + Y.length - X.length) = Y
  rw [List.drop_left, Nat.add_sub_cancel_left, List.take_left]

theorem pySliceFrom_block (X Y : List Char) :
    pySliceFrom ⟨X ++ Y⟩ X.length = ⟨Y⟩ := by
  unfold pySliceFrom
  apply String.ext
  show (X ++ Y).drop X.length = Y
  exact List.drop_left X Y

/-! ### The bullet-list block -/

/-- The character content of the written highlights block between the
heading line and the final blank line: `- h` lines joined by newlines. -/
def dashLines : List String → List Char
  | [] => []
  | [h] => '-' :: ' ' :: h.data
  | h :: h2 :: rest => '-' :: ' ' :: (h.data ++ '\n' :: dashLines (h2 :: rest))

theorem itemsJoin_data (hls : List String) (hne : hls ≠ []) :
    (String.join (hls.map (fun h => "- " ++ h ++ "\n"))).data
      = dashLines hls ++ ['\n'] := by
  induction hls with
  | nil => exact absurd rfl hne
  | cons h t ih =>
    rw [List.map_cons, join_data, List.map_cons, List.flatten_cons]
    cases t with
    | nil =>
      show ("- " ++ h ++ "\n").data ++ [] = ('-' :: ' ' :: h.data) ++ ['\n']
      simp
    | cons h2 t2 =>
      have ih' := ih (List.cons_ne_nil h2 t2)
      rw [join_data] at ih'
      rw [show (List.map String.data (List.map (fun h => "- " ++ h ++ "\n") (h2 :: t2))).flatten
          = dashLines (h2 :: t2) ++ ['\n'] from ih']
      show ("- " ++ h ++ "\n").data ++ (dashLines (h2 :: t2) ++ ['\n'])
          = ('-' :: ' ' :: (h.data ++ '\n' :: dashLines (h2 :: t2))) ++ ['\n']
      simp

theorem splitOnCharL_no_sep (c : Char) (l : List Char) (h : ∀ x ∈ l, ¬(x = c)) :
    splitOnCharL c l = [l] := by
  induction l with
  | nil => rfl
  | cons x xs ih =>
    have hx : ¬(x = c) := h x (List.mem_cons_self _ _)
    simp only [splitOnCharL, hx, if_false,
      ih (fun y hy => h y (List.mem_cons_of_mem _ hy))]

theorem dashline_strip (h : String) (hp : plainSafe h = true) :
    pyStrip ⟨'-' :: ' ' :: h.data⟩ = ⟨'-' :: ' ' :: h.data⟩ := by
  obtain ⟨hne, -, -, hlast, -⟩ := plainSafe_parts h hp
  apply String.ext
  show pyStripL ('-' :: ' ' :: h.data) = '-' :: ' ' :: h.data
  apply pyStripL_fix
  · intro c hc
    cases hc
    decide
  · intro c hc
    rw [show ('-' :: ' ' :: h.data).getLast? = h.data.getLast? by
      rcases hd : h.data with _ | ⟨d, ds⟩
      · exact absurd hd hne
      · rfl] at hc
    rw [getLast_bang_of_ne_nil hne] at hc
    cases hc
    exact hlast

theorem parseBulletList_single (h : String) (hp : plainSafe h = true) :
    (if pyStartsWith (pyStrip (⟨'-' :: ' ' :: h.data⟩ : String)) "- " then
       (if pyStrip (pySliceFrom (pyStrip (⟨'-' :: ' ' :: h.data⟩ : String)) 2) = ""
        then none
        else some (pyStrip (pySliceFrom (pyStrip (⟨'-' :: ' ' :: h.data⟩ : String)) 2)))
     else none) = some h := by
  obtain ⟨hne, -, -, -, -⟩ := plainSafe_parts h hp
  rw [dashline_strip h hp]
  rw [show pyStartsWith ⟨'-' :: ' ' :: h.data⟩ "- " = true by
    unfold pyStartsWith
    exact List.isPrefixOf_iff_prefix.mpr ⟨h.data, rfl⟩]
  rw [if_pos rfl]
  rw [show pySliceFrom ⟨'-' :: ' ' :: h.data⟩ 2 = h by
    unfold pySliceFrom
    apply String.ext
    rfl]
  rw [plainSafe_strip_fix h hp]
  rw [if_neg (fun he => hne (congrArg String.data he))]

theorem parseBulletList_dashLines (hls : List String)
    (hall : hls.all plainSafe = true) :
    parseBulletList ⟨dashLines hls⟩ = hls := by
  induction hls with
  | nil => rfl
  | cons h t ih =>
    simp only [List.all_cons, Bool.and_eq_true] at hall
    obtain ⟨hp, ht⟩ := hall
    obtain ⟨hne, hpl, -, -, -⟩ := plainSafe_parts h hp
    have hnonl : ∀ x ∈ '-' :: ' ' :: h.data, ¬(x = '\n') := by
      intro x hx
      rcases List.mem_cons.mp hx with rfl | hx
      · decide
      rcases List.mem_cons.mp hx with rfl | hx
      · decide
      exact char_ne_of_pred plainChar (List.all_eq_true.mp hpl x hx) (by decide)
    cases t with
    | nil =>
      unfold parseBulletList
      rw [show (⟨dashLines [h]⟩ : String).data = '-' :: ' ' :: h.data from rfl]
      rw [splitOnCharL_no_sep '\n' _ hnonl]
      rw [List.filterMap_cons]
      dsimp only
      rw [parseBulletList_single h hp]
      rfl
    | cons h2 t2 =>
      have ih' := ih ht
      unfold parseBulletList at ih'
      rw [show (⟨dashLines (h2 :: t2)⟩ : String).data = dashLines (h2 :: t2) from rfl] at ih'
      unfold parseBulletList
      rw [show (⟨dashLines (h :: h2 :: t2)⟩ : String).data
          = ('-' :: ' ' :: h.data) ++ '\n' :: dashLines (h2 :: t2) by
        show dashLines (h :: h2 :: t2) = _
        rw [show dashLines (h :: h2 :: t2)
            = '-' :: ' ' :: (h.data ++ '\n' :: dashLines (h2 :: t2)) from rfl]
        simp]
      rw [splitOnCharL_sep '\n' _ _ hnonl]
      rw [List.filterMap_cons]
      dsimp only at ih' ⊢
      rw [parseBulletList_single h hp, ih']

/-! ### Well-formed body payloads -/

/-- Free-text payloads (review, private notes) that the writer emits
verbatim and the section parser recovers: non-empty, not padded with
whitespace, containing no `#` (which would read as a heading). -/
def wfText (t : String) : Bool :=
  t.data ≠ [] && !(pyWs t.data.head!) && !(pyWs t.data.getLast!) &&
  t.data.all (fun c => !(c = '#'))

theorem wfText_parts (t : String) (h : wfText t = true) :
    t.data ≠ [] ∧ pyWs t.data.head! = false ∧ pyWs t.data.getLast! = false ∧
      ∀ c ∈ t.data, ¬(c = '#') := by
  simp only [wfText, Bool.and_eq_true, ne_eq, Bool.not_eq_true',
    List.all_eq_true, decide_eq_true_eq] at h
  obtain ⟨⟨⟨hne, hh⟩, hl⟩, ha⟩ := h
  exact ⟨hne, hh, hl, fun c hc hcc => by
    have := ha c hc
    rw [hcc] at this
    exact absurd this (by decide)⟩

theorem wfText_head (t : String) (h : wfText t = true) :
    ∀ c, t.data.head? = some c → pyWs c = false := by
  obtain ⟨hne, hh, -, -⟩ := wfText_parts t h
  intro c hc
  rw [head_bang_of_ne_nil hne] at hc
  cases hc
  exact hh

theorem wfText_last (t : String) (h : wfText t = true) :
    ∀ c, t.data.getLast? = some c → pyWs c = false := by
  obtain ⟨hne, -, hl, -⟩ := wfText_parts t h
  intro c hc
  rw [getLast_bang_of_ne_nil hne] at hc
  cases hc
  exact hl

theorem dashLines_ne_nil (h0 : String) (hr : List String) :
    dashLines (h0 :: hr) ≠ [] := by
  cases hr <;> simp [dashLines]

theorem dashLines_head (h0 : String) (hr : List String) :
    (dashLines (h0 :: hr)).head? = some '-' := by
  cases hr <;> rfl

theorem dashLines_no_hash (hls : List String) (hall : hls.all plainSafe = true) :
    ∀ c ∈ dashLines hls, ¬(c = '#') := by
  induction hls with
  | nil => intro c hc; simp [dashLines] at hc
  | cons h t ih =>
    simp only [List.all_cons, Bool.and_eq_true] at hall
    obtain ⟨hp, ht⟩ := hall
    obtain ⟨-, hpl, -, -, -⟩ := plainSafe_parts h hp
    have hchars : ∀ c ∈ h.data, ¬(c = '#') :=
      fun c hc => char_ne_of_pred plainChar (List.all_eq_true.mp hpl c hc) (by decide)
    intro c hc
    cases t with
    | nil =>
      rw [show dashLines [h] = '-' :: ' ' :: h.data from rfl] at hc
      rcases List.mem_cons.mp hc with rfl | hc
      · decide
      rcases List.mem_cons.mp hc with rfl | hc
      · decide
      exact hchars c hc
    | cons h2 t2 =>
      rw [show dashLines (h :: h2 :: t2)
          = '-' :: ' ' :: (h.data ++ '\n' :: dashLines (h2 :: t2)) from rfl] at hc
      rcases List.mem_cons.mp hc with rfl | hc
      · decide
      rcases List.mem_cons.mp hc with rfl | hc
      · decide
      rcases List.mem_append.mp hc with hc | hc
      · exact hchars c hc
      rcases List.mem_cons.mp hc with rfl | hc
      · decide
      · exact ih ht c hc

theorem dashLines_last (hls : List String) (hall : hls.all plainSafe = true) :
    ∀ c, (dashLines hls).getLast? = some c → pyWs c = false := by
  induction hls with
  | nil => intro c hc; simp [dashLines] at hc
  | cons h t ih =>
    simp only [List.all_cons, Bool.and_eq_true] at hall
    obtain ⟨hp, ht⟩ := hall
    obtain ⟨hne, -, -, hlast, -⟩ := plainSafe_parts h hp
    intro c hc
    cases t with
    | nil =>
      rw [show dashLines [h] = '-' :: ' ' :: h.data from rfl] at hc
      rw [show ('-' :: ' ' :: h.data).getLast? = h.data.getLast? by
        rcases hd : h.data with _ | ⟨d, ds⟩
        · exact absurd hd hne
        · rfl] at hc
      rw [getLast_bang_of_ne_nil hne] at hc
      cases hc
      exact hlast
    | cons h2 t2 =>
      rw [show dashLines (h :: h2 :: t2)
          = ('-' :: ' ' :: (h.data ++ ['\n'])) ++ dashLines (h2 :: t2) by
        rw [show dashLines (h :: h2 :: t2)
            = '-' :: ' ' :: (h.data ++ '\n' :: dashLines (h2 :: t2)) from rfl]
        simp] at hc
      rw [List.getLast?_append_of_ne_nil _ (dashLines_ne_nil h2 t2)] at hc
      exact ih ht c hc

theorem pySlice_block' (X Y Z : List Char) (a b : Nat)
    (ha : a = X.length) (hb : b = X.length + Y.length) :
    pySlice ⟨X ++ (Y ++ Z)⟩ a b = ⟨Y⟩ := by
  subst ha
  subst hb
  exact pySlice_block X Y Z

theorem pySlice_tail (X Y : List Char) (a b : Nat) (ha : a = X.length)
    (hb : (X ++ Y).length ≤ b) : pySlice ⟨X ++ Y⟩ a b = ⟨Y⟩ := by
  subst ha
  unfold pySlice
  apply String.ext
  show ((X ++ Y).drop X.length).take (b - X.length) = Y
  rw [List.drop_left]
  apply List.take_of_length_le
  rw [List.length_append] at hb
  omega

theorem pySliceFrom_block' (X Y : List Char) (a : Nat) (ha : a = X.length) :
    pySliceFrom ⟨X ++ Y⟩ a = ⟨Y⟩ := by
  subst ha
  exact pySliceFrom_block X Y

/-! ### Section extraction on written bodies: the eight presence cases -/

theorem pyStrip_newline (t : String) (hne : t.data ≠ [])
    (hh : ∀ c, t.data.head? = some c → pyWs c = false)
    (hl : ∀ c, t.data.getLast? = some c → pyWs c = false) :
    pyStrip ⟨'\n' :: t.data⟩ = t := by
  have hs := pyStrip_sandwich ['\n'] t.data [] (by decide) (by decide) hne hh hl
  rw [show (['\n'] ++ t.data ++ [] : List Char) = '\n' :: t.data by simp] at hs
  exact hs

theorem filter_cons_decide_true (f : Nat → Bool) (x : Nat) (l : List Nat)
    (h : f x = true) : List.filter f (x :: l) = x :: List.filter f l := by
  simp [List.filter, h]

theorem filter_cons_decide_false (f : Nat → Bool) (x : Nat) (l : List Nat)
    (h : f x = false) : List.filter f (x :: l) = List.filter f l := by
  simp [List.filter, h]

theorem secs_RHP (rt pt : String) (h0 : String) (hr : List String)
    (hrt : wfText rt = true) (hpt : wfText pt = true)
    (hall : (h0 :: hr).all plainSafe = true) :
    parseMarkdownSections ⟨"# Review\n".data ++ (rt.data ++ ("\n\n# Highlights\n".data ++ (dashLines (h0 :: hr) ++ ("\n\n# Private Notes\n".data ++ pt.data))))⟩
      = (some rt, h0 :: hr, some pt) := by
  obtain ⟨rtne, -, -, rtnh⟩ := wfText_parts rt hrt
  obtain ⟨ptne, -, -, ptnh⟩ := wfText_parts pt hpt
  have hldne := dashLines_ne_nil h0 hr
  have hmidR : ∀ c ∈ rt.data ++ ['\n', '\n'], ¬(c = '#') := by
    intro c hc
    rcases List.mem_append.mp hc with hc | hc
    · exact rtnh c hc
    rcases List.mem_cons.mp hc with rfl | hc
    · decide
    rcases List.mem_singleton.mp hc with rfl
    decide
  have hmidH : ∀ c ∈ dashLines (h0 :: hr) ++ ['\n', '\n'], ¬(c = '#') := by
    intro c hc
    rcases List.mem_append.mp hc with hc | hc
    · exact dashLines_no_hash _ hall c hc
    rcases List.mem_cons.mp hc with rfl | hc
    · decide
    rcases List.mem_singleton.mp hc with rfl
    decide
  have hposR : strFind (⟨"# Review\n".data ++ (rt.data ++ ("\n\n# Highlights\n".data ++ (dashLines (h0 :: hr) ++ ("\n\n# Private Notes\n".data ++ pt.data))))⟩ : String) "# Review" = some 0 := by
    unfold strFind
    rw [show ((⟨"# Review\n".data ++ (rt.data ++ ("\n\n# Highlights\n".data ++ (dashLines (h0 :: hr) ++ ("\n\n# Private Notes\n".data ++ pt.data))))⟩ : String)).data = "# Review\n".data ++ (rt.data ++ ("\n\n# Highlights\n".data ++ (dashLines (h0 :: hr) ++ ("\n\n# Private Notes\n".data ++ pt.data)))) from rfl]
    rw [show "# Review\n".data ++ (rt.data ++ ("\n\n# Highlights\n".data ++ (dashLines (h0 :: hr) ++ ("\n\n# Private Notes\n".data ++ pt.data)))) = "# Review".data ++ ('\n' :: (rt.data ++ ("\n\n# Highlights\n".data ++ (dashLines (h0 :: hr) ++ ("\n\n# Private Notes\n".data ++ pt.data))))) from rfl]
    exact strFindL_pat_start _ _ (by decide)
  have hposH : strFind (⟨"# Review\n".data ++ (rt.data ++ ("\n\n# Highlights\n".data ++ (dashLines (h0 :: hr) ++ ("\n\n# Private Notes\n".data ++ pt.data))))⟩ : String) "# Highlights" = some (rt.data.length + 11) := by
    unfold strFind
    rw [show ((⟨"# Review\n".data ++ (rt.data ++ ("\n\n# Highlights\n".data ++ (dashLines (h0 :: hr) ++ ("\n\n# Private Notes\n".data ++ pt.data))))⟩ : String)).data = "# Review\n".data ++ (rt.data ++ ("\n\n# Highlights\n".data ++ (dashLines (h0 :: hr) ++ ("\n\n# Private Notes\n".data ++ pt.data)))) from rfl]
    rw [show "# Review\n".data ++ (rt.data ++ ("\n\n# Highlights\n".data ++ (dashLines (h0 :: hr) ++ ("\n\n# Private Notes\n".data ++ pt.data)))) = (('#' :: ' ' :: 'R' :: ['e', 'v', 'i', 'e', 'w', '\n']) ++ (rt.data ++ ['\n', '\n'])) ++ ("# Highlights\n".data ++ (dashLines (h0 :: hr) ++ ("\n\n# Private Notes\n".data ++ pt.data))) by simp]
    rw [strFindL_skip_heading_block "# Highlights".data 'H' "ighlights".data rfl 'R' ['e', 'v', 'i', 'e', 'w', '\n'] _ _ (by decide) (by decide) hmidR (by decide)]
    rw [show "# Highlights\n".data ++ (dashLines (h0 :: hr) ++ ("\n\n# Private Notes\n".data ++ pt.data)) = "# Highlights".data ++ ('\n' :: (dashLines (h0 :: hr) ++ ("\n\n# Private Notes\n".data ++ pt.data))) from rfl]
    rw [strFindL_pat_start _ _ (by decide), Option.map_some']
    congr 1
    simp only [List.length_append, List.length_cons, List.length_nil]
    all_goals omega
  have hposP : strFind (⟨"# Review\n".data ++ (rt.data ++ ("\n\n# Highlights\n".data ++ (dashLines (h0 :: hr) ++ ("\n\n# Private Notes\n".data ++ pt.data))))⟩ : String) "# Private Notes" = some (rt.data.length + ((dashLines (h0 :: hr)).length + 26)) := by
    unfold strFind
    rw [show ((⟨"# Review\n".data ++ (rt.data ++ ("\n\n# Highlights\n".data ++ (dashLines (h0 :: hr) ++ ("\n\n# Private Notes\n".data ++ pt.data))))⟩ : String)).data = "# Review\n".data ++ (rt.data ++ ("\n\n# Highlights\n".data ++ (dashLines (h0 :: hr) ++ ("\n\n# Private Notes\n".data ++ pt.data)))) from rfl]
    rw [show "# Review\n".data ++ (rt.data ++ ("\n\n# Highlights\n".data ++ (dashLines (h0 :: hr) ++ ("\n\n# Private Notes\n".data ++ pt.data)))) = (('#' :: ' ' :: 'R' :: ['e', 'v', 'i', 'e', 'w', '\n']) ++ (rt.data ++ ['\n', '\n'])) ++ ((('#' :: ' ' :: 'H' :: ['i', 'g', 'h', 'l', 'i', 'g', 'h', 't', 's', '\n']) ++ (dashLines (h0 :: hr) ++ ['\n', '\n'])) ++ ("# Private Notes\n".data ++ pt.data)) by simp]
    rw [strFindL_skip_heading_block "# Private Notes".data 'P' "rivate Notes".data rfl 'R' ['e', 'v', 'i', 'e', 'w', '\n'] _ _ (by decide) (by decide) hmidR (by decide)]
    rw [strFindL_skip_heading_block "# Private Notes".data 'P' "rivate Notes".data rfl 'H' ['i', 'g', 'h', 'l', 'i', 'g', 'h', 't', 's', '\n'] _ _ (by decide) (by decide) hmidH (by decide)]
    rw [show "# Private Notes\n".data ++ pt.data = "# Private Notes".data ++ ('\n' :: pt.data) from rfl]
    rw [strFindL_pat_start _ _ (by decide), Option.map_some', Option.map_some']
    congr 1
    simp only [List.length_append, List.length_cons, List.length_nil]
    all_goals omega
  have hR : pyStrip (pySlice (⟨"# Review\n".data ++ (rt.data ++ ("\n\n# Highlights\n".data ++ (dashLines (h0 :: hr) ++ ("\n\n# Private Notes\n".data ++ pt.data))))⟩ : String) 8 (rt.data.length + 11)) = rt := by
    rw [show "# Review\n".data ++ (rt.data ++ ("\n\n# Highlights\n".data ++ (dashLines (h0 :: hr) ++ ("\n\n# Private Notes\n".data ++ pt.data)))) = "# Review".data ++ (('\n' :: (rt.data ++ ['\n', '\n'])) ++ ("# Highlights\n".data ++ (dashLines (h0 :: hr) ++ ("\n\n# Private Notes\n".data ++ pt.data)))) by simp]
    rw [pySlice_block' _ _ _ 8 (rt.data.length + 11) (by decide) (by
      rw [show ("# Review".data).length = 8 from rfl]
      simp only [List.length_append, List.length_cons, List.length_nil]
      all_goals omega)]
    exact pyStrip_sandwich ['\n'] rt.data ['\n', '\n'] (by decide) (by decide) rtne
      (wfText_head rt hrt) (wfText_last rt hrt)
  have hH : pyStrip (pySlice (⟨"# Review\n".data ++ (rt.data ++ ("\n\n# Highlights\n".data ++ (dashLines (h0 :: hr) ++ ("\n\n# Private Notes\n".data ++ pt.data))))⟩ : String) (rt.data.length + 11 + "# Highlights".length) (rt.data.length + ((dashLines (h0 :: hr)).length + 26))) = ⟨dashLines (h0 :: hr)⟩ := by
    rw [show "# Review\n".data ++ (rt.data ++ ("\n\n# Highlights\n".data ++ (dashLines (h0 :: hr) ++ ("\n\n# Private Notes\n".data ++ pt.data)))) = ("# Review\n".data ++ (rt.data ++ "\n\n# Highlights".data)) ++ (('\n' :: (dashLines (h0 :: hr) ++ ['\n', '\n'])) ++ ("# Private Notes\n".data ++ pt.data)) by simp]
    rw [pySlice_block' _ _ _ (rt.data.length + 11 + "# Highlights".length) (rt.data.length + ((dashLines (h0 :: hr)).length + 26)) (by
      rw [show ("# Highlights".length : Nat) = 12 from rfl]
      simp only [List.length_append, List.length_cons, List.length_nil]
      all_goals omega) (by
      simp only [List.length_append, List.length_cons, List.length_nil]
      all_goals omega)]
    exact pyStrip_sandwich ['\n'] (dashLines (h0 :: hr)) ['\n', '\n'] (by decide) (by decide)
      hldne
      (fun c hc => by rw [dashLines_head] at hc; cases hc; decide)
      (dashLines_last _ hall)
  have hP : pyStrip (pySliceFrom (⟨"# Review\n".data ++ (rt.data ++ ("\n\n# Highlights\n".data ++ (dashLines (h0 :: hr) ++ ("\n\n# Private Notes\n".data ++ pt.data))))⟩ : String) (rt.data.length + ((dashLines (h0 :: hr)).length + 26) + "# Private Notes".length)) = pt := by
    rw [show "# Review\n".data ++ (rt.data ++ ("\n\n# Highlights\n".data ++ (dashLines (h0 :: hr) ++ ("\n\n# Private Notes\n".data ++ pt.data)))) = ("# Review\n".data ++ (rt.data ++ ("\n\n# Highlights\n".data ++ (dashLines (h0 :: hr) ++ "\n\n# Private Notes".data)))) ++ ('\n' :: pt.data) by simp]
    rw [pySliceFrom_block' _ _ (rt.data.length + ((dashLines (h0 :: hr)).length + 26) + "# Private Notes".length) (by
      rw [show ("# Private Notes".length : Nat) = 15 from rfl]
      simp only [List.length_append, List.length_cons, List.length_nil]
      all_goals omega)]
    exact pyStrip_newline pt ptne (wfText_head pt hpt) (wfText_last pt hpt)
  unfold parseMarkdownSections
  rw [hposR, hposH, hposP]
  dsimp only [List.reduceOption, List.filterMap, id]
  rw [filter_cons_decide_false _ _ _ (by decide),
    filter_cons_decide_true _ _ _ (decide_eq_true (by omega)),
    filter_cons_decide_true _ _ _ (decide_eq_true (by omega)),
    List.filter_nil]
  rw [filter_cons_decide_false _ _ _ (decide_eq_false (by omega)),
    filter_cons_decide_false _ _ _ (decide_eq_false (by omega)),
    filter_cons_decide_true _ _ _ (decide_eq_true (by omega)),
    List.filter_nil]
  rw [show ([rt.data.length + 11, rt.data.length + ((dashLines (h0 :: hr)).length + 26)] : List Nat).min? = some (min (rt.data.length + 11) (rt.data.length + ((dashLines (h0 :: hr)).length + 26))) from rfl]
  rw [show ([rt.data.length + ((dashLines (h0 :: hr)).length + 26)] : List Nat).min? = some (rt.data.length + ((dashLines (h0 :: hr)).length + 26)) from rfl]
  have hmin : min (rt.data.length + 11) (rt.data.length + ((dashLines (h0 :: hr)).length + 26)) = rt.data.length + 11 := by omega
  rw [hmin]
  simp only [Option.getD_some]
  rw [show ((0 : Nat) + "# Review".length) = 8 from rfl]
  rw [hR, hH, hP]
  rw [parseBulletList_dashLines _ hall]
  rw [if_neg (fun he => rtne (congrArg String.data he))]
  rw [if_neg (fun he => ptne (congrArg String.data he))]
theorem secs_RH (rt : String) (h0 : String) (hr : List String)
    (hrt : wfText rt = true)
    (hall : (h0 :: hr).all plainSafe = true) :
    parseMarkdownSections ⟨"# Review\n".data ++ (rt.data ++ ("\n\n# Highlights\n".data ++ dashLines (h0 :: hr)))⟩
      = (some rt, h0 :: hr, none) := by
  obtain ⟨rtne, -, -, rtnh⟩ := wfText_parts rt hrt
  have hldne := dashLines_ne_nil h0 hr
  have hmidR : ∀ c ∈ rt.data ++ ['\n', '\n'], ¬(c = '#') := by
    intro c hc
    rcases List.mem_append.mp hc with hc | hc
    · exact rtnh c hc
    rcases List.mem_cons.mp hc with rfl | hc
    · decide
    rcases List.mem_singleton.mp hc with rfl
    decide
  have hmidH : ∀ c ∈ dashLines (h0 :: hr), ¬(c = '#') := dashLines_no_hash _ hall
  have hposR : strFind (⟨"# Review\n".data ++ (rt.data ++ ("\n\n# Highlights\n".data ++ dashLines (h0 :: hr)))⟩ : String) "# Review" = some 0 := by
    unfold strFind
    rw [show ((⟨"# Review\n".data ++ (rt.data ++ ("\n\n# Highlights\n".data ++ dashLines (h0 :: hr)))⟩ : String)).data = "# Review\n".data ++ (rt.data ++ ("\n\n# Highlights\n".data ++ dashLines (h0 :: hr))) from rfl]
    rw [show "# Review\n".data ++ (rt.data ++ ("\n\n# Highlights\n".data ++ dashLines (h0 :: hr))) = "# Review".data ++ ('\n' :: (rt.data ++ ("\n\n# Highlights\n".data ++ dashLines (h0 :: hr)))) from rfl]
    exact strFindL_pat_start _ _ (by decide)
  have hposH : strFind (⟨"# Review\n".data ++ (rt.data ++ ("\n\n# Highlights\n".data ++ dashLines (h0 :: hr)))⟩ : String) "# Highlights" = some (rt.data.length + 11) := by
    unfold strFind
    rw [show ((⟨"# Review\n".data ++ (rt.data ++ ("\n\n# Highlights\n".data ++ dashLines (h0 :: hr)))⟩ : String)).data = "# Review\n".data ++ (rt.data ++ ("\n\n# Highlights\n".data ++ dashLines (h0 :: hr))) from rfl]
    rw [show "# Review\n".data ++ (rt.data ++ ("\n\n# Highlights\n".data ++ dashLines (h0 :: hr))) = (('#' :: ' ' :: 'R' :: ['e', 'v', 'i', 'e', 'w', '\n']) ++ (rt.data ++ ['\n', '\n'])) ++ ("# Highlights\n".data ++ dashLines (h0 :: hr)) by simp]
    rw [strFindL_skip_heading_block "# Highlights".data 'H' "ighlights".data rfl 'R' ['e', 'v', 'i', 'e', 'w', '\n'] _ _ (by decide) (by decide) hmidR (by decide)]
    rw [show "# Highlights\n".data ++ dashLines (h0 :: hr) = "# Highlights".data ++ ('\n' :: dashLines (h0 :: hr)) from rfl]
    rw [strFindL_pat_start _ _ (by decide), Option.map_some']
    congr 1
    simp only [List.length_append, List.length_cons, List.length_nil]
    all_goals omega
  have hposP : strFind (⟨"# Review\n".data ++ (rt.data ++ ("\n\n# Highlights\n".data ++ dashLines (h0 :: hr)))⟩ : String) "# Private Notes" = none := by
    unfold strFind
    rw [show ((⟨"# Review\n".data ++ (rt.data ++ ("\n\n# Highlights\n".data ++ dashLines (h0 :: hr)))⟩ : String)).data = "# Review\n".data ++ (rt.data ++ ("\n\n# Highlights\n".data ++ dashLines (h0 :: hr))) from rfl]
    rw [show "# Review\n".data ++ (rt.data ++ ("\n\n# Highlights\n".data ++ dashLines (h0 :: hr))) = (('#' :: ' ' :: 'R' :: ['e', 'v', 'i', 'e', 'w', '\n']) ++ (rt.data ++ ['\n', '\n'])) ++ ((('#' :: ' ' :: 'H' :: ['i', 'g', 'h', 'l', 'i', 'g', 'h', 't', 's', '\n']) ++ dashLines (h0 :: hr)) ++ []) by simp]
    rw [strFindL_skip_heading_block "# Private Notes".data 'P' "rivate Notes".data rfl 'R' ['e', 'v', 'i', 'e', 'w', '\n'] _ _ (by decide) (by decide) hmidR (by decide)]
    rw [strFindL_skip_heading_block "# Private Notes".data 'P' "rivate Notes".data rfl 'H' ['i', 'g', 'h', 'l', 'i', 'g', 'h', 't', 's', '\n'] _ _ (by decide) (by decide) hmidH (by decide)]
    rfl
  have hR : pyStrip (pySlice (⟨"# Review\n".data ++ (rt.data ++ ("\n\n# Highlights\n".data ++ dashLines (h0 :: hr)))⟩ : String) 8 (rt.data.length + 11)) = rt := by
    rw [show "# Review\n".data ++ (rt.data ++ ("\n\n# Highlights\n".data ++ dashLines (h0 :: hr))) = "# Review".data ++ (('\n' :: (rt.data ++ ['\n', '\n'])) ++ ("# Highlights\n".data ++ dashLines (h0 :: hr))) by simp]
    rw [pySlice_block' _ _ _ 8 (rt.data.length + 11) (by decide) (by
      rw [show ("# Review".data).length = 8 from rfl]
      simp only [List.length_append, List.length_cons, List.length_nil]
      all_goals omega)]
    exact pyStrip_sandwich ['\n'] rt.data ['\n', '\n'] (by decide) (by decide) rtne
      (wfText_head rt hrt) (wfText_last rt hrt)
  have hH : pyStrip (pySlice (⟨"# Review\n".data ++ (rt.data ++ ("\n\n# Highlights\n".data ++ dashLines (h0 :: hr)))⟩ : String) (rt.data.length + 11 + "# Highlights".length) ((⟨"# Review\n".data ++ (rt.data ++ ("\n\n# Highlights\n".data ++ dashLines (h0 :: hr)))⟩ : String).length)) = ⟨dashLines (h0 :: hr)⟩ := by
    rw [show "# Review\n".data ++ (rt.data ++ ("\n\n# Highlights\n".data ++ dashLines (h0 :: hr))) = ("# Review\n".data ++ (rt.data ++ "\n\n# Highlights".data)) ++ ('\n' :: dashLines (h0 :: hr)) by simp]
    rw [pySlice_tail ("# Review\n".data ++ (rt.data ++ "\n\n# Highlights".data)) ('\n' :: dashLines (h0 :: hr)) (rt.data.length + 11 + "# Highlights".length) ((⟨("# Review\n".data ++ (rt.data ++ "\n\n# Highlights".data)) ++ ('\n' :: dashLines (h0 :: hr))⟩ : String).length) (by
      rw [show ("# Highlights".length : Nat) = 12 from rfl]
      simp only [List.length_append, List.length_cons, List.length_nil]
      all_goals omega) (le_of_eq rfl)]
    exact pyStrip_newline ⟨dashLines (h0 :: hr)⟩ hldne
      (fun c hc => by rw [dashLines_head] at hc; cases hc; decide)
      (dashLines_last _ hall)
  unfold parseMarkdownSections
  rw [hposR, hposH, hposP]
  dsimp only [List.reduceOption, List.filterMap, id]
  rw [filter_cons_decide_false _ _ _ (by decide),
    filter_cons_decide_true _ _ _ (decide_eq_true (by omega)),
    List.filter_nil]
  rw [filter_cons_decide_false _ _ _ (decide_eq_false (by omega)),
    filter_cons_decide_false _ _ _ (decide_eq_false (by omega)),
    List.filter_nil]
  rw [show ([rt.data.length + 11] : List Nat).min? = some (rt.data.length + 11) from rfl]
  simp only [Option.getD_some, Option.getD_none, List.min?]
  rw [show ((0 : Nat) + "# Review".length) = 8 from rfl]
  rw [hR, hH]
  rw [parseBulletList_dashLines _ hall]
  rw [if_neg (fun he => rtne (congrArg String.data he))]

theorem secs_RP (rt pt : String)
    (hrt : wfText rt = true) (hpt : wfText pt = true) :
    parseMarkdownSections ⟨"# Review\n".data ++ (rt.data ++ ("\n\n# Private Notes\n".data ++ pt.data))⟩
      = (some rt, [], some pt) := by
  obtain ⟨rtne, -, -, rtnh⟩ := wfText_parts rt hrt
  obtain ⟨ptne, -, -, ptnh⟩ := wfText_parts pt hpt
  have hmidR : ∀ c ∈ rt.data ++ ['\n', '\n'], ¬(c = '#') := by
    intro c hc
    rcases List.mem_append.mp hc with hc | hc
    · exact rtnh c hc
    rcases List.mem_cons.mp hc with rfl | hc
    · decide
    rcases List.mem_singleton.mp hc with rfl
    decide
  have hposR : strFind (⟨"# Review\n".data ++ (rt.data ++ ("\n\n# Private Notes\n".data ++ pt.data))⟩ : String) "# Review" = some 0 := by
    unfold strFind
    rw [show ((⟨"# Review\n".data ++ (rt.data ++ ("\n\n# Private Notes\n".data ++ pt.data))⟩ : String)).data = "# Review\n".data ++ (rt.data ++ ("\n\n# Private Notes\n".data ++ pt.data)) from rfl]
    rw [show "# Review\n".data ++ (rt.data ++ ("\n\n# Private Notes\n".data ++ pt.data)) = "# Review".data ++ ('\n' :: (rt.data ++ ("\n\n# Private Notes\n".data ++ pt.data))) from rfl]
    exact strFindL_pat_start _ _ (by decide)
  have hposH : strFind (⟨"# Review\n".data ++ (rt.data ++ ("\n\n# Private Notes\n".data ++ pt.data))⟩ : String) "# Highlights" = none := by
    unfold strFind
    rw [show ((⟨"# Review\n".data ++ (rt.data ++ ("\n\n# Private Notes\n".data ++ pt.data))⟩ : String)).data = "# Review\n".data ++ (rt.data ++ ("\n\n# Private Notes\n".data ++ pt.data)) from rfl]
    rw [show "# Review\n".data ++ (rt.data ++ ("\n\n# Private Notes\n".data ++ pt.data)) = (('#' :: ' ' :: 'R' :: ['e', 'v', 'i', 'e', 'w', '\n']) ++ (rt.data ++ ['\n', '\n'])) ++ ((('#' :: ' ' :: 'P' :: ['r', 'i', 'v', 'a', 't', 'e', ' ', 'N', 'o', 't', 'e', 's', '\n']) ++ pt.data) ++ []) by simp]
    rw [strFindL_skip_heading_block "# Highlights".data 'H' "ighlights".data rfl 'R' ['e', 'v', 'i', 'e', 'w', '\n'] _ _ (by decide) (by decide) hmidR (by decide)]
    rw [strFindL_skip_heading_block "# Highlights".data 'H' "ighlights".data rfl 'P' ['r', 'i', 'v', 'a', 't', 'e', ' ', 'N', 'o', 't', 'e', 's', '\n'] _ _ (by decide) (by decide) ptnh (by decide)]
    rfl
  have hposP : strFind (⟨"# Review\n".data ++ (rt.data ++ ("\n\n# Private Notes\n".data ++ pt.data))⟩ : String) "# Private Notes" = some (rt.data.length + 11) := by
    unfold strFind
    rw [show ((⟨"# Review\n".data ++ (rt.data ++ ("\n\n# Private Notes\n".data ++ pt.data))⟩ : String)).data = "# Review\n".data ++ (rt.data ++ ("\n\n# Private Notes\n".data ++ pt.data)) from rfl]
    rw [show "# Review\n".data ++ (rt.data ++ ("\n\n# Private Notes\n".data ++ pt.data)) = (('#' :: ' ' :: 'R' :: ['e', 'v', 'i', 'e', 'w', '\n']) ++ (rt.data ++ ['\n', '\n'])) ++ ("# Private Notes\n".data ++ pt.data) by simp]
    rw [strFindL_skip_heading_block "# Private Notes".data 'P' "rivate Notes".data rfl 'R' ['e', 'v', 'i', 'e', 'w', '\n'] _ _ (by decide) (by decide) hmidR (by decide)]
    rw [show "# Private Notes\n".data ++ pt.data = "# Private Notes".data ++ ('\n' :: pt.data) from rfl]
    rw [strFindL_pat_start _ _ (by decide), Option.map_some']
    congr 1
    simp only [List.length_append, List.length_cons, List.length_nil]
    all_goals omega
  have hR : pyStrip (pySlice (⟨"# Review\n".data ++ (rt.data ++ ("\n\n# Private Notes\n".data ++ pt.data))⟩ : String) 8 (rt.data.length + 11)) = rt := by
    rw [show "# Review\n".data ++ (rt.data ++ ("\n\n# Private Notes\n".data ++ pt.data)) = "# Review".data ++ (('\n' :: (rt.data ++ ['\n', '\n'])) ++ ("# Private Notes\n".data ++ pt.data)) by simp]
    rw [pySlice_block' _ _ _ 8 (rt.data.length + 11) (by decide) (by
      rw [show ("# Review".data).length = 8 from rfl]
      simp only [List.length_append, List.length_cons, List.length_nil]
      all_goals omega)]
    exact pyStrip_sandwich ['\n'] rt.data ['\n', '\n'] (by decide) (by decide) rtne
      (wfText_head rt hrt) (wfText_last rt hrt)
  have hP : pyStrip (pySliceFrom (⟨"# Review\n".data ++ (rt.data ++ ("\n\n# Private Notes\n".data ++ pt.data))⟩ : String) (rt.data.length + 11 + "# Private Notes".length)) = pt := by
    rw [show "# Review\n".data ++ (rt.data ++ ("\n\n# Private Notes\n".data ++ pt.data)) = ("# Review\n".data ++ (rt.data ++ "\n\n# Private Notes".data)) ++ ('\n' :: pt.data) by simp]
    rw [pySliceFrom_block' _ _ (rt.data.length + 11 + "# Private Notes".length) (by
      rw [show ("# Private Notes".length : Nat) = 15 from rfl]
      simp only [List.length_append, List.length_cons, List.length_nil]
      all_goals omega)]
    exact pyStrip_newline pt ptne (wfText_head pt hpt) (wfText_last pt hpt)
  unfold parseMarkdownSections
  rw [hposR, hposH, hposP]
  dsimp only [List.reduceOption, List.filterMap, id]
  rw [filter_cons_decide_false _ _ _ (by decide),
    filter_cons_decide_true _ _ _ (decide_eq_true (by omega)),
    List.filter_nil]
  rw [show ([rt.data.length + 11] : List Nat).min? = some (rt.data.length + 11) from rfl]
  simp only [Option.getD_some]
  rw [show ((0 : Nat) + "# Review".length) = 8 from rfl]
  rw [hR, hP]
  rw [if_neg (fun he => rtne (congrArg String.data he))]
  rw [if_neg (fun he => ptne (congrArg String.data he))]

theorem secs_R (rt : String) (hrt : wfText rt = true) :
    parseMarkdownSections ⟨"# Review\n".data ++ rt.data⟩ = (some rt, [], none) := by
  obtain ⟨rtne, -, -, rtnh⟩ := wfText_parts rt hrt
  have hposR : strFind (⟨"# Review\n".data ++ rt.data⟩ : String) "# Review" = some 0 := by
    unfold strFind
    rw [show ((⟨"# Review\n".data ++ rt.data⟩ : String)).data = "# Review\n".data ++ rt.data from rfl]
    rw [show "# Review\n".data ++ rt.data = "# Review".data ++ ('\n' :: rt.data) from rfl]
    exact strFindL_pat_start _ _ (by decide)
  have hposH : strFind (⟨"# Review\n".data ++ rt.data⟩ : String) "# Highlights" = none := by
    unfold strFind
    rw [show ((⟨"# Review\n".data ++ rt.data⟩ : String)).data = "# Review\n".data ++ rt.data from rfl]
    rw [show "# Review\n".data ++ rt.data = (('#' :: ' ' :: 'R' :: ['e', 'v', 'i', 'e', 'w', '\n']) ++ rt.data) ++ [] by simp]
    rw [strFindL_skip_heading_block "# Highlights".data 'H' "ighlights".data rfl 'R' ['e', 'v', 'i', 'e', 'w', '\n'] _ _ (by decide) (by decide) rtnh (by decide)]
    rfl
  have hposP : strFind (⟨"# Review\n".data ++ rt.data⟩ : String) "# Private Notes" = none := by
    unfold strFind
    rw [show ((⟨"# Review\n".data ++ rt.data⟩ : String)).data = "# Review\n".data ++ rt.data from rfl]
    rw [show "# Review\n".data ++ rt.data = (('#' :: ' ' :: 'R' :: ['e', 'v', 'i', 'e', 'w', '\n']) ++ rt.data) ++ [] by simp]
    rw [strFindL_skip_heading_block "# Private Notes".data 'P' "rivate Notes".data rfl 'R' ['e', 'v', 'i', 'e', 'w', '\n'] _ _ (by decide) (by decide) rtnh (by decide)]
    rfl
  have hR : pyStrip (pySlice (⟨"# Review\n".data ++ rt.data⟩ : String) 8 ((⟨"# Review\n".data ++ rt.data⟩ : String).length)) = rt := by
    rw [show "# Review\n".data ++ rt.data = "# Review".data ++ ('\n' :: rt.data) by simp]
    rw [pySlice_tail ("# Review".data) ('\n' :: rt.data) 8 ((⟨"# Review".data ++ ('\n' :: rt.data)⟩ : String).length) (by decide) (le_of_eq rfl)]
    exact pyStrip_newline rt rtne (wfText_head rt hrt) (wfText_last rt hrt)
  unfold parseMarkdownSections
  rw [hposR, hposH, hposP]
  dsimp only [List.reduceOption, List.filterMap, id]
  rw [filter_cons_decide_false _ _ _ (by decide), List.filter_nil]
  simp only [Option.getD_none, List.min?]
  rw [show ((0 : Nat) + "# Review".length) = 8 from rfl]
  rw [hR]
  rw [if_neg (fun he => rtne (congrArg String.data he))]

theorem secs_HP (pt : String) (h0 : String) (hr : List String)
    (hpt : wfText pt = true)
    (hall : (h0 :: hr).all plainSafe = true) :
    parseMarkdownSections ⟨"# Highlights\n".data ++ (dashLines (h0 :: hr) ++ ("\n\n# Private Notes\n".data ++ pt.data))⟩
      = (none, h0 :: hr, some pt) := by
  obtain ⟨ptne, -, -, ptnh⟩ := wfText_parts pt hpt
  have hldne := dashLines_ne_nil h0 hr
  have hmidH : ∀ c ∈ dashLines (h0 :: hr) ++ ['\n', '\n'], ¬(c = '#') := by
    intro c hc
    rcases List.mem_append.mp hc with hc | hc
    · exact dashLines_no_hash _ hall c hc
    rcases List.mem_cons.mp hc with rfl | hc
    · decide
    rcases List.mem_singleton.mp hc with rfl
    decide
  have hposR : strFind (⟨"# Highlights\n".data ++ (dashLines (h0 :: hr) ++ ("\n\n# Private Notes\n".data ++ pt.data))⟩ : String) "# Review" = none := by
    unfold strFind
    rw [show ((⟨"# Highlights\n".data ++ (dashLines (h0 :: hr) ++ ("\n\n# Private Notes\n".data ++ pt.data))⟩ : String)).data = "# Highlights\n".data ++ (dashLines (h0 :: hr) ++ ("\n\n# Private Notes\n".data ++ pt.data)) from rfl]
    rw [show "# Highlights\n".data ++ (dashLines (h0 :: hr) ++ ("\n\n# Private Notes\n".data ++ pt.data)) = (('#' :: ' ' :: 'H' :: ['i', 'g', 'h', 'l', 'i', 'g', 'h', 't', 's', '\n']) ++ (dashLines (h0 :: hr) ++ ['\n', '\n'])) ++ ((('#' :: ' ' :: 'P' :: ['r', 'i', 'v', 'a', 't', 'e', ' ', 'N', 'o', 't', 'e', 's', '\n']) ++ pt.data) ++ []) by simp]
    rw [strFindL_skip_heading_block "# Review".data 'R' "eview".data rfl 'H' ['i', 'g', 'h', 'l', 'i', 'g', 'h', 't', 's', '\n'] _ _ (by decide) (by decide) hmidH (by decide)]
    rw [strFindL_skip_heading_block "# Review".data 'R' "eview".data rfl 'P' ['r', 'i', 'v', 'a', 't', 'e', ' ', 'N', 'o', 't', 'e', 's', '\n'] _ _ (by decide) (by decide) ptnh (by decide)]
    rfl
  have hposH : strFind (⟨"# Highlights\n".data ++ (dashLines (h0 :: hr) ++ ("\n\n# Private Notes\n".data ++ pt.data))⟩ : String) "# Highlights" = some 0 := by
    unfold strFind
    rw [show ((⟨"# Highlights\n".data ++ (dashLines (h0 :: hr) ++ ("\n\n# Private Notes\n".data ++ pt.data))⟩ : String)).data = "# Highlights\n".data ++ (dashLines (h0 :: hr) ++ ("\n\n# Private Notes\n".data ++ pt.data)) from rfl]
    rw [show "# Highlights\n".data ++ (dashLines (h0 :: hr) ++ ("\n\n# Private Notes\n".data ++ pt.data)) = "# Highlights".data ++ ('\n' :: (dashLines (h0 :: hr) ++ ("\n\n# Private Notes\n".data ++ pt.data))) from rfl]
    exact strFindL_pat_start _ _ (by decide)
  have hposP : strFind (⟨"# Highlights\n".data ++ (dashLines (h0 :: hr) ++ ("\n\n# Private Notes\n".data ++ pt.data))⟩ : String) "# Private Notes" = some ((dashLines (h0 :: hr)).length + 15) := by
    unfold strFind
    rw [show ((⟨"# Highlights\n".data ++ (dashLines (h0 :: hr) ++ ("\n\n# Private Notes\n".data ++ pt.data))⟩ : String)).data = "# Highlights\n".data ++ (dashLines (h0 :: hr) ++ ("\n\n# Private Notes\n".data ++ pt.data)) from rfl]
    rw [show "# Highlights\n".data ++ (dashLines (h0 :: hr) ++ ("\n\n# Private Notes\n".data ++ pt.data)) = (('#' :: ' ' :: 'H' :: ['i', 'g', 'h', 'l', 'i', 'g', 'h', 't', 's', '\n']) ++ (dashLines (h0 :: hr) ++ ['\n', '\n'])) ++ ("# Private Notes\n".data ++ pt.data) by simp]
    rw [strFindL_skip_heading_block "# Private Notes".data 'P' "rivate Notes".data rfl 'H' ['i', 'g', 'h', 'l', 'i', 'g', 'h', 't', 's', '\n'] _ _ (by decide) (by decide) hmidH (by decide)]
    rw [show "# Private Notes\n".data ++ pt.data = "# Private Notes".data ++ ('\n' :: pt.data) from rfl]
    rw [strFindL_pat_start _ _ (by decide), Option.map_some']
    congr 1
    simp only [List.length_append, List.length_cons, List.length_nil]
    all_goals omega
  have hH : pyStrip (pySlice (⟨"# Highlights\n".data ++ (dashLines (h0 :: hr) ++ ("\n\n# Private Notes\n".data ++ pt.data))⟩ : String) ((0 : Nat) + "# Highlights".length) ((dashLines (h0 :: hr)).length + 15)) = ⟨dashLines (h0 :: hr)⟩ := by
    rw [show "# Highlights\n".data ++ (dashLines (h0 :: hr) ++ ("\n\n# Private Notes\n".data ++ pt.data)) = "# Highlights".data ++ (('\n' :: (dashLines (h0 :: hr) ++ ['\n', '\n'])) ++ ("# Private Notes\n".data ++ pt.data)) by simp]
    rw [pySlice_block' _ _ _ ((0 : Nat) + "# Highlights".length) ((dashLines (h0 :: hr)).length + 15) (by decide) (by
      rw [show ("# Highlights".data).length = 12 from rfl]
      simp only [List.length_append, List.length_cons, List.length_nil]
      all_goals omega)]
    exact pyStrip_sandwich ['\n'] (dashLines (h0 :: hr)) ['\n', '\n'] (by decide) (by decide)
      hldne
      (fun c hc => by rw [dashLines_head] at hc; cases hc; decide)
      (dashLines_last _ hall)
  have hP : pyStrip (pySliceFrom (⟨"# Highlights\n".data ++ (dashLines (h0 :: hr) ++ ("\n\n# Private Notes\n".data ++ pt.data))⟩ : String) ((dashLines (h0 :: hr)).length + 15 + "# Private Notes".length)) = pt := by
    rw [show "# Highlights\n".data ++ (dashLines (h0 :: hr) ++ ("\n\n# Private Notes\n".data ++ pt.data)) = ("# Highlights\n".data ++ (dashLines (h0 :: hr) ++ "\n\n# Private Notes".data)) ++ ('\n' :: pt.data) by simp]
    rw [pySliceFrom_block' _ _ ((dashLines (h0 :: hr)).length + 15 + "# Private Notes".length) (by
      rw [show ("# Private Notes".length : Nat) = 15 from rfl]
      simp only [List.length_append, List.length_cons, List.length_nil]
      all_goals omega)]
    exact pyStrip_newline pt ptne (wfText_head pt hpt) (wfText_last pt hpt)
  unfold parseMarkdownSections
  rw [hposR, hposH, hposP]
  dsimp only [List.reduceOption, List.filterMap, id]
  rw [filter_cons_decide_false _ _ _ (by decide),
    filter_cons_decide_true _ _ _ (decide_eq_true (by omega)),
    List.filter_nil]
  rw [show ([(dashLines (h0 :: hr)).length + 15] : List Nat).min? = some ((dashLines (h0 :: hr)).length + 15) from rfl]
  simp only [Option.getD_some]
  rw [hH, hP]
  rw [parseBulletList_dashLines _ hall]
  rw [if_neg (fun he => ptne (congrArg String.data he))]

theorem secs_H (h0 : String) (hr : List String)
    (hall : (h0 :: hr).all plainSafe = true) :
    parseMarkdownSections ⟨"# Highlights\n".data ++ dashLines (h0 :: hr)⟩ = (none, h0 :: hr, none) := by
  have hldne := dashLines_ne_nil h0 hr
  have hmidH : ∀ c ∈ dashLines (h0 :: hr), ¬(c = '#') := dashLines_no_hash _ hall
  have hposR : strFind (⟨"# Highlights\n".data ++ dashLines (h0 :: hr)⟩ : String) "# Review" = none := by
    unfold strFind
    rw [show ((⟨"# Highlights\n".data ++ dashLines (h0 :: hr)⟩ : String)).data = "# Highlights\n".data ++ dashLines (h0 :: hr) from rfl]
    rw [show "# Highlights\n".data ++ dashLines (h0 :: hr) = (('#' :: ' ' :: 'H' :: ['i', 'g', 'h', 'l', 'i', 'g', 'h', 't', 's', '\n']) ++ dashLines (h0 :: hr)) ++ [] by simp]
    rw [strFindL_skip_heading_block "# Review".data 'R' "eview".data rfl 'H' ['i', 'g', 'h', 'l', 'i', 'g', 'h', 't', 's', '\n'] _ _ (by decide) (by decide) hmidH (by decide)]
    rfl
  have hposH : strFind (⟨"# Highlights\n".data ++ dashLines (h0 :: hr)⟩ : String) "# Highlights" = some 0 := by
    unfold strFind
    rw [show ((⟨"# Highlights\n".data ++ dashLines (h0 :: hr)⟩ : String)).data = "# Highlights\n".data ++ dashLines (h0 :: hr) from rfl]
    rw [show "# Highlights\n".data ++ dashLines (h0 :: hr) = "# Highlights".data ++ ('\n' :: dashLines (h0 :: hr)) from rfl]
    exact strFindL_pat_start _ _ (by decide)
  have hposP : strFind (⟨"# Highlights\n".data ++ dashLines (h0 :: hr)⟩ : String) "# Private Notes" = none := by
    unfold strFind
    rw [show ((⟨"# Highlights\n".data ++ dashLines (h0 :: hr)⟩ : String)).data = "# Highlights\n".data ++ dashLines (h0 :: hr) from rfl]
    rw [show "# Highlights\n".data ++ dashLines (h0 :: hr) = (('#' :: ' ' :: 'H' :: ['i', 'g', 'h', 'l', 'i', 'g', 'h', 't', 's', '\n']) ++ dashLines (h0 :: hr)) ++ [] by simp]
    rw [strFindL_skip_heading_block "# Private Notes".data 'P' "rivate Notes".data rfl 'H' ['i', 'g', 'h', 'l', 'i', 'g', 'h', 't', 's', '\n'] _ _ (by decide) (by decide) hmidH (by decide)]
    rfl
  have hH : pyStrip (pySlice (⟨"# Highlights\n".data ++ dashLines (h0 :: hr)⟩ : String) ((0 : Nat) + "# Highlights".length) ((⟨"# Highlights\n".data ++ dashLines (h0 :: hr)⟩ : String).length)) = ⟨dashLines (h0 :: hr)⟩ := by
    rw [show "# Highlights\n".data ++ dashLines (h0 :: hr) = "# Highlights".data ++ ('\n' :: dashLines (h0 :: hr)) by simp]
    rw [pySlice_tail ("# Highlights".data) ('\n' :: dashLines (h0 :: hr)) ((0 : Nat) + "# Highlights".length) ((⟨"# Highlights".data ++ ('\n' :: dashLines (h0 :: hr))⟩ : String).length) (by decide) (le_of_eq rfl)]
    exact pyStrip_newline ⟨dashLines (h0 :: hr)⟩ hldne
      (fun c hc => by rw [dashLines_head] at hc; cases hc; decide)
      (dashLines_last _ hall)
  unfold parseMarkdownSections
  rw [hposR, hposH, hposP]
  dsimp only [List.reduceOption, List.filterMap, id]
  rw [filter_cons_decide_false _ _ _ (by decide), List.filter_nil]
  simp only [Option.getD_none, List.min?]
  rw [hH]
  rw [parseBulletList_dashLines _ hall]

theorem secs_P (pt : String) (hpt : wfText pt = true) :
    parseMarkdownSections ⟨"# Private Notes\n".data ++ pt.data⟩ = (none, [], some pt) := by
  obtain ⟨ptne, -, -, ptnh⟩ := wfText_parts pt hpt
  have hposR : strFind (⟨"# Private Notes\n".data ++ pt.data⟩ : String) "# Review" = none := by
    unfold strFind
    rw [show ((⟨"# Private Notes\n".data ++ pt.data⟩ : String)).data = "# Private Notes\n".data ++ pt.data from rfl]
    rw [show "# Private Notes\n".data ++ pt.data = (('#' :: ' ' :: 'P' :: ['r', 'i', 'v', 'a', 't', 'e', ' ', 'N', 'o', 't', 'e', 's', '\n']) ++ pt.data) ++ [] by simp]
    rw [strFindL_skip_heading_block "# Review".data 'R' "eview".data rfl 'P' ['r', 'i', 'v', 'a', 't', 'e', ' ', 'N', 'o', 't', 'e', 's', '\n'] _ _ (by decide) (by decide) ptnh (by decide)]
    rfl
  have hposH : strFind (⟨"# Private Notes\n".data ++ pt.data⟩ : String) "# Highlights" = none := by
    unfold strFind
    rw [show ((⟨"# Private Notes\n".data ++ pt.data⟩ : String)).data = "# Private Notes\n".data ++ pt.data from rfl]
    rw [show "# Private Notes\n".data ++ pt.data = (('#' :: ' ' :: 'P' :: ['r', 'i', 'v', 'a', 't', 'e', ' ', 'N', 'o', 't', 'e', 's', '\n']) ++ pt.data) ++ [] by simp]
    rw [strFindL_skip_heading_block "# Highlights".data 'H' "ighlights".data rfl 'P' ['r', 'i', 'v', 'a', 't', 'e', ' ', 'N', 'o', 't', 'e', 's', '\n'] _ _ (by decide) (by decide) ptnh (by decide)]
    rfl
  have hposP : strFind (⟨"# Private Notes\n".data ++ pt.data⟩ : String) "# Private Notes" = some 0 := by
    unfold strFind
    rw [show ((⟨"# Private Notes\n".data ++ pt.data⟩ : String)).data = "# Private Notes\n".data ++ pt.data from rfl]
    rw [show "# Private Notes\n".data ++ pt.data = "# Private Notes".data ++ ('\n' :: pt.data) from rfl]
    exact strFindL_pat_start _ _ (by decide)
  have hP : pyStrip (pySliceFrom (⟨"# Private Notes\n".data ++ pt.data⟩ : String) ((0 : Nat) + "# Private Notes".length)) = pt := by
    rw [show "# Private Notes\n".data ++ pt.data = "# Private Notes".data ++ ('\n' :: pt.data) by simp]
    rw [pySliceFrom_block' _ _ ((0 : Nat) + "# Private Notes".length) (by decide)]
    exact pyStrip_newline pt ptne (wfText_head pt hpt) (wfText_last pt hpt)
  unfold parseMarkdownSections
  rw [hposR, hposH, hposP]
  dsimp only [List.reduceOption, List.filterMap, id]
  rw [hP]
  rw [if_neg (fun he => ptne (congrArg String.data he))]

theorem secs_empty : parseMarkdownSections "" = (none, [], none) := by
  decide

/-- The sections part of `_write_markdown_file`'s output. -/
def secText (review pnotes : Option String) (hls : List String) : String :=
  (if optTruthy review then "# Review\n" ++ pyRstrip (review.getD "") ++ "\n\n" else "") ++
  (if hls.isEmpty then "" else
    "# Highlights\n" ++ String.join (hls.map (fun h => "- " ++ h ++ "\n")) ++ "\n") ++
  (if optTruthy pnotes then "# Private Notes\n" ++ pyRstrip (pnotes.getD "") ++ "\n" else "")

theorem append_ne_nil_of_right {X Y : List Char} (h : Y ≠ []) : X ++ Y ≠ [] :=
  fun he => h (List.append_eq_nil.mp he).2

/-- The section parser inverts the writer's section text on well-formed
payloads, in all eight presence combinations. -/
theorem parseMarkdownSections_secText (review pnotes : Option String)
    (hls : List String)
    (hrw : ∀ t, review = some t → wfText t = true)
    (hpw : ∀ t, pnotes = some t → wfText t = true)
    (hall : hls.all plainSafe = true) :
    parseMarkdownSections (pyStrip ⟨'\n' :: (secText review pnotes hls).data⟩)
      = (review, hls, pnotes) := by
  rcases review with _ | rt
  · rcases pnotes with _ | pt
    · rcases hls with _ | ⟨h0, hr⟩
      · rw [show ('\n' :: (secText none none ([] : List String)).data) = ['\n'] from rfl]
        rw [show pyStrip ⟨['\n']⟩ = "" by decide]
        exact secs_empty
      · have hldne := dashLines_ne_nil h0 hr
        have hsec : (secText none none (h0 :: hr)).data = ("# Highlights\n".data ++ dashLines (h0 :: hr)) ++ ['\n', '\n'] := by
          unfold secText
          rw [if_neg (by decide : ¬(optTruthy none = true))]
          rw [if_neg (by simp : ¬(((h0 :: hr).isEmpty) = true))]
          rw [if_neg (by decide : ¬(optTruthy none = true))]
          simp only [Option.getD_some]
          rw [show String.join ((h0 :: hr).map (fun h => "- " ++ h ++ "\n")) = ⟨dashLines (h0 :: hr) ++ ['\n']⟩ from String.ext (itemsJoin_data _ (List.cons_ne_nil h0 hr))]
          simp
        have hstrip : pyStrip ⟨'\n' :: (secText none none (h0 :: hr)).data⟩ = ⟨"# Highlights\n".data ++ dashLines (h0 :: hr)⟩ := by
          rw [show ('\n' :: (secText none none (h0 :: hr)).data)
              = ['\n'] ++ (("# Highlights\n".data ++ dashLines (h0 :: hr)) ++ ['\n', '\n']) by
            rw [hsec]
            rfl]
          rw [show (['\n'] ++ (("# Highlights\n".data ++ dashLines (h0 :: hr)) ++ ['\n', '\n']) : List Char)
              = ['\n'] ++ ("# Highlights\n".data ++ dashLines (h0 :: hr)) ++ ['\n', '\n'] by simp]
          refine pyStrip_sandwich ['\n'] ("# Highlights\n".data ++ dashLines (h0 :: hr)) ['\n', '\n'] (by decide) (by decide) ?_ ?_ ?_
          · exact append_ne_nil_of_right (hldne)
          · intro c hc
            rw [show (("# Highlights\n".data ++ dashLines (h0 :: hr))).head? = some '#' from rfl] at hc
            cases hc
            decide
          · intro c hc
            rw [List.getLast?_append_of_ne_nil _ (hldne)] at hc
            exact dashLines_last _ hall c hc
        rw [hstrip]
        exact secs_H h0 hr hall
    · have hpt : wfText pt = true := hpw pt rfl
      obtain ⟨ptne, -, -, -⟩ := wfText_parts pt hpt
      have hotP : optTruthy (some pt) = true :=
        decide_eq_true (fun he => ptne (congrArg String.data he))
      rcases hls with _ | ⟨h0, hr⟩
      ·
        have hsec : (secText none (some pt) ([] : List String)).data = ("# Private Notes\n".data ++ pt.data) ++ ['\n'] := by
          unfold secText
          rw [if_neg (by decide : ¬(optTruthy none = true))]
          rw [if_pos (show (([] : List String).isEmpty) = true from rfl)]
          rw [if_pos hotP]
          simp only [Option.getD_some]
          rw [pyRstrip_fix pt (wfText_last pt hpt)]
          simp
        have hstrip : pyStrip ⟨'\n' :: (secText none (some pt) ([] : List String)).data⟩ = ⟨"# Private Notes\n".data ++ pt.data⟩ := by
          rw [show ('\n' :: (secText none (some pt) ([] : List String)).data)
              = ['\n'] ++ (("# Private Notes\n".data ++ pt.data) ++ ['\n']) by
            rw [hsec]
            rfl]
          rw [show (['\n'] ++ (("# Private Notes\n".data ++ pt.data) ++ ['\n']) : List Char)
              = ['\n'] ++ ("# Private Notes\n".data ++ pt.data) ++ ['\n'] by simp]
          refine pyStrip_sandwich ['\n'] ("# Private Notes\n".data ++ pt.data) ['\n'] (by decide) (by decide) ?_ ?_ ?_
          · exact append_ne_nil_of_right (ptne)
          · intro c hc
            rw [show (("# Private Notes\n".data ++ pt.data)).head? = some '#' from rfl] at hc
            cases hc
            decide
          · intro c hc
            rw [List.getLast?_append_of_ne_nil _ (ptne)] at hc
            exact wfText_last pt hpt c hc
        rw [hstrip]
        exact secs_P pt hpt
      · have hldne := dashLines_ne_nil h0 hr
        have hsec : (secText none (some pt) (h0 :: hr)).data = ("# Highlights\n".data ++ (dashLines (h0 :: hr) ++ ("\n\n# Private Notes\n".data ++ pt.data))) ++ ['\n'] := by
          unfold secText
          rw [if_neg (by decide : ¬(optTruthy none = true))]
          rw [if_neg (by simp : ¬(((h0 :: hr).isEmpty) = true))]
          rw [if_pos hotP]
          simp only [Option.getD_some]
          rw [pyRstrip_fix pt (wfText_last pt hpt)]
          rw [show String.join ((h0 :: hr).map (fun h => "- " ++ h ++ "\n")) = ⟨dashLines (h0 :: hr) ++ ['\n']⟩ from String.ext (itemsJoin_data _ (List.cons_ne_nil h0 hr))]
          simp
        have hstrip : pyStrip ⟨'\n' :: (secText none (some pt) (h0 :: hr)).data⟩ = ⟨"# Highlights\n".data ++ (dashLines (h0 :: hr) ++ ("\n\n# Private Notes\n".data ++ pt.data))⟩ := by
          rw [show ('\n' :: (secText none (some pt) (h0 :: hr)).data)
              = ['\n'] ++ (("# Highlights\n".data ++ (dashLines (h0 :: hr) ++ ("\n\n# Private Notes\n".data ++ pt.data))) ++ ['\n']) by
            rw [hsec]
            rfl]
          rw [show (['\n'] ++ (("# Highlights\n".data ++ (dashLines (h0 :: hr) ++ ("\n\n# Private Notes\n".data ++ pt.data))) ++ ['\n']) : List Char)
              = ['\n'] ++ ("# Highlights\n".data ++ (dashLines (h0 :: hr) ++ ("\n\n# Private Notes\n".data ++ pt.data))) ++ ['\n'] by simp]
          refine pyStrip_sandwich ['\n'] ("# Highlights\n".data ++ (dashLines (h0 :: hr) ++ ("\n\n# Private Notes\n".data ++ pt.data))) ['\n'] (by decide) (by decide) ?_ ?_ ?_
          · exact append_ne_nil_of_right (append_ne_nil_of_right (append_ne_nil_of_right (ptne)))
          · intro c hc
            rw [show (("# Highlights\n".data ++ (dashLines (h0 :: hr) ++ ("\n\n# Private Notes\n".data ++ pt.data)))).head? = some '#' from rfl] at hc
            cases hc
            decide
          · intro c hc
            rw [List.getLast?_append_of_ne_nil _ (append_ne_nil_of_right (append_ne_nil_of_right (ptne)))] at hc
            rw [List.getLast?_append_of_ne_nil _ (append_ne_nil_of_right (ptne))] at hc
            rw [List.getLast?_append_of_ne_nil _ (ptne)] at hc
            exact wfText_last pt hpt c hc
        rw [hstrip]
        exact secs_HP pt h0 hr hpt hall
  · have hrt : wfText rt = true := hrw rt rfl
    obtain ⟨rtne, -, -, -⟩ := wfText_parts rt hrt
    have hotR : optTruthy (some rt) = true :=
      decide_eq_true (fun he => rtne (congrArg String.data he))
    rcases pnotes with _ | pt
    · rcases hls with _ | ⟨h0, hr⟩
      ·
        have hsec : (secText (some rt) none ([] : List String)).data = ("# Review\n".data ++ rt.data) ++ ['\n', '\n'] := by
          unfold secText
          rw [if_pos hotR]
          rw [if_pos (show (([] : List String).isEmpty) = true from rfl)]
          rw [if_neg (by decide : ¬(optTruthy none = true))]
          simp only [Option.getD_some]
          rw [pyRstrip_fix rt (wfText_last rt hrt)]
          simp
        have hstrip : pyStrip ⟨'\n' :: (secText (some rt) none ([] : List String)).data⟩ = ⟨"# Review\n".data ++ rt.data⟩ := by
          rw [show ('\n' :: (secText (some rt) none ([] : List String)).data)
              = ['\n'] ++ (("# Review\n".data ++ rt.data) ++ ['\n', '\n']) by
            rw [hsec]
            rfl]
          rw [show (['\n'] ++ (("# Review\n".data ++ rt.data) ++ ['\n', '\n']) : List Char)
              = ['\n'] ++ ("# Review\n".data ++ rt.data) ++ ['\n', '\n'] by simp]
          refine pyStrip_sandwich ['\n'] ("# Review\n".data ++ rt.data) ['\n', '\n'] (by decide) (by decide) ?_ ?_ ?_
          · exact append_ne_nil_of_right (rtne)
          · intro c hc
            rw [show (("# Review\n".data ++ rt.data)).head? = some '#' from rfl] at hc
            cases hc
            decide
          · intro c hc
            rw [List.getLast?_append_of_ne_nil _ (rtne)] at hc
            exact wfText_last rt hrt c hc
        rw [hstrip]
        exact secs_R rt hrt
      · have hldne := dashLines_ne_nil h0 hr
        have hsec : (secText (some rt) none (h0 :: hr)).data = ("# Review\n".data ++ (rt.data ++ ("\n\n# Highlights\n".data ++ dashLines (h0 :: hr)))) ++ ['\n', '\n'] := by
          unfold secText
          rw [if_pos hotR]
          rw [if_neg (by simp : ¬(((h0 :: hr).isEmpty) = true))]
          rw [if_neg (by decide : ¬(optTruthy none = true))]
          simp only [Option.getD_some]
          rw [pyRstrip_fix rt (wfText_last rt hrt)]
          rw [show String.join ((h0 :: hr).map (fun h => "- " ++ h ++ "\n")) = ⟨dashLines (h0 :: hr) ++ ['\n']⟩ from String.ext (itemsJoin_data _ (List.cons_ne_nil h0 hr))]
          simp
        have hstrip : pyStrip ⟨'\n' :: (secText (some rt) none (h0 :: hr)).data⟩ = ⟨"# Review\n".data ++ (rt.data ++ ("\n\n# Highlights\n".data ++ dashLines (h0 :: hr)))⟩ := by
          rw [show ('\n' :: (secText (some rt) none (h0 :: hr)).data)
              = ['\n'] ++ (("# Review\n".data ++ (rt.data ++ ("\n\n# Highlights\n".data ++ dashLines (h0 :: hr)))) ++ ['\n', '\n']) by
            rw [hsec]
            rfl]
          rw [show (['\n'] ++ (("# Review\n".data ++ (rt.data ++ ("\n\n# Highlights\n".data ++ dashLines (h0 :: hr)))) ++ ['\n', '\n']) : List Char)
              = ['\n'] ++ ("# Review\n".data ++ (rt.data ++ ("\n\n# Highlights\n".data ++ dashLines (h0 :: hr)))) ++ ['\n', '\n'] by simp]
          refine pyStrip_sandwich ['\n'] ("# Review\n".data ++ (rt.data ++ ("\n\n# Highlights\n".data ++ dashLines (h0 :: hr)))) ['\n', '\n'] (by decide) (by decide) ?_ ?_ ?_
          · exact append_ne_nil_of_right (append_ne_nil_of_right (append_ne_nil_of_right (hldne)))
          · intro c hc
            rw [show (("# Review\n".data ++ (rt.data ++ ("\n\n# Highlights\n".data ++ dashLines (h0 :: hr))))).head? = some '#' from rfl] at hc
            cases hc
            decide
          · intro c hc
            rw [List.getLast?_append_of_ne_nil _ (append_ne_nil_of_right (append_ne_nil_of_right (hldne)))] at hc
            rw [List.getLast?_append_of_ne_nil _ (append_ne_nil_of_right (hldne))] at hc
            rw [List.getLast?_append_of_ne_nil _ (hldne)] at hc
            exact dashLines_last _ hall c hc
        rw [hstrip]
        exact secs_RH rt h0 hr hrt hall
    · have hpt : wfText pt = true := hpw pt rfl
      obtain ⟨ptne, -, -, -⟩ := wfText_parts pt hpt
      have hotP : optTruthy (some pt) = true :=
        decide_eq_true (fun he => ptne (congrArg String.data he))
      rcases hls with _ | ⟨h0, hr⟩
      ·
        have hsec : (secText (some rt) (some pt) ([] : List String)).data = ("# Review\n".data ++ (rt.data ++ ("\n\n# Private Notes\n".data ++ pt.data))) ++ ['\n'] := by
          unfold secText
          rw [if_pos hotR]
          rw [if_pos (show (([] : List String).isEmpty) = true from rfl)]
          rw [if_pos hotP]
          simp only [Option.getD_some]
          rw [pyRstrip_fix rt (wfText_last rt hrt)]
          rw [pyRstrip_fix pt (wfText_last pt hpt)]
          simp
        have hstrip : pyStrip ⟨'\n' :: (secText (some rt) (some pt) ([] : List String)).data⟩ = ⟨"# Review\n".data ++ (rt.data ++ ("\n\n# Private Notes\n".data ++ pt.data))⟩ := by
          rw [show ('\n' :: (secText (some rt) (some pt) ([] : List String)).data)
              = ['\n'] ++ (("# Review\n".data ++ (rt.data ++ ("\n\n# Private Notes\n".data ++ pt.data))) ++ ['\n']) by
            rw [hsec]
            rfl]
          rw [show (['\n'] ++ (("# Review\n".data ++ (rt.data ++ ("\n\n# Private Notes\n".data ++ pt.data))) ++ ['\n']) : List Char)
              = ['\n'] ++ ("# Review\n".data ++ (rt.data ++ ("\n\n# Private Notes\n".data ++ pt.data))) ++ ['\n'] by simp]
          refine pyStrip_sandwich ['\n'] ("# Review\n".data ++ (rt.data ++ ("\n\n# Private Notes\n".data ++ pt.data))) ['\n'] (by decide) (by decide) ?_ ?_ ?_
          · exact append_ne_nil_of_right (append_ne_nil_of_right (append_ne_nil_of_right (ptne)))
          · intro c hc
            rw [show (("# Review\n".data ++ (rt.data ++ ("\n\n# Private Notes\n".data ++ pt.data)))).head? = some '#' from rfl] at hc
            cases hc
            decide
          · intro c hc
            rw [List.getLast?_append_of_ne_nil _ (append_ne_nil_of_right (append_ne_nil_of_right (ptne)))] at hc
            rw [List.getLast?_append_of_ne_nil _ (append_ne_nil_of_right (ptne))] at hc
            rw [List.getLast?_append_of_ne_nil _ (ptne)] at hc
            exact wfText_last pt hpt c hc
        rw [hstrip]
        exact secs_RP rt pt hrt hpt
      · have hldne := dashLines_ne_nil h0 hr
        have hsec : (secText (some rt) (some pt) (h0 :: hr)).data = ("# Review\n".data ++ (rt.data ++ ("\n\n# Highlights\n".data ++ (dashLines (h0 :: hr) ++ ("\n\n# Private Notes\n".data ++ pt.data))))) ++ ['\n'] := by
          unfold secText
          rw [if_pos hotR]
          rw [if_neg (by simp : ¬(((h0 :: hr).isEmpty) = true))]
          rw [if_pos hotP]
          simp only [Option.getD_some]
          rw [pyRstrip_fix rt (wfText_last rt hrt)]
          rw [pyRstrip_fix pt (wfText_last pt hpt)]
          rw [show String.join ((h0 :: hr).map (fun h => "- " ++ h ++ "\n")) = ⟨dashLines (h0 :: hr) ++ ['\n']⟩ from String.ext (itemsJoin_data _ (List.cons_ne_nil h0 hr))]
          simp
        have hstrip : pyStrip ⟨'\n' :: (secText (some rt) (some pt) (h0 :: hr)).data⟩ = ⟨"# Review\n".data ++ (rt.data ++ ("\n\n# Highlights\n".data ++ (dashLines (h0 :: hr) ++ ("\n\n# Private Notes\n".data ++ pt.data))))⟩ := by
          rw [show ('\n' :: (secText (some rt) (some pt) (h0 :: hr)).data)
              = ['\n'] ++ (("# Review\n".data ++ (rt.data ++ ("\n\n# Highlights\n".data ++ (dashLines (h0 :: hr) ++ ("\n\n# Private Notes\n".data ++ pt.data))))) ++ ['\n']) by
            rw [hsec]
            rfl]
          rw [show (['\n'] ++ (("# Review\n".data ++ (rt.data ++ ("\n\n# Highlights\n".data ++ (dashLines (h0 :: hr) ++ ("\n\n# Private Notes\n".data ++ pt.data))))) ++ ['\n']) : List Char)
              = ['\n'] ++ ("# Review\n".data ++ (rt.data ++ ("\n\n# Highlights\n".data ++ (dashLines (h0 :: hr) ++ ("\n\n# Private Notes\n".data ++ pt.data))))) ++ ['\n'] by simp]
          refine pyStrip_sandwich ['\n'] ("# Review\n".data ++ (rt.data ++ ("\n\n# Highlights\n".data ++ (dashLines (h0 :: hr) ++ ("\n\n# Private Notes\n".data ++ pt.data))))) ['\n'] (by decide) (by decide) ?_ ?_ ?_
          · exact append_ne_nil_of_right (append_ne_nil_of_right (append_ne_nil_of_right (append_ne_nil_of_right (append_ne_nil_of_right (ptne)))))
          · intro c hc
            rw [show (("# Review\n".data ++ (rt.data ++ ("\n\n# Highlights\n".data ++ (dashLines (h0 :: hr) ++ ("\n\n# Private Notes\n".data ++ pt.data)))))).head? = some '#' from rfl] at hc
            cases hc
            decide
          · intro c hc
            rw [List.getLast?_append_of_ne_nil _ (append_ne_nil_of_right (append_ne_nil_of_right (append_ne_nil_of_right (append_ne_nil_of_right (ptne)))))] at hc
            rw [List.getLast?_append_of_ne_nil _ (append_ne_nil_of_right (append_ne_nil_of_right (append_ne_nil_of_right (ptne))))] at hc
            rw [List.getLast?_append_of_ne_nil _ (append_ne_nil_of_right (append_ne_nil_of_right (ptne)))] at hc
            rw [List.getLast?_append_of_ne_nil _ (append_ne_nil_of_right (ptne))] at hc
            rw [List.getLast?_append_of_ne_nil _ (ptne)] at hc
            exact wfText_last pt hpt c hc
        rw [hstrip]
        exact secs_RHP rt pt h0 hr hrt hpt hall

/-! ### The frontmatter delimiter search: no stray double hyphens in a dump -/

theorem strFindL_pair_decomp (a : Char) (l : List Char)
    (h : strFindL ['-', '-'] (a :: l) = none) :
    (['-', '-'].isPrefixOf (a :: l)) = false ∧ strFindL ['-', '-'] l = none := by
  rw [show strFindL ['-', '-'] (a :: l)
      = if ['-', '-'].isPrefixOf (a :: l) then some 0
        else (strFindL ['-', '-'] l).map (· + 1) from rfl] at h
  by_cases hp : ['-', '-'].isPrefixOf (a :: l) = true
  · rw [if_pos hp] at h
    cases h
  · rw [if_neg hp] at h
    exact ⟨Bool.eq_false_iff.mpr hp, Option.map_eq_none'.mp h⟩

theorem isPrefixOf_pair_false_head (a : Char) (l : List Char) (ha : ¬(a = '-')) :
    (['-', '-'].isPrefixOf (a :: l)) = false := by
  simp [List.isPrefixOf, beq_eq_false_iff_ne.mpr (fun he => ha he.symm)]

theorem strFindL_pair_none_cons (a : Char) (l : List Char) (ha : ¬(a = '-'))
    (hl : strFindL ['-', '-'] l = none) : strFindL ['-', '-'] (a :: l) = none := by
  rw [show strFindL ['-', '-'] (a :: l)
      = if ['-', '-'].isPrefixOf (a :: l) then some 0
        else (strFindL ['-', '-'] l).map (· + 1) from rfl]
  rw [isPrefixOf_pair_false_head a l ha]
  simp only [Bool.false_eq_true, if_false]
  rw [hl]
  rfl

theorem strFindL_pair_none_dash_cons (b : Char) (l : List Char) (hb : ¬(b = '-'))
    (hl : strFindL ['-', '-'] (b :: l) = none) :
    strFindL ['-', '-'] ('-' :: b :: l) = none := by
  rw [show strFindL ['-', '-'] ('-' :: b :: l)
      = if ['-', '-'].isPrefixOf ('-' :: b :: l) then some 0
        else (strFindL ['-', '-'] (b :: l)).map (· + 1) from rfl]
  rw [show (['-', '-'].isPrefixOf ('-' :: b :: l)) = false by
    simp [List.isPrefixOf, beq_eq_false_iff_ne.mpr (fun he => hb he.symm)]]
  simp only [Bool.false_eq_true, if_false]
  rw [hl]
  rfl

theorem strFindL_pair_none_no_dash (l : List Char) (h : ∀ c ∈ l, ¬(c = '-')) :
    strFindL ['-', '-'] l = none := by
  induction l with
  | nil => rfl
  | cons a l' ih =>
    exact strFindL_pair_none_cons a l' (h a (List.mem_cons_self _ _))
      (ih (fun c hc => h c (List.mem_cons_of_mem _ hc)))

theorem strFindL_pair_none_append (A B : List Char)
    (hA : strFindL ['-', '-'] A = none)
    (hB : strFindL ['-', '-'] B = none)
    (hAB : ∀ c, A.getLast? = some c → ∀ d, B.head? = some d →
      ¬(c = '-' ∧ d = '-')) :
    strFindL ['-', '-'] (A ++ B) = none := by
  induction A with
  | nil => simpa using hB
  | cons a A' ih =>
    obtain ⟨hp, hA'⟩ := strFindL_pair_decomp a A' hA
    rw [List.cons_append]
    rw [show strFindL ['-', '-'] (a :: (A' ++ B))
        = if ['-', '-'].isPrefixOf (a :: (A' ++ B)) then some 0
          else (strFindL ['-', '-'] (A' ++ B)).map (· + 1) from rfl]
    have hnp : (['-', '-'].isPrefixOf (a :: (A' ++ B))) = false := by
      cases A' with
      | nil =>
        rcases hd : B with _ | ⟨b0, bs⟩
        · simp [List.isPrefixOf]
        · by_cases ha' : a = '-'
          · have hcd := hAB a rfl b0 (by rw [hd]; rfl)
            have hb0 : ¬(b0 = '-') := fun hb => hcd ⟨ha', hb⟩
            subst ha'
            simp [List.isPrefixOf, beq_eq_false_iff_ne.mpr (fun he => hb0 he.symm)]
          · exact isPrefixOf_pair_false_head a _ ha'
      | cons a2 A'' =>
        rw [List.cons_append]
        simp only [List.isPrefixOf] at hp ⊢
        exact hp
    rw [hnp]
    simp only [Bool.false_eq_true, if_false]
    rw [ih hA' (fun c hc => hAB c (by
      cases A' with
      | nil => cases hc
      | cons x xs =>
        rw [show (a :: x :: xs).getLast? = (x :: xs).getLast? from rfl]
        exact hc))]
    rfl

theorem renderScalar_no_dd (v : YVal) (hv : wfVal v = true) :
    strFindL ['-', '-'] (renderScalar v).data = none := by
  cases v with
  | str s =>
    by_cases hs0 : s = ""
    · subst hs0
      decide
    · by_cases hps : plainSafe s = true
      · rw [show renderScalar (.str s) = s by simp [renderScalar, hs0, hps]]
        obtain ⟨-, hall, -⟩ := plainSafe_parts s hps
        exact strFindL_pair_none_no_dash _ (fun c hc =>
          char_ne_of_pred plainChar (List.all_eq_true.mp hall c hc) (by decide))
      · have hqs : quotedSafe s = true := by
          simp only [wfVal, Bool.or_eq_true, beq_iff_eq] at hv
          rcases hv with (hv | hv) | hv
          · exact absurd hv hs0
          · exact absurd hv hps
          · exact hv
        simp only [quotedSafe, Bool.and_eq_true] at hqs
        obtain ⟨⟨-, -⟩, hdd⟩ := hqs
        have hdd' : strFindL ['-', '-'] s.data = none := by
          cases hfd : strFindL ['-', '-'] s.data
          · rfl
          · rw [hfd] at hdd
            simp at hdd
        rw [show renderScalar (.str s) = "'" ++ s ++ "'" by
          simp [renderScalar, hs0, hps]]
        rw [show ("'" ++ s ++ "'").data = '\'' :: (s.data ++ ['\'']) by simp]
        apply strFindL_pair_none_cons _ _ (by decide)
        apply strFindL_pair_none_append s.data ['\''] hdd' (by decide)
        intro c hc d hd
        cases hd
        exact fun hcd => absurd hcd.2 (by decide)
  | int n =>
    cases n with
    | ofNat m =>
      exact strFindL_pair_none_no_dash _ (fun c hc =>
        char_ne_of_pred Char.isDigit
          (List.all_eq_true.mp (natToStr_data_digits m) c hc) (by decide))
    | negSucc m =>
      rw [show (renderScalar (.int (.negSucc m))).data
          = '-' :: (natToStr (m + 1)).data by simp [renderScalar, intToStr]]
      rcases hd : (natToStr (m + 1)).data with _ | ⟨d0, ds⟩
      · exact absurd hd (natToStr_ne_nil (m + 1))
      · have hdig : ∀ c ∈ d0 :: ds, c.isDigit = true := by
          rw [← hd]
          exact List.all_eq_true.mp (natToStr_data_digits (m + 1))
        apply strFindL_pair_none_dash_cons _ _
          (char_ne_of_pred Char.isDigit (hdig d0 (List.mem_cons_self _ _)) (by decide))
        exact strFindL_pair_none_no_dash _ (fun c hc =>
          char_ne_of_pred Char.isDigit (hdig c hc) (by decide))
  | bool b => cases b <;> decide
  | list xs =>
    rw [show renderScalar (.list xs) = "[]" from rfl]
    decide
  | null => exact absurd hv (by decide)

theorem key_no_dash (k : String) (hk : wfKey k = true) :
    ∀ c ∈ k.data, ¬(c = '-') := by
  obtain ⟨-, hkall⟩ := wfKey_parts k hk
  exact fun c hc => char_ne_of_pred wfKeyChar (hkall c hc) (by decide)

theorem dump_line_no_dd (fm : List (String × YVal))
    (h : fm.all (fun kv => wfKey kv.1 && wfVal kv.2) = true) :
    ∀ l ∈ (fm.map renderPairLines).flatten, strFindL ['-', '-'] l.data = none := by
  intro l hl
  rw [List.mem_flatten] at hl
  obtain ⟨ls, hls, hlm⟩ := hl
  rw [List.mem_map] at hls
  obtain ⟨kv, hkv, rfl⟩ := hls
  obtain ⟨k, v⟩ := kv
  have hwf := List.all_eq_true.mp h _ hkv
  simp only [Bool.and_eq_true] at hwf
  obtain ⟨hk, hv⟩ := hwf
  have hknd := key_no_dash k hk
  have hknone : strFindL ['-', '-'] k.data = none := strFindL_pair_none_no_dash _ hknd
  have hbound : ∀ (X : List Char), X.head? = some ':' →
      ∀ c, k.data.getLast? = some c → ∀ d, X.head? = some d → ¬(c = '-' ∧ d = '-') := by
    intro X hX c hc d hd
    rw [hX] at hd
    cases hd
    exact fun hcd => absurd hcd.2 (by decide)
  by_cases hvl : ∃ y ys, v = YVal.list (y :: ys)
  · obtain ⟨y, ys, rfl⟩ := hvl
    rw [show renderPairLines (k, YVal.list (y :: ys))
        = (k ++ ":") :: (y :: ys).map (fun t => "- " ++ t) from rfl] at hlm
    rcases List.mem_cons.mp hlm with rfl | hlm
    · rw [show (k ++ ":").data = k.data ++ [':'] by rw [String.data_append]]
      exact strFindL_pair_none_append k.data [':'] hknone (by decide)
        (hbound [':'] rfl)
    · rw [List.mem_map] at hlm
      obtain ⟨t, htm, rfl⟩ := hlm
      have hts : plainSafe t = true := by
        simp only [wfVal] at hv
        exact List.all_eq_true.mp hv t htm
      obtain ⟨-, hpl, -⟩ := plainSafe_parts t hts
      have htnd : ∀ c ∈ t.data, ¬(c = '-') := fun c hc =>
        char_ne_of_pred plainChar (List.all_eq_true.mp hpl c hc) (by decide)
      rw [show ("- " ++ t).data = '-' :: ' ' :: t.data by rw [String.data_append]; rfl]
      exact strFindL_pair_none_dash_cons ' ' t.data (by decide)
        (strFindL_pair_none_cons ' ' t.data (by decide)
          (strFindL_pair_none_no_dash t.data htnd))
  · have hshape : renderPairLines (k, v) = [k ++ ": " ++ renderScalar v] := by
      cases v with
      | list xs =>
        cases xs with
        | nil => rfl
        | cons y ys => exact absurd ⟨y, ys, rfl⟩ hvl
      | str s => rfl
      | int n => rfl
      | bool b => rfl
      | null => rfl
    rw [hshape] at hlm
    rcases List.mem_singleton.mp hlm with rfl
    rw [show (k ++ ": " ++ renderScalar v).data
        = k.data ++ (':' :: ' ' :: (renderScalar v).data) by
      rw [append_assoc_str, String.data_append]; rfl]
    exact strFindL_pair_none_append k.data _ hknone
      (strFindL_pair_none_cons _ _ (by decide)
        (strFindL_pair_none_cons _ _ (by decide) (renderScalar_no_dd v hv)))
      (hbound _ rfl)

theorem chunks_no_dd (L : List (List Char))
    (h : ∀ l ∈ L, strFindL ['-', '-'] l = none) :
    strFindL ['-', '-'] ((L.map (fun l => l ++ ['\n'])).flatten) = none := by
  induction L with
  | nil => rfl
  | cons l ls ih =>
    simp only [List.map_cons, List.flatten_cons]
    apply strFindL_pair_none_append
    · apply strFindL_pair_none_append l ['\n'] (h l (List.mem_cons_self _ _)) (by decide)
      intro c hc d hd
      cases hd
      exact fun hcd => absurd hcd.2 (by decide)
    · exact ih (fun t ht => h t (List.mem_cons_of_mem _ ht))
    · intro c hc d hd
      rw [show l ++ ['\n'] = l ++ ['\n'] from rfl, List.getLast?_concat] at hc
      cases hc
      exact fun hcd => absurd hcd.1 (by decide)

theorem flatten_chunks_last (L : List (List Char)) :
    ∀ c, ((L.map (fun l => l ++ ['\n'])).flatten).getLast? = some c → c = '\n' := by
  induction L with
  | nil =>
    intro c hc
    cases hc
  | cons l ls ih =>
    intro c hc
    simp only [List.map_cons, List.flatten_cons] at hc
    rcases hfl : (ls.map (fun t => t ++ ['\n'])).flatten with _ | ⟨x, xs⟩
    · rw [hfl, List.append_nil, List.getLast?_concat] at hc
      cases hc
      rfl
    · rw [hfl, List.getLast?_append_of_ne_nil _ (List.cons_ne_nil x xs)] at hc
      rw [← hfl] at hc
      exact ih c hc

theorem dump_no_dd (fm : List (String × YVal))
    (h : fm.all (fun kv => wfKey kv.1 && wfVal kv.2) = true) :
    strFindL ['-', '-'] (yamlDump fm).data = none := by
  rw [yamlDump_data]
  apply chunks_no_dd
  intro l hl
  rw [List.mem_map] at hl
  obtain ⟨t, ht, rfl⟩ := hl
  exact dump_line_no_dd fm h t ht

theorem dump_last_nl (fm : List (String × YVal)) :
    ∀ c, (yamlDump fm).data.getLast? = some c → c = '\n' := by
  rw [yamlDump_data]
  exact flatten_chunks_last _

theorem strFindL_marker (A B : List Char)
    (h2 : strFindL ['-', '-'] A = none)
    (hl : ∀ c, A.getLast? = some c → ¬(c = '-')) :
    strFindL ['-', '-', '-'] (A ++ '-' :: '-' :: '-' :: B) = some A.length := by
  induction A with
  | nil =>
    rw [List.nil_append]
    exact strFindL_pat_start ['-', '-', '-'] B (by decide)
  | cons a A' ih =>
    obtain ⟨hp, hA'⟩ := strFindL_pair_decomp a A' h2
    rw [List.cons_append]
    rw [show strFindL ['-', '-', '-'] (a :: (A' ++ '-' :: '-' :: '-' :: B))
        = if ['-', '-', '-'].isPrefixOf (a :: (A' ++ '-' :: '-' :: '-' :: B)) then some 0
          else (strFindL ['-', '-', '-'] (A' ++ '-' :: '-' :: '-' :: B)).map (· + 1)
      from rfl]
    have hnp : (['-', '-', '-'].isPrefixOf (a :: (A' ++ '-' :: '-' :: '-' :: B)))
        = false := by
      cases A' with
      | nil =>
        have ha : ¬(a = '-') := hl a rfl
        simp [List.isPrefixOf, beq_eq_false_iff_ne.mpr (fun he => ha he.symm)]
      | cons a2 A'' =>
        by_cases ha : a = '-'
        · by_cases ha2 : a2 = '-'
          · exfalso
            rw [ha, ha2] at hp
            exact absurd hp (by simp [List.isPrefixOf])
          · subst ha
            rw [List.cons_append]
            simp [List.isPrefixOf, beq_eq_false_iff_ne.mpr (fun he => ha2 he.symm)]
        · simp [List.isPrefixOf, beq_eq_false_iff_ne.mpr (fun he => ha he.symm)]
    rw [hnp]
    simp only [Bool.false_eq_true, if_false]
    rw [ih hA' (fun c hc => hl c (by
      cases A' with
      | nil => cases hc
      | cons x xs =>
        rw [show (a :: x :: xs).getLast? = (x :: xs).getLast? from rfl]
        exact hc))]
    rfl

/-! ### Splitting the written file and the full round trip -/

theorem writeMarkdownContent_eq (fm : List (String × YVal))
    (review pnotes : Option String) (hls : List String) :
    writeMarkdownContent fm review pnotes hls
      = "---" ++ (yamlDump (cleanFm fm) ++ ("---\n" ++ secText review pnotes hls)) := by
  unfold writeMarkdownContent secText cleanFm
  apply String.ext
  simp

theorem writeMarkdownContent_data (fm : List (String × YVal))
    (review pnotes : Option String) (hls : List String) :
    (writeMarkdownContent fm review pnotes hls).data
      = '-' :: '-' :: '-' :: ((yamlDump (cleanFm fm)).data ++
          ('-' :: '-' :: '-' :: '\n' :: (secText review pnotes hls).data)) := by
  rw [writeMarkdownContent_eq]
  rw [String.data_append, String.data_append, String.data_append]
  rfl

theorem pySplitMax2_write (fm : List (String × YVal)) (review pnotes : Option String)
    (hls : List String)
    (hwfc : (cleanFm fm).all (fun kv => wfKey kv.1 && wfVal kv.2) = true) :
    pySplitMax2 (writeMarkdownContent fm review pnotes hls) "---"
      = ["", yamlDump (cleanFm fm), ⟨'\n' :: (secText review pnotes hls).data⟩] := by
  unfold pySplitMax2
  rw [show ("---" : String).data = ['-', '-', '-'] from rfl]
  rw [writeMarkdownContent_data]
  rw [show strFindL ['-', '-', '-'] ('-' :: '-' :: '-' :: ((yamlDump (cleanFm fm)).data ++
      ('-' :: '-' :: '-' :: '\n' :: (secText review pnotes hls).data)))
      = some 0 from strFindL_pat_start ['-', '-', '-'] _ (by decide)]
  dsimp only
  rw [show ('-' :: '-' :: '-' :: ((yamlDump (cleanFm fm)).data ++
      ('-' :: '-' :: '-' :: '\n' :: (secText review pnotes hls).data))).drop
        (0 + (['-', '-', '-'] : List Char).length)
      = (yamlDump (cleanFm fm)).data ++
          ('-' :: '-' :: '-' :: '\n' :: (secText review pnotes hls).data) from rfl]
  rw [show strFindL ['-', '-', '-'] ((yamlDump (cleanFm fm)).data ++
      ('-' :: '-' :: '-' :: '\n' :: (secText review pnotes hls).data))
      = some ((yamlDump (cleanFm fm)).data.length) from
    strFindL_marker _ _ (dump_no_dd _ hwfc)
      (fun c hc => by rw [dump_last_nl _ c hc]; decide)]
  dsimp only
  rw [List.take_left]
  rw [show ((yamlDump (cleanFm fm)).data ++
      ('-' :: '-' :: '-' :: '\n' :: (secText review pnotes hls).data)).drop
        ((yamlDump (cleanFm fm)).data.length + (['-', '-', '-'] : List Char).length)
      = '\n' :: (secText review pnotes hls).data by
    rw [← List.drop_drop]
    rw [List.drop_left]
    rfl]
  rfl

/-- A serialization-safe document: non-empty frontmatter of well-formed
keys and values without the reserved `sync_hash` key (the writer purges it
and drops `None` values, so these do not round-trip), well-formed free-text
payloads, and plain highlight strings. -/
def wfDoc (fm : List (String × YVal)) (review pnotes : Option String)
    (hls : List String) : Bool :=
  !(fm.isEmpty) &&
  fm.all (fun kv => wfKey kv.1 && wfVal kv.2 && !(kv.1 = "sync_hash")) &&
  (match review with | some t => wfText t | none => true) &&
  (match pnotes with | some t => wfText t | none => true) &&
  hls.all plainSafe

theorem wfDoc_parts (fm : List (String × YVal)) (review pnotes : Option String)
    (hls : List String) (h : wfDoc fm review pnotes hls = true) :
    fm ≠ [] ∧ fm.all (fun kv => wfKey kv.1 && wfVal kv.2) = true ∧
    fm.all (fun kv => wfKey kv.1 && wfVal kv.2 && !(kv.1 = "sync_hash")) = true ∧
    (∀ t, review = some t → wfText t = true) ∧
    (∀ t, pnotes = some t → wfText t = true) ∧
    hls.all plainSafe = true := by
  simp only [wfDoc, Bool.and_eq_true, Bool.not_eq_true'] at h
  obtain ⟨⟨⟨⟨hne, hall⟩, hrev⟩, hpno⟩, hhl⟩ := h
  refine ⟨?_, ?_, hall, ?_, ?_, hhl⟩
  · intro he
    rw [he] at hne
    exact absurd hne (by decide)
  · rw [List.all_eq_true] at hall ⊢
    intro kv hkv
    have h2 := hall kv hkv
    simp only [Bool.and_eq_true] at h2
    simp only [Bool.and_eq_true]
    exact h2.1
  · intro t ht
    rw [ht] at hrev
    exact hrev
  · intro t ht
    rw [ht] at hpno
    exact hpno

theorem cleanFm_id (fm : List (String × YVal))
    (h : fm.all (fun kv => wfKey kv.1 && wfVal kv.2 && !(kv.1 = "sync_hash")) = true) :
    cleanFm fm = fm := by
  unfold cleanFm
  apply List.filter_eq_self.mpr
  intro kv hkv
  have hk := List.all_eq_true.mp h kv hkv
  simp only [Bool.and_eq_true, Bool.not_eq_true'] at hk
  obtain ⟨⟨-, hv⟩, hs⟩ := hk
  simp only [Bool.and_eq_true, Bool.not_eq_true']
  constructor
  · apply decide_eq_false
    intro he
    rw [he] at hv
    exact absurd hv (by decide)
  · exact hs

/-- C1 (counterexample): the claimed unconditional round-trip identity
fails.  A document with the truthy title `b` whose review text embeds a
heading line (`x\n# Highlights\ny`) does not survive
`_parse_markdown_file ∘ _write_markdown_file`: the parser truncates the
review at the embedded heading, so the parsed document differs from the
original on the review content field. -/
theorem round_trip_cex :
    parseMarkdownFile (writeMarkdownContent [("title", YVal.str "b")]
        (some ("x\n# Highlights\ny")) none [])
      ≠ some ⟨Yaml.map [("title", YVal.str "b")],
          some ("x\n# Highlights\ny"), none, []⟩ := by
  decide

/-- C1 (amended): round-trip identity holds for serialization-safe
documents.  For every document whose frontmatter is a non-empty mapping of
well-formed keys and values without the purged `sync_hash` key, whose
review and private-notes payloads (when present) are non-empty, unpadded
and heading-free, and whose highlights are plain scalars, parsing the
content written by `_write_markdown_file` recovers the document exactly:
the same frontmatter mapping, review text, ordered highlights list and
private notes. -/
theorem round_trip_identity (fm : List (String × YVal))
    (review pnotes : Option String) (hls : List String)
    (h : wfDoc fm review pnotes hls = true) :
    parseMarkdownFile (writeMarkdownContent fm review pnotes hls)
      = some ⟨Yaml.map fm, review, pnotes, hls⟩ := by
  obtain ⟨hne, hall2, hall3, hrw, hpw, hhl⟩ := wfDoc_parts fm review pnotes hls h
  have hcid : cleanFm fm = fm := cleanFm_id fm hall3
  unfold parseMarkdownFile
  rw [show pyStartsWith (writeMarkdownContent fm review pnotes hls) "---" = true by
    unfold pyStartsWith
    rw [writeMarkdownContent_data]
    exact List.isPrefixOf_iff_prefix.mpr ⟨_, rfl⟩]
  rw [show (!true) = false from rfl]
  simp only [Bool.false_eq_true, if_false]
  rw [pySplitMax2_write fm review pnotes hls (by rw [hcid]; exact hall2)]
  dsimp only
  rw [hcid]
  rw [yamlLoad_dump fm hall2 hne]
  dsimp only
  rw [parseMarkdownSections_secText review pnotes hls hrw hpw hhl]

theorem round_trip_identity_witness :
    wfDoc [("title", YVal.str "b")] (some "ok") (some "p.s") ["h1", "h2"] = true ∧
    parseMarkdownFile (writeMarkdownContent [("title", YVal.str "b")]
        (some "ok") (some "p.s") ["h1", "h2"])
      = some ⟨Yaml.map [("title", YVal.str "b")], some "ok", some "p.s",
          ["h1", "h2"]⟩ :=
  ⟨by decide, round_trip_identity [("title", YVal.str "b")] (some "ok") (some "p.s")
    ["h1", "h2"] (by decide)⟩

end GoodreadsSync
